/-
Verification of the YUV node core against its source.

This development embeds, in Lean 4, the parts of the `yuv` repository that
the checked claims are about:

* `tx-check/src/isolated_checks.rs` — the isolated validator (conservation
  rules, issue announcement checks, issuer-ownership check);
* `tx-check/src/worker.rs` — the checker worker (freeze recomputation,
  announcement checks);
* `types/src/consensus.rs`, `types/src/announcements/announcement.rs` —
  the consensus codec;
* `tx-attach/src/lib.rs` — the DAG attacher (attach, pagination, cleanup);
* `indexers/src/indexer.rs` — the block indexer.

Machine integers (`u32`, `u128`, `usize`) are embedded as `Nat`; the code
under scrutiny never relies on wrap-around for these values (sums of
`u128` amounts may overflow in Rust, which would panic in debug mode; the
embedding uses exact arithmetic, matching the intended semantics).
Cryptographic primitives that live in external crates (secp256k1 key
parsing, pixel-key tweaking, script hashing) are taken as parameters of
the definitions that use them; all control flow of the repository's own
code is embedded directly.
-/
import Mathlib

namespace Yuv

/-! ## Pixels and pixel proofs

`Pixel`, `PixelProof` live in the `yuv-pixels` crate, whose sources are
not part of this snapshot. Modelled from the spec: a pixel is the pair
`(luma, chroma)` where `chroma` is a 32-byte x-only public key
identifying a token and `luma` holds a non-negative amount; `PixelProof`
is a tagged variant over {SigP2WPKH, Multisig, Bulletproof,
LightningHTLC, EmptyPixel}, each carrying its plaintext pixel, and the
empty-pixel proof's pixel has luma zero and an all-zero sentinel chroma.
Chromas and keys are represented by `Nat` (the sentinel chroma is `0`). -/

structure Pixel where
  chroma : Nat
  amount : Nat
  deriving DecidableEq, Repr

/-- `Pixel::empty()`: zero luma, all-zero sentinel chroma. -/
def Pixel.empty : Pixel := ⟨0, 0⟩

inductive PixelProof where
  | sig (pixel : Pixel)
  | multisig (pixel : Pixel)
  | bulletproof (pixel : Pixel)
  | htlc (pixel : Pixel)
  | emptyPixel
  deriving DecidableEq, Repr

/-- `PixelProof::pixel()`: the plaintext pixel carried by the proof
(`Pixel::empty()` for the empty-pixel variant). -/
def PixelProof.pixel : PixelProof → Pixel
  | .sig p => p
  | .multisig p => p
  | .bulletproof p => p
  | .htlc p => p
  | .emptyPixel => Pixel.empty

/-- `PixelProof::is_empty_pixelproof()`. -/
def PixelProof.is_empty_pixelproof : PixelProof → Bool
  | .emptyPixel => true
  | _ => false

/-- `PixelProof::get_bulletproof().is_some()`. -/
def PixelProof.is_bulletproof_variant : PixelProof → Bool
  | .bulletproof _ => true
  | _ => false

/-! ## C1 — transfer conservation rules

Embedding of `sum_amount_by_chroma` and
`check_transfer_conservation_rules` from
`tx-check/src/isolated_checks.rs` (lines 232–261). The Rust code folds
the proofs into a `HashMap<Chroma, u128>` and compares the two maps with
`HashMap::eq`. The map is embedded as an association list built exactly
as the fold builds it (`entry(..).or_insert(0); *sum += amount`), and
`HashMap::eq` as `len` equality plus value agreement on every key of the
left map, which is what Rust's `impl PartialEq for HashMap` does. -/

inductive CheckError where
  | invalidProof (vout : Nat)
  | notSameChroma
  | conservationRulesViolated
  | issuerNotOwner
  | notEnoughProofs (provided required : Nat)
  | proofMappedToNotExistingInputOutput
  | announcedAmountDoesNotMatch (announced actual : Nat)
  | issueAnnouncementMismatch
  | emptyOutputs
  deriving DecidableEq, Repr

/-- `chromas.entry(pixel.chroma).or_insert(0); *chroma_sum += amount` on an
association-list representation of `HashMap<Chroma, u128>`. -/
def hmAdd (m : List (Nat × Nat)) (c amt : Nat) : List (Nat × Nat) :=
  match m with
  | [] => [(c, amt)]
  | (k, v) :: rest =>
    if k = c then (k, v + amt) :: rest
    else (k, v) :: hmAdd rest c amt

def hmLookup (m : List (Nat × Nat)) (c : Nat) : Option Nat :=
  match m with
  | [] => none
  | (k, v) :: rest => if k = c then some v else hmLookup rest c

/-- `impl PartialEq for HashMap`: equal lengths and, for every entry of the
left map, the right map holds the same value at that key. -/
def hmEq (m₁ m₂ : List (Nat × Nat)) : Bool :=
  m₁.length == m₂.length &&
    m₁.all (fun kv => hmLookup m₂ kv.1 == some kv.2)

/-- `sum_amount_by_chroma` (isolated_checks.rs:246): fold the proofs,
skipping empty-pixel proofs and zero lumas. -/
def sum_amount_by_chroma (proofs : List PixelProof) : List (Nat × Nat) :=
  proofs.foldl
    (fun m proof =>
      if proof.is_empty_pixelproof || proof.pixel.amount == 0 then m
      else hmAdd m proof.pixel.chroma proof.pixel.amount)
    []

/-- `check_transfer_conservation_rules` (isolated_checks.rs:232). -/
def check_transfer_conservation_rules (inputs outputs : List PixelProof) :
    Except CheckError Unit :=
  if hmEq (sum_amount_by_chroma inputs) (sum_amount_by_chroma outputs) then
    Except.ok ()
  else
    Except.error CheckError.conservationRulesViolated

/-- Specification-side per-chroma sum: total luma amount over the proofs
of chroma `c`, excluding empty-pixel proofs and zero amounts. -/
def chromaSum (proofs : List PixelProof) (c : Nat) : Nat :=
  ((proofs.filter
    (fun p => !p.is_empty_pixelproof && p.pixel.amount != 0 && p.pixel.chroma == c)).map
    (fun p => p.pixel.amount)).sum

lemma chromaSum_nil (c : Nat) : chromaSum [] c = 0 := rfl

lemma chromaSum_cons (p : PixelProof) (ps : List PixelProof) (c : Nat) :
    chromaSum (p :: ps) c =
      (if !p.is_empty_pixelproof && p.pixel.amount != 0 && p.pixel.chroma == c
        then p.pixel.amount else 0) + chromaSum ps c := by
  by_cases h : (!p.is_empty_pixelproof && p.pixel.amount != 0 && p.pixel.chroma == c) = true
  · simp [chromaSum, List.filter_cons, h]
  · simp only [Bool.not_eq_true] at h
    simp [chromaSum, List.filter_cons, h]

lemma hmAdd_cons_eq (k v a : Nat) (rest : List (Nat × Nat)) :
    hmAdd ((k, v) :: rest) k a = (k, v + a) :: rest := by
  simp [hmAdd]

lemma hmAdd_cons_ne (k v c a : Nat) (rest : List (Nat × Nat)) (h : k ≠ c) :
    hmAdd ((k, v) :: rest) c a = (k, v) :: hmAdd rest c a := by
  simp [hmAdd, h]

lemma hmLookup_cons_eq (k v : Nat) (rest : List (Nat × Nat)) :
    hmLookup ((k, v) :: rest) k = some v := by
  simp [hmLookup]

lemma hmLookup_cons_ne (k v c : Nat) (rest : List (Nat × Nat)) (h : k ≠ c) :
    hmLookup ((k, v) :: rest) c = hmLookup rest c := by
  simp [hmLookup, h]

lemma hmLookup_hmAdd (m : List (Nat × Nat)) (c a c' : Nat) :
    hmLookup (hmAdd m c a) c' =
      if c' = c then some ((hmLookup m c).getD 0 + a) else hmLookup m c' := by
  induction m with
  | nil =>
    by_cases h : c' = c
    · subst h; simp [hmAdd, hmLookup_cons_eq, hmLookup]
    · rw [if_neg h]
      show hmLookup [(c, a)] c' = hmLookup [] c'
      rw [hmLookup_cons_ne c a c' [] (fun hh => h hh.symm)]
  | cons kv rest ih =>
    obtain ⟨k, v⟩ := kv
    by_cases hk : k = c
    · subst hk
      rw [hmAdd_cons_eq, hmLookup_cons_eq]
      by_cases h : c' = k
      · subst h; rw [if_pos rfl, hmLookup_cons_eq]; rfl
      · rw [if_neg h, hmLookup_cons_ne k (v + a) c' rest (fun hh => h hh.symm),
          hmLookup_cons_ne k v c' rest (fun hh => h hh.symm)]
    · rw [hmAdd_cons_ne k v c a rest hk, hmLookup_cons_ne k v c rest hk]
      by_cases h2 : k = c'
      · subst h2
        rw [hmLookup_cons_eq, if_neg (fun hh : k = c => hk hh), hmLookup_cons_eq]
      · rw [hmLookup_cons_ne k v c' (hmAdd rest c a) h2, ih,
          hmLookup_cons_ne k v c' rest h2]

/-- Key sets under `hmAdd`. -/
lemma mem_keys_hmAdd (m : List (Nat × Nat)) (c a x : Nat) :
    x ∈ (hmAdd m c a).map Prod.fst ↔ x ∈ m.map Prod.fst ∨ x = c := by
  induction m with
  | nil => simp [hmAdd]
  | cons kv rest ih =>
    obtain ⟨k, v⟩ := kv
    by_cases hk : k = c
    · subst hk
      rw [hmAdd_cons_eq]
      simp only [List.map_cons, List.mem_cons]
      tauto
    · rw [hmAdd_cons_ne k v c a rest hk]
      simp only [List.map_cons, List.mem_cons, ih]
      tauto

lemma nodup_keys_hmAdd (m : List (Nat × Nat)) (c a : Nat)
    (h : (m.map Prod.fst).Nodup) : ((hmAdd m c a).map Prod.fst).Nodup := by
  induction m with
  | nil => simp [hmAdd]
  | cons kv rest ih =>
    obtain ⟨k, v⟩ := kv
    simp only [List.map_cons, List.nodup_cons] at h
    by_cases hk : k = c
    · subst hk
      rw [hmAdd_cons_eq]
      simpa [List.nodup_cons] using h
    · rw [hmAdd_cons_ne k v c a rest hk]
      simp only [List.map_cons, List.nodup_cons]
      refine ⟨fun hmem => ?_, ih h.2⟩
      rcases (mem_keys_hmAdd rest c a k).mp hmem with h1 | h1
      · exact h.1 h1
      · exact hk h1

/-- The fold in `sum_amount_by_chroma` keeps the key list duplicate-free. -/
lemma nodup_keys_sum_amount_by_chroma (ps : List PixelProof) :
    ((sum_amount_by_chroma ps).map Prod.fst).Nodup := by
  suffices h : ∀ m : List (Nat × Nat), (m.map Prod.fst).Nodup →
      ((ps.foldl
        (fun m proof =>
          if proof.is_empty_pixelproof || proof.pixel.amount == 0 then m
          else hmAdd m proof.pixel.chroma proof.pixel.amount) m).map Prod.fst).Nodup by
    exact h [] (by simp)
  induction ps with
  | nil => intro m hm; simpa using hm
  | cons p ps ih =>
    intro m hm
    simp only [List.foldl_cons]
    by_cases hp : (p.is_empty_pixelproof || p.pixel.amount == 0) = true
    · rw [if_pos hp]; exact ih m hm
    · rw [if_neg hp]; exact ih _ (nodup_keys_hmAdd m _ _ hm)

/-- What `sum_amount_by_chroma` computes, pointwise: the per-chroma sum,
with chromas of zero sum absent from the map. -/
lemma hmLookup_sum_amount_by_chroma (ps : List PixelProof) (c : Nat) :
    hmLookup (sum_amount_by_chroma ps) c =
      if chromaSum ps c = 0 then none else some (chromaSum ps c) := by
  suffices h : ∀ m : List (Nat × Nat),
      hmLookup (ps.foldl
        (fun m proof =>
          if proof.is_empty_pixelproof || proof.pixel.amount == 0 then m
          else hmAdd m proof.pixel.chroma proof.pixel.amount) m) c =
      (match hmLookup m c with
        | some v => some (v + chromaSum ps c)
        | none => if chromaSum ps c = 0 then none else some (chromaSum ps c)) by
    have := h []
    simpa [sum_amount_by_chroma, hmLookup] using this
  induction ps with
  | nil =>
    intro m
    cases h : hmLookup m c <;> simp [chromaSum_nil, h]
  | cons p ps ih =>
    intro m
    simp only [List.foldl_cons]
    by_cases hemp : p.is_empty_pixelproof = true
    · rw [if_pos (by simp [hemp]), ih m, chromaSum_cons]
      cases h : hmLookup m c <;> simp [h, hemp]
    · replace hemp : p.is_empty_pixelproof = false := by
        cases h : p.is_empty_pixelproof
        · rfl
        · exact absurd h hemp
      by_cases hz : p.pixel.amount = 0
      · rw [if_pos (by simp [hz]), ih m, chromaSum_cons]
        cases h : hmLookup m c <;> simp [h, hz]
      · rw [if_neg (by simp [hemp, hz]),
          ih (hmAdd m p.pixel.chroma p.pixel.amount), hmLookup_hmAdd, chromaSum_cons]
        by_cases hc : c = p.pixel.chroma
        · rw [hc, if_pos rfl]
          have hguard :
              (!p.is_empty_pixelproof && p.pixel.amount != 0 &&
                p.pixel.chroma == p.pixel.chroma) = true := by
            simp [hemp, hz]
          rw [hguard]
          cases h : hmLookup m p.pixel.chroma with
          | some v => simp [Nat.add_assoc]
          | none =>
            simp only [Option.getD_none, Nat.zero_add, if_true]
            rw [if_neg (by omega)]
        · rw [if_neg hc]
          have hguard :
              (!p.is_empty_pixelproof && p.pixel.amount != 0 && p.pixel.chroma == c) = false := by
            have hb : (p.pixel.chroma == c) = false :=
              beq_eq_false_iff_ne.mpr (fun h => hc h.symm)
            simp [hb]
          rw [hguard]
          cases h : hmLookup m c <;> simp

lemma hmLookup_eq_some_of_mem (m : List (Nat × Nat)) (k v : Nat)
    (hnd : (m.map Prod.fst).Nodup) (hmem : (k, v) ∈ m) : hmLookup m k = some v := by
  induction m with
  | nil => cases hmem
  | cons kv rest ih =>
    obtain ⟨k', v'⟩ := kv
    simp only [List.map_cons, List.nodup_cons] at hnd
    rcases List.mem_cons.mp hmem with h | h
    · rw [show k' = k from ((Prod.mk.injEq .. ▸ h).1).symm,
        show v' = v from ((Prod.mk.injEq .. ▸ h).2).symm]
      exact hmLookup_cons_eq k v rest
    · have hk : k' ≠ k := by
        intro hh; subst hh
        exact hnd.1 (List.mem_map.mpr ⟨(k', v), h, rfl⟩)
      rw [hmLookup_cons_ne k' v' k rest hk]
      exact ih hnd.2 h

lemma mem_of_hmLookup (m : List (Nat × Nat)) (k v : Nat)
    (h : hmLookup m k = some v) : (k, v) ∈ m := by
  induction m with
  | nil => simp [hmLookup] at h
  | cons kv rest ih =>
    obtain ⟨k', v'⟩ := kv
    by_cases hk : k' = k
    · subst hk
      rw [hmLookup_cons_eq] at h
      exact List.mem_cons.mpr (Or.inl (by simpa using h.symm))
    · rw [hmLookup_cons_ne k' v' k rest hk] at h
      exact List.mem_cons.mpr (Or.inr (ih h))

lemma hmLookup_none_iff (m : List (Nat × Nat)) (k : Nat) :
    hmLookup m k = none ↔ k ∉ m.map Prod.fst := by
  induction m with
  | nil => simp [hmLookup]
  | cons kv rest ih =>
    obtain ⟨k', v'⟩ := kv
    by_cases hk : k' = k
    · subst hk
      rw [hmLookup_cons_eq]
      simp
    · rw [hmLookup_cons_ne k' v' k rest hk]
      simp only [List.map_cons, List.mem_cons, ih]
      constructor
      · rintro h (h1 | h1)
        · exact hk h1.symm
        · exact h h1
      · intro h h1
        exact h (Or.inr h1)

/-- Rust's `HashMap` equality agrees with pointwise lookup equality on
duplicate-free association lists. -/
lemma hmEq_iff_lookup (m₁ m₂ : List (Nat × Nat))
    (h₁ : (m₁.map Prod.fst).Nodup) (h₂ : (m₂.map Prod.fst).Nodup) :
    hmEq m₁ m₂ = true ↔ ∀ c, hmLookup m₁ c = hmLookup m₂ c := by
  constructor
  · intro h c
    simp only [hmEq, Bool.and_eq_true, beq_iff_eq, List.all_eq_true] at h
    obtain ⟨hlen, hall⟩ := h
    cases hl : hmLookup m₁ c with
    | some v =>
      have hmem := mem_of_hmLookup m₁ c v hl
      have := hall (c, v) hmem
      simpa using this.symm
    | none =>
      cases hl2 : hmLookup m₂ c with
      | none => rfl
      | some v =>
        exfalso
        -- keys of `m₁` inject into keys of `m₂`, lengths agree, so key sets agree
        have hsub : (m₁.map Prod.fst).toFinset ⊆ (m₂.map Prod.fst).toFinset := by
          intro x hx
          rcases List.mem_map.mp (List.mem_toFinset.mp hx) with ⟨⟨k, w⟩, hkw, hfst⟩
          simp only at hfst
          subst hfst
          have := hall (k, w) hkw
          simp only [beq_iff_eq] at this
          exact List.mem_toFinset.mpr
            (List.mem_map.mpr ⟨(k, w), mem_of_hmLookup m₂ k w this, rfl⟩)
        have hcard : (m₂.map Prod.fst).toFinset.card ≤ (m₁.map Prod.fst).toFinset.card := by
          rw [List.toFinset_card_of_nodup h₁, List.toFinset_card_of_nodup h₂]
          simp [hlen]
        have hset := Finset.eq_of_subset_of_card_le hsub hcard
        have hc2 : c ∈ m₂.map Prod.fst :=
          List.mem_map.mpr ⟨(c, v), mem_of_hmLookup m₂ c v hl2, rfl⟩
        have hc1 : c ∉ m₁.map Prod.fst := (hmLookup_none_iff m₁ c).mp hl
        exact hc1 (List.mem_toFinset.mp (hset ▸ List.mem_toFinset.mpr hc2))
  · intro h
    simp only [hmEq, Bool.and_eq_true, beq_iff_eq, List.all_eq_true]
    have hkeys : ∀ x, x ∈ m₁.map Prod.fst ↔ x ∈ m₂.map Prod.fst := by
      intro x
      constructor
      · intro hx
        by_contra hx2
        have := (hmLookup_none_iff m₂ x).mpr hx2
        rw [← h x] at this
        exact ((hmLookup_none_iff m₁ x).mp this) hx
      · intro hx
        by_contra hx2
        have := (hmLookup_none_iff m₁ x).mpr hx2
        rw [h x] at this
        exact ((hmLookup_none_iff m₂ x).mp this) hx
    constructor
    · have : (m₁.map Prod.fst).toFinset = (m₂.map Prod.fst).toFinset := by
        ext x
        simp only [List.mem_toFinset]
        exact hkeys x
      have hcard := congrArg Finset.card this
      rw [List.toFinset_card_of_nodup h₁, List.toFinset_card_of_nodup h₂] at hcard
      simpa using hcard
    · intro kv hkv
      obtain ⟨k, v⟩ := kv
      have := hmLookup_eq_some_of_mem m₁ k v h₁ hkv
      rw [h k] at this
      simpa using this

/-- **C1.** For a Transfer with no bulletproof proofs, the isolated
conservation check `check_transfer_conservation_rules` succeeds exactly
when, for every chroma, the luma sums of the input proofs and of the
output proofs agree (empty-pixel proofs and zero lumas excluded from both
sums); otherwise it returns `ConservationRulesViolated`. -/
theorem transfer_conservation_ok_iff_sums_match
    (inputs outputs : List PixelProof) :
    (check_transfer_conservation_rules inputs outputs = Except.ok () ↔
      ∀ c, chromaSum inputs c = chromaSum outputs c) ∧
    (check_transfer_conservation_rules inputs outputs = Except.ok () ∨
      check_transfer_conservation_rules inputs outputs =
        Except.error CheckError.conservationRulesViolated) := by
  have hbridge :
      hmEq (sum_amount_by_chroma inputs) (sum_amount_by_chroma outputs) = true ↔
        ∀ c, chromaSum inputs c = chromaSum outputs c := by
    rw [hmEq_iff_lookup _ _ (nodup_keys_sum_amount_by_chroma inputs)
      (nodup_keys_sum_amount_by_chroma outputs)]
    constructor
    · intro h c
      have := h c
      rw [hmLookup_sum_amount_by_chroma, hmLookup_sum_amount_by_chroma] at this
      by_cases h1 : chromaSum inputs c = 0 <;> by_cases h2 : chromaSum outputs c = 0
      all_goals simp [h1, h2] at this ⊢
      all_goals omega
    · intro h c
      rw [hmLookup_sum_amount_by_chroma, hmLookup_sum_amount_by_chroma, h c]
  constructor
  · rw [← hbridge]
    unfold check_transfer_conservation_rules
    by_cases h : hmEq (sum_amount_by_chroma inputs) (sum_amount_by_chroma outputs) = true
    · simp [h]
    · simp [h]
  · unfold check_transfer_conservation_rules
    by_cases h : hmEq (sum_amount_by_chroma inputs) (sum_amount_by_chroma outputs) = true
    · simp [h]
    · simp [h]

/-! ## Checker-side data model

Bitcoin-level values are embedded structurally: a transaction input keeps
its previous output reference and the result of parsing its witness as
P2WPKH (`P2WPKHWintessData::from_witness` succeeds exactly when
`witnessPubkey` is `some`); scripts are either an `OP_RETURN` script with
its pushdata or a payment script identified by an opaque tag. secp256k1
operations (`x_only_public_key`, the empty-pixel tweak
`PixelKey::new(Pixel::empty(), chroma).even_public_key()`) are
parameters `xonly` and `tweakEmpty` of the definitions that use them. -/

structure TxIn where
  prevTxid : Nat
  prevVout : Nat
  witnessPubkey : Option Nat
  deriving DecidableEq, Repr

inductive Script where
  | opReturn (data : List Nat)
  | pay (tag : Nat)
  deriving DecidableEq, Repr

def Script.is_op_return : Script → Bool
  | .opReturn _ => true
  | .pay _ => false

structure TxOut where
  script_pubkey : Script
  deriving DecidableEq, Repr

/-- `find_issuer_in_txinputs` (tx-check/src/transaction.rs:292 and
isolated_checks.rs:309): the first input whose P2WPKH witness public key,
in x-only form, equals the chroma or the even-parity empty-pixel tweak of
the chroma's key. -/
def find_issuer_in_txinputs (xonly : Nat → Nat) (tweakEmpty : Nat → Nat)
    (inputs : List TxIn) (chroma : Nat) : Option TxIn :=
  inputs.find? (fun input =>
    match input.witnessPubkey with
    | none => false
    | some pk => xonly pk == chroma || xonly pk == tweakEmpty chroma)

/-! ## Announcements

`ChromaAnnouncement`, `FreezeAnnouncement`, `IssueAnnouncement` and their
data codecs live in `types/src/announcements/` files absent from this
snapshot (only `announcement.rs` is present). Modelled from the spec
(§6.3): pushdata is `b"yuv"` (3 bytes) ‖ kind (2 bytes) ‖ payload, with
payloads chroma(32) ‖ nameLen(u8) ‖ name ‖ symbolLen(u8) ‖ symbol ‖
decimals(u8) ‖ maxSupply(u128 BE) ‖ isFreezable(u8) for kind 00 00,
txid(32) ‖ vout(u32 BE) for kind 00 01, and chroma(32) ‖ amount(u128 BE)
for kind 00 02. 32-byte keys, txids and big-endian integers are
represented as `Nat` with the byte-width bound carried where needed. -/

structure ChromaAnnouncement where
  chroma : Nat
  name : List Nat
  symbol : List Nat
  decimals : Nat
  max_supply : Nat
  is_freezable : Bool
  deriving DecidableEq, Repr

structure FreezeAnnouncement where
  txid : Nat
  vout : Nat
  deriving DecidableEq, Repr

structure IssueAnnouncement where
  chroma : Nat
  amount : Nat
  deriving DecidableEq, Repr

inductive Announcement where
  | chroma (a : ChromaAnnouncement)
  | freeze (a : FreezeAnnouncement)
  | issue (a : IssueAnnouncement)
  deriving DecidableEq, Repr

/-- `ANNOUNCEMENT_PREFIX`: `b"yuv"`. -/
def announcementPrefix : List Nat := [121, 117, 118]

/-- Big-endian byte serialization of a bounded natural, `width` bytes. -/
def natToBE (width value : Nat) : List Nat :=
  match width with
  | 0 => []
  | w + 1 => natToBE w (value / 256) ++ [value % 256]

/-- Big-endian byte deserialization. -/
def beToNat (bytes : List Nat) : Nat :=
  bytes.foldl (fun acc b => acc * 256 + b) 0

/-- Payload codec for `IssueAnnouncement`: chroma(32) ‖ amount(u128 BE).
Modelled from the spec (§6.3, kind 00 02). -/
def IssueAnnouncement.to_announcement_data_bytes (a : IssueAnnouncement) : List Nat :=
  natToBE 32 a.chroma ++ natToBE 16 a.amount

def IssueAnnouncement.from_announcement_data_bytes (data : List Nat) :
    Option IssueAnnouncement :=
  if data.length = 48 then
    some ⟨beToNat (data.take 32), beToNat (data.drop 32)⟩
  else
    none

/-- `AnyAnnouncement::from_bytes` (announcement.rs:154): length and prefix
check, then the per-kind data parser on the bytes past prefix and kind
(the kind bytes themselves are not inspected here). -/
def announcement_bytes_body (value : List Nat) : Option (List Nat) :=
  if value.length < 5 then none
  else if value.take 3 ≠ announcementPrefix then none
  else some (value.drop 5)

def IssueAnnouncement.from_bytes (value : List Nat) : Option IssueAnnouncement :=
  (announcement_bytes_body value).bind IssueAnnouncement.from_announcement_data_bytes

/-- `AnyAnnouncement::from_script` via `parse_op_return_script` (the
latter is absent from the snapshot; modelled from the spec: the script
must be `OP_RETURN <pushdata>` and the pushdata is parsed). -/
def IssueAnnouncement.from_script (s : Script) : Option IssueAnnouncement :=
  match s with
  | .opReturn data => IssueAnnouncement.from_bytes data
  | .pay _ => none

/-- `AnyAnnouncement::to_bytes` (announcement.rs:174):
prefix ‖ kind ‖ data. -/
def Announcement.kind : Announcement → List Nat
  | .chroma _ => [0, 0]
  | .freeze _ => [0, 1]
  | .issue _ => [0, 2]

def ChromaAnnouncement.to_announcement_data_bytes (a : ChromaAnnouncement) : List Nat :=
  natToBE 32 a.chroma ++ [a.name.length] ++ a.name ++ [a.symbol.length] ++ a.symbol ++
    [a.decimals] ++ natToBE 16 a.max_supply ++ [if a.is_freezable then 1 else 0]

def FreezeAnnouncement.to_announcement_data_bytes (a : FreezeAnnouncement) : List Nat :=
  natToBE 32 a.txid ++ natToBE 4 a.vout

def Announcement.to_bytes (a : Announcement) : List Nat :=
  announcementPrefix ++ a.kind ++
    (match a with
      | .chroma c => c.to_announcement_data_bytes
      | .freeze f => f.to_announcement_data_bytes
      | .issue i => i.to_announcement_data_bytes)

/-- `FreezeAnnouncement::freeze_txid/freeze_vout` accessors. -/
def FreezeAnnouncement.freeze_txid (a : FreezeAnnouncement) : Nat := a.txid
def FreezeAnnouncement.freeze_vout (a : FreezeAnnouncement) : Nat := a.vout

/-! ## Checker worker state and freeze recomputation

Embedding of `TxCheckerWorker::is_output_frozen` (worker.rs:268–318) and
`TxCheckerWorker::check_freeze_announcement` (worker.rs:427–494). The
storages (`TransactionsStorage`, `FrozenTxsStorage`, `ChromaInfoStorage`)
are association lists keyed by txid / outpoint / chroma. A stored YUV
transaction is kept as its bitcoin inputs plus its type (the pieces the
worker reads). -/

/-- `ProofMap = BTreeMap<u32, PixelProof>` as an association list. -/
abbrev ProofMap := List (Nat × PixelProof)

def pmLookup (m : ProofMap) (k : Nat) : Option PixelProof :=
  match m with
  | [] => none
  | (k', v) :: rest => if k' = k then some v else pmLookup rest k

inductive CheckYuvTxType where
  | issue (output_proofs : Option ProofMap)
  | transfer (input_proofs output_proofs : ProofMap)
  | announcement
  deriving DecidableEq, Repr

structure StoredYuvTx where
  inputs : List TxIn
  tx_type : CheckYuvTxType
  deriving DecidableEq, Repr

/-- `get_output_proofs` (worker.rs:547). -/
def get_output_proofs (tx : StoredYuvTx) : Option ProofMap :=
  match tx.tx_type with
  | .issue output_proofs => output_proofs
  | .transfer _ output_proofs => some output_proofs
  | .announcement => none

structure ChromaInfo where
  announcement : Option ChromaAnnouncement
  total_supply : Nat
  deriving DecidableEq, Repr

abbrev OutPoint := Nat × Nat

/-- The slice of node state the worker consults: the transactions store,
the frozen-outpoints store and the chroma-info store. -/
structure WorkerState where
  txs : List (Nat × StoredYuvTx)
  frozen : List (OutPoint × List Nat)
  chromaInfos : List (Nat × ChromaInfo)
  deriving DecidableEq, Repr

def alLookup {κ α : Type} [DecidableEq κ] (m : List (κ × α)) (k : κ) : Option α :=
  match m with
  | [] => none
  | (k', v) :: rest => if k' = k then some v else alLookup rest k

def alRemove {κ α : Type} [DecidableEq κ] (m : List (κ × α)) (k : κ) : List (κ × α) :=
  match m with
  | [] => []
  | (k', v) :: rest => if k' = k then rest else (k', v) :: alRemove rest k

/-- Whole-entry insert-or-replace (`put_frozen_tx` etc.). -/
def alInsert {κ α : Type} [DecidableEq κ] (m : List (κ × α)) (k : κ) (v : α) :
    List (κ × α) :=
  match m with
  | [] => [(k, v)]
  | (k', v') :: rest => if k' = k then (k, v) :: rest else (k', v') :: alInsert rest k v

/-- The loop of `is_output_frozen` over the freeze entry (worker.rs:289–309):
look up each freeze tx; a missing tx aborts with an error; a tx none of
whose inputs is signed by the chroma owner is deleted from the
transactions store and dropped from the entry; others are kept. Returns
the kept txids and the updated transactions store. -/
def recomputeFreezes (xonly tweakEmpty : Nat → Nat) (chroma : Nat) :
    List (Nat × StoredYuvTx) → List Nat → Except String (List Nat × List (Nat × StoredYuvTx))
  | txs, [] => Except.ok ([], txs)
  | txs, freezeTxid :: rest =>
    match alLookup txs freezeTxid with
    | none => Except.error "Freeze tx not found"
    | some freezeTx =>
      if (find_issuer_in_txinputs xonly tweakEmpty freezeTx.inputs chroma).isNone then
        recomputeFreezes xonly tweakEmpty chroma (alRemove txs freezeTxid) rest
      else do
        let (kept, txs') ← recomputeFreezes xonly tweakEmpty chroma txs rest
        pure (freezeTxid :: kept, txs')

/-- `TxCheckerWorker::is_output_frozen` (worker.rs:268). Returns the
frozen flag and the updated state. -/
def chromaNotFreezable (st : WorkerState) (chroma : Nat) : Bool :=
  match alLookup st.chromaInfos chroma with
  | some ci =>
    match ci.announcement with
    | some ann => !ann.is_freezable
    | none => false
  | none => false

def is_output_frozen (xonly tweakEmpty : Nat → Nat) (st : WorkerState)
    (outpoint : OutPoint) (proof : PixelProof) :
    Except String (Bool × WorkerState) :=
  let chroma := proof.pixel.chroma
  if chromaNotFreezable st chroma then
    Except.ok (false, st)
  else
    match alLookup st.frozen outpoint with
    | none => Except.ok (false, st)
    | some entry => do
      let (checkedFreezes, txs') ← recomputeFreezes xonly tweakEmpty chroma st.txs entry
      let isFrozen := checkedFreezes.length % 2 == 1
      pure (isFrozen,
        { st with txs := txs', frozen := alInsert st.frozen outpoint checkedFreezes })

/-- `TxCheckerWorker::check_freeze_announcement` (worker.rs:427). Returns
whether the freeze announcement is accepted. -/
def check_freeze_announcement (xonly tweakEmpty : Nat → Nat) (st : WorkerState)
    (announcementTxInputs : List TxIn) (announcement : FreezeAnnouncement) : Bool :=
  match alLookup st.txs announcement.freeze_txid with
  | none => true
  | some freezeTx =>
    match get_output_proofs freezeTx with
    | none => true
    | some output_proofs =>
      match pmLookup output_proofs announcement.freeze_vout with
      | none => true
      | some output =>
        let chroma := output.pixel.chroma
        if chromaNotFreezable st chroma then false
        else
          !(find_issuer_in_txinputs xonly tweakEmpty announcementTxInputs chroma).isNone

/-! ### C2 — freeze recomputation in the worker -/

/-- A freeze txid counts as valid for `chroma` when its issuing tx is in
the transactions store and one of that tx's inputs is signed by the
chroma owner. -/
def authorizedFreeze (xonly tweakEmpty : Nat → Nat) (txs : List (Nat × StoredYuvTx))
    (chroma t : Nat) : Bool :=
  match alLookup txs t with
  | none => false
  | some tx => (find_issuer_in_txinputs xonly tweakEmpty tx.inputs chroma).isSome

lemma alLookup_cons_eq {κ α : Type} [DecidableEq κ] (k : κ) (v : α)
    (rest : List (κ × α)) : alLookup ((k, v) :: rest) k = some v := by
  simp [alLookup]

lemma alLookup_cons_ne {κ α : Type} [DecidableEq κ] (k₀ k : κ) (v : α)
    (rest : List (κ × α)) (h : k₀ ≠ k) :
    alLookup ((k₀, v) :: rest) k = alLookup rest k := by
  simp [alLookup, h]

lemma alRemove_cons_eq {κ α : Type} [DecidableEq κ] (k : κ) (v : α)
    (rest : List (κ × α)) : alRemove ((k, v) :: rest) k = rest := by
  simp [alRemove]

lemma alRemove_cons_ne {κ α : Type} [DecidableEq κ] (k₀ k : κ) (v : α)
    (rest : List (κ × α)) (h : k₀ ≠ k) :
    alRemove ((k₀, v) :: rest) k = (k₀, v) :: alRemove rest k := by
  simp [alRemove, h]

lemma alLookup_alRemove_ne {κ α : Type} [DecidableEq κ]
    (m : List (κ × α)) (k k' : κ) (h : k ≠ k') :
    alLookup (alRemove m k) k' = alLookup m k' := by
  induction m with
  | nil => rfl
  | cons kv rest ih =>
    obtain ⟨k₀, v₀⟩ := kv
    by_cases h0 : k₀ = k
    · subst h0
      rw [alRemove_cons_eq, alLookup_cons_ne k₀ k' v₀ rest h]
    · rw [alRemove_cons_ne k₀ k v₀ rest h0]
      by_cases h1 : k₀ = k'
      · subst h1
        rw [alLookup_cons_eq, alLookup_cons_eq]
      · rw [alLookup_cons_ne k₀ k' v₀ _ h1, alLookup_cons_ne k₀ k' v₀ rest h1, ih]

/-- What the `is_output_frozen` loop computes when every freeze tx in the
entry is present in the store and the entry has no duplicate txids: the
kept txids are exactly the authorized ones, in order. -/
lemma recomputeFreezes_spec (xonly tweakEmpty : Nat → Nat) (chroma : Nat)
    (entry : List Nat) :
    ∀ txs : List (Nat × StoredYuvTx),
      (∀ t ∈ entry, (alLookup txs t).isSome = true) → entry.Nodup →
      ∃ txs', recomputeFreezes xonly tweakEmpty chroma txs entry =
        Except.ok (entry.filter (authorizedFreeze xonly tweakEmpty txs chroma), txs') := by
  induction entry with
  | nil =>
    intro txs _ _
    exact ⟨txs, rfl⟩
  | cons t rest ih =>
    intro txs hall hnd
    have ht : (alLookup txs t).isSome = true := hall t (List.mem_cons_self ..)
    obtain ⟨tx, htx⟩ := Option.isSome_iff_exists.mp ht
    simp only [List.nodup_cons] at hnd
    by_cases hauth : (find_issuer_in_txinputs xonly tweakEmpty tx.inputs chroma).isNone = true
    · -- unauthorized: deleted from the store and dropped from the entry
      have h1 : authorizedFreeze xonly tweakEmpty txs chroma t = false := by
        simp only [authorizedFreeze, htx]
        simpa using hauth
      have hfilter :
          (t :: rest).filter (authorizedFreeze xonly tweakEmpty txs chroma) =
            rest.filter (authorizedFreeze xonly tweakEmpty (alRemove txs t) chroma) := by
        rw [List.filter_cons, h1]
        simp only [Bool.false_eq_true, if_false]
        apply List.filter_congr
        intro x hx
        have hxt : t ≠ x := fun hh => hnd.1 (hh ▸ hx)
        simp only [authorizedFreeze, alLookup_alRemove_ne txs t x hxt]
      obtain ⟨txs', hrec⟩ := ih (alRemove txs t)
        (fun x hx => by
          have hxt : t ≠ x := fun hh => hnd.1 (hh ▸ hx)
          rw [alLookup_alRemove_ne txs t x hxt]
          exact hall x (List.mem_cons_of_mem _ hx))
        hnd.2
      refine ⟨txs', ?_⟩
      rw [hfilter]
      simp only [recomputeFreezes, htx, if_pos hauth]
      exact hrec
    · -- authorized: kept
      obtain ⟨txs', hrec⟩ := ih txs
        (fun x hx => hall x (List.mem_cons_of_mem _ hx)) hnd.2
      refine ⟨txs', ?_⟩
      have h1 : authorizedFreeze xonly tweakEmpty txs chroma t = true := by
        simp only [authorizedFreeze, htx]
        simpa [Option.isNone_iff_eq_none, Option.isSome_iff_ne_none] using hauth
      rw [List.filter_cons, h1]
      simp only [if_true]
      simp only [recomputeFreezes, htx, if_neg hauth, hrec]
      rfl

/-- **C2 (amended).** When the checker worker recomputes the frozen flag
of an outpoint whose stored entry exists, whose chroma is freezable (or
has no stored announcement), and all of whose freeze txids refer to
transactions present in the store (without duplicates): the flag is true
iff the number of entry txids whose issuing tx is signed by the chroma
owner is odd; txids whose issuing tx is present but unsigned are silently
dropped and the filtered list is written back to the frozen storage. (If
some freeze txid's issuing tx is missing from the store, the worker
instead fails with an error — see the counterexample.) -/
theorem is_output_frozen_parity (xonly tweakEmpty : Nat → Nat)
    (st : WorkerState) (outpoint : OutPoint) (proof : PixelProof) (entry : List Nat)
    (hentry : alLookup st.frozen outpoint = some entry)
    (hfreeze : chromaNotFreezable st proof.pixel.chroma = false)
    (hall : ∀ t ∈ entry, (alLookup st.txs t).isSome = true)
    (hnd : entry.Nodup) :
    ∃ txs', is_output_frozen xonly tweakEmpty st outpoint proof =
      Except.ok
        (((entry.filter
            (authorizedFreeze xonly tweakEmpty st.txs proof.pixel.chroma)).length % 2 == 1),
         { st with
            txs := txs',
            frozen := alInsert st.frozen outpoint
              (entry.filter
                (authorizedFreeze xonly tweakEmpty st.txs proof.pixel.chroma)) }) := by
  obtain ⟨txs', hrec⟩ :=
    recomputeFreezes_spec xonly tweakEmpty proof.pixel.chroma entry st.txs hall hnd
  refine ⟨txs', ?_⟩
  simp only [is_output_frozen, hfreeze, Bool.false_eq_true, if_false, hentry, hrec]
  rfl

/-- Witness for the freeze-recomputation theorem: an entry with one
owner-signed freeze (kept) and one unsigned freeze (purged) yields an odd
count, hence frozen, and the filtered entry is written back. -/
theorem is_output_frozen_parity_witness :
    ∃ txs', is_output_frozen id (fun c => c + 100)
        { txs := [(5, ⟨[⟨0, 0, some 7⟩], CheckYuvTxType.announcement⟩),
                  (6, ⟨[⟨0, 0, some 9⟩], CheckYuvTxType.announcement⟩)],
          frozen := [((1, 0), [5, 6])],
          chromaInfos := [] }
        (1, 0) (PixelProof.sig ⟨7, 3⟩) =
      Except.ok (true, { txs := txs', frozen := [((1, 0), [5])], chromaInfos := [] }) := by
  obtain ⟨txs', h⟩ := is_output_frozen_parity id (fun c => c + 100)
    { txs := [(5, ⟨[⟨0, 0, some 7⟩], CheckYuvTxType.announcement⟩),
              (6, ⟨[⟨0, 0, some 9⟩], CheckYuvTxType.announcement⟩)],
      frozen := [((1, 0), [5, 6])],
      chromaInfos := [] }
    (1, 0) (PixelProof.sig ⟨7, 3⟩) [5, 6] (by decide) (by decide)
    (by decide) (by decide)
  refine ⟨txs', ?_⟩
  rw [h]
  rfl

/-- **C2 (counterexample).** A frozen entry containing a freeze txid whose
issuing transaction is missing from the transactions store makes
`is_output_frozen` fail with an error; the txid is not silently removed
and no frozen flag is produced, contradicting the claim's "missing from
the store … silently removed" reading. -/
theorem is_output_frozen_missing_tx_errors :
    is_output_frozen id id
      { txs := [], frozen := [((1, 0), [5])], chromaInfos := [] }
      (1, 0) (PixelProof.sig ⟨7, 3⟩) = Except.error "Freeze tx not found" := by
  rfl

/-! ### C3 — freeze announcement acceptance -/

/-- **C3 (amended).** The worker rejects a Freeze announcement iff the
freeze-target transaction is present in the store, carries output
proofs, the frozen vout has a proof, and either the referenced chroma is
announced non-freezable or no input of the announcing transaction is
signed by the chroma owner. In particular a freeze announcement whose
target transaction (or target output) is absent is accepted, not
rejected. -/
theorem check_freeze_announcement_false_iff (xonly tweakEmpty : Nat → Nat)
    (st : WorkerState) (annInputs : List TxIn) (announcement : FreezeAnnouncement) :
    check_freeze_announcement xonly tweakEmpty st annInputs announcement = false ↔
      ∃ freezeTx output_proofs output,
        alLookup st.txs announcement.freeze_txid = some freezeTx ∧
        get_output_proofs freezeTx = some output_proofs ∧
        pmLookup output_proofs announcement.freeze_vout = some output ∧
        (chromaNotFreezable st output.pixel.chroma = true ∨
          find_issuer_in_txinputs xonly tweakEmpty annInputs output.pixel.chroma = none) := by
  unfold check_freeze_announcement
  cases htx : alLookup st.txs announcement.freeze_txid with
  | none => simp [htx]
  | some freezeTx =>
    cases hop : get_output_proofs freezeTx with
    | none => simp [htx, hop]
    | some output_proofs =>
      cases hout : pmLookup output_proofs announcement.freeze_vout with
      | none => simp [htx, hop, hout]
      | some output =>
        by_cases hfr : chromaNotFreezable st output.pixel.chroma = true
        · simp [htx, hop, hout, hfr]
        · have hfr' : chromaNotFreezable st output.pixel.chroma = false := by
            cases h : chromaNotFreezable st output.pixel.chroma
            · rfl
            · exact absurd h hfr
          simp [htx, hop, hout, hfr', Option.isNone_iff_eq_none]

/-- **C3 (counterexample).** With an empty transactions store, any freeze
announcement is accepted even though its freeze-target transaction does
not exist in the store — the claim's "only if the freeze-target
transaction exists in the transactions store" fails. -/
theorem check_freeze_announcement_missing_target_accepted :
    check_freeze_announcement id id { txs := [], frozen := [], chromaInfos := [] }
      [] ⟨9, 0⟩ = true ∧
    alLookup ([] : List (Nat × StoredYuvTx)) 9 = none := by
  exact ⟨rfl, rfl⟩

/-! ## Isolated Issue check (isolated_checks.rs:45–119, 265–330)

`checked_check_by_output` (pixel-key tweak plus script comparison, in the
`yuv-pixels` crate) is a parameter `checkByOutput`; success is `true`. -/

/-- `yuv_types::is_bulletproof` on a list of proofs. Modelled from the
spec: the branch taken when the proofs are bulletproofs ("if any proof is
a bulletproof, all must be"). -/
def is_bulletproof (proofs : List PixelProof) : Bool :=
  proofs.any (fun p => p.is_bulletproof_variant)

/-- `check_number_of_proofs` (isolated_checks.rs:172): the number of
non-`OP_RETURN` outputs must equal the number of proofs. -/
def check_number_of_proofs (outputs : List TxOut) (proofs : ProofMap) :
    Except CheckError Unit :=
  if (outputs.filter (fun o => !o.script_pubkey.is_op_return)).length = proofs.length then
    Except.ok ()
  else
    Except.error (CheckError.notEnoughProofs proofs.length outputs.length)

/-- `check_same_chroma_proofs` (isolated_checks.rs:287), the
first-element fold form: all non-empty-pixel proofs share the first
one's chroma. -/
def check_same_chroma_proofs (proofs : List PixelProof) : Except CheckError Unit :=
  let filtered := proofs.filter (fun p => !p.is_empty_pixelproof)
  match filtered.head? with
  | none => Except.ok ()
  | some first =>
    if filtered.all (fun p => p.pixel.chroma == first.pixel.chroma) then
      Except.ok ()
    else
      Except.error CheckError.notSameChroma

/-- `extract_from_iterable_by_proof_map` (isolated_checks.rs:211): pair
each proof-map entry with the input/output it refers to, failing when
the index is out of range. -/
def extract_from_iterable_by_proof_map {α : Type} (proofMap : ProofMap)
    (iterable : List α) : Except CheckError (List (α × Nat × PixelProof)) :=
  match proofMap with
  | [] => Except.ok []
  | (vout, proof) :: rest =>
    match iterable.get? vout with
    | none => Except.error CheckError.proofMappedToNotExistingInputOutput
    | some item => do
      let tail ← extract_from_iterable_by_proof_map rest iterable
      pure ((item, vout, proof) :: tail)

/-- The per-output proof loop of `check_issue_isolated`
(isolated_checks.rs:63–80): `OP_RETURN` outputs are skipped, every other
gathered output must pass `checked_check_by_output`. -/
def check_gathered_outputs (checkByOutput : PixelProof → TxOut → Bool) :
    List (TxOut × Nat × PixelProof) → Except CheckError Unit
  | [] => Except.ok ()
  | (txout, vout, proof) :: rest =>
    if txout.script_pubkey.is_op_return then
      check_gathered_outputs checkByOutput rest
    else if checkByOutput proof txout then
      check_gathered_outputs checkByOutput rest
    else
      Except.error (CheckError.invalidProof vout)

/-- `check_issue_announcement` (isolated_checks.rs:104): scan the outputs
for the first script that parses as an `IssueAnnouncement`; a parsed
announcement differing from the provided one is a mismatch, otherwise
its amount is returned; with no parsed announcement the amount is 0. -/
def check_issue_announcement (outputs : List TxOut)
    (provided : IssueAnnouncement) : Except CheckError Nat :=
  match outputs with
  | [] => Except.ok 0
  | o :: rest =>
    match IssueAnnouncement.from_script o.script_pubkey with
    | some found =>
      if found ≠ provided then Except.error CheckError.issueAnnouncementMismatch
      else Except.ok found.amount
    | none => check_issue_announcement rest provided

/-- The first output script parsing as an `IssueAnnouncement`, if any. -/
def find_issue_announcement (outputs : List TxOut) : Option IssueAnnouncement :=
  match outputs with
  | [] => none
  | o :: rest =>
    match IssueAnnouncement.from_script o.script_pubkey with
    | some found => some found
    | none => find_issue_announcement rest

/-- `check_issue_conservation_rules` (isolated_checks.rs:265): the chroma
of the first gathered output proof must be matched by some transaction
input's witness key. -/
def check_issue_conservation_rules (xonly tweakEmpty : Nat → Nat)
    (gathered : List (TxOut × Nat × PixelProof)) (inputs : List TxIn) :
    Except CheckError Unit :=
  match gathered.head? with
  | none => Except.error CheckError.emptyOutputs
  | some first =>
    if (find_issuer_in_txinputs xonly tweakEmpty inputs first.2.2.pixel.chroma).isNone then
      Except.error CheckError.issuerNotOwner
    else
      Except.ok ()

/-- `check_issue_isolated` (isolated_checks.rs:45). -/
def check_issue_isolated (checkByOutput : PixelProof → TxOut → Bool)
    (xonly tweakEmpty : Nat → Nat) (txInputs : List TxIn) (txOutputs : List TxOut)
    (output_proofs_opt : Option ProofMap) (announcement : IssueAnnouncement) :
    Except CheckError Unit :=
  match output_proofs_opt with
  | none => Except.error (CheckError.notEnoughProofs 0 txOutputs.length)
  | some output_proofs => do
    let announced_amount ← check_issue_announcement txOutputs announcement
    check_number_of_proofs txOutputs output_proofs
    check_same_chroma_proofs (output_proofs.map Prod.snd)
    let gathered ← extract_from_iterable_by_proof_map output_proofs txOutputs
    check_gathered_outputs checkByOutput gathered
    check_issue_conservation_rules xonly tweakEmpty gathered txInputs
    if is_bulletproof (output_proofs.map Prod.snd) then
      pure ()
    else
      let total_amount := (output_proofs.map (fun kv => kv.2.pixel.amount)).sum
      if total_amount ≠ announced_amount then
        Except.error (CheckError.announcedAmountDoesNotMatch announced_amount total_amount)
      else
        pure ()

lemma except_bind_ok {ε α β : Type} (a : α) (f : α → Except ε β) :
    (Except.ok a >>= f) = f a := rfl

lemma except_bind_err {ε α β : Type} (e : ε) (f : α → Except ε β) :
    (Except.error e >>= f : Except ε β) = Except.error e := rfl

/-- `check_issue_announcement` in terms of the first parsed announcement. -/
lemma check_issue_announcement_eq (outputs : List TxOut) (provided : IssueAnnouncement) :
    check_issue_announcement outputs provided =
      match find_issue_announcement outputs with
      | some found =>
        if found ≠ provided then Except.error CheckError.issueAnnouncementMismatch
        else Except.ok found.amount
      | none => Except.ok 0 := by
  induction outputs with
  | nil => rfl
  | cons o rest ih =>
    simp only [check_issue_announcement, find_issue_announcement]
    cases h : IssueAnnouncement.from_script o.script_pubkey with
    | none => exact ih
    | some found => rfl

/-- The announced amount the isolated Issue check compares against: the
amount of the first parsed `IssueAnnouncement` output, 0 when none. -/
def announcedAmountD (outputs : List TxOut) : Nat :=
  match find_issue_announcement outputs with
  | some a => a.amount
  | none => 0

/-! ### C5 — issuer-ownership check -/

/-- Some transaction input carries a parsed P2WPKH witness public key
whose x-only form matches the chroma or its empty-pixel tweak. -/
def issuerPresent (xonly tweakEmpty : Nat → Nat) (inputs : List TxIn)
    (chroma : Nat) : Prop :=
  ∃ i ∈ inputs, ∃ pk, i.witnessPubkey = some pk ∧
    (xonly pk = chroma ∨ xonly pk = tweakEmpty chroma)

lemma find_issuer_isSome_iff (xonly tweakEmpty : Nat → Nat) (inputs : List TxIn)
    (chroma : Nat) :
    (find_issuer_in_txinputs xonly tweakEmpty inputs chroma).isSome = true ↔
      issuerPresent xonly tweakEmpty inputs chroma := by
  unfold find_issuer_in_txinputs issuerPresent
  rw [List.find?_isSome]
  constructor
  · rintro ⟨i, hi, hp⟩
    refine ⟨i, hi, ?_⟩
    cases hw : i.witnessPubkey with
    | none => rw [hw] at hp; cases hp
    | some pk =>
      rw [hw] at hp
      refine ⟨pk, rfl, ?_⟩
      simpa using hp
  · rintro ⟨i, hi, pk, hw, hor⟩
    refine ⟨i, hi, ?_⟩
    rw [hw]
    simpa using hor

/-- **C5.** The issuance conservation check accepts exactly when some
transaction input's witness public key matches, x-only, the chroma of
the first output proof or the even-parity empty-pixel tweak of that
chroma's key; when no input matches it returns `IssuerNotOwner`. -/
theorem issue_conservation_requires_issuer (xonly tweakEmpty : Nat → Nat)
    (inputs : List TxIn) (first : TxOut × Nat × PixelProof)
    (gs : List (TxOut × Nat × PixelProof)) :
    (check_issue_conservation_rules xonly tweakEmpty (first :: gs) inputs =
        Except.ok () ↔
      issuerPresent xonly tweakEmpty inputs first.2.2.pixel.chroma) ∧
    (check_issue_conservation_rules xonly tweakEmpty (first :: gs) inputs =
        Except.ok () ∨
      check_issue_conservation_rules xonly tweakEmpty (first :: gs) inputs =
        Except.error CheckError.issuerNotOwner) := by
  unfold check_issue_conservation_rules
  simp only [List.head?_cons]
  by_cases h : (find_issuer_in_txinputs xonly tweakEmpty inputs
      first.2.2.pixel.chroma).isNone = true
  · constructor
    · rw [if_pos h]
      constructor
      · intro hcontra; cases hcontra
      · intro hpres
        exfalso
        have := (find_issuer_isSome_iff xonly tweakEmpty inputs
          first.2.2.pixel.chroma).mpr hpres
        rw [Option.isNone_iff_eq_none] at h
        rw [h] at this
        cases this
    · rw [if_pos h]
      exact Or.inr rfl
  · constructor
    · rw [if_neg h]
      constructor
      · intro _
        apply (find_issuer_isSome_iff xonly tweakEmpty inputs
          first.2.2.pixel.chroma).mp
        cases hs : (find_issuer_in_txinputs xonly tweakEmpty inputs
            first.2.2.pixel.chroma) with
        | none => exact absurd (by rw [hs]; rfl) h
        | some i => rfl
      · intro _; rfl
    · rw [if_neg h]
      exact Or.inl rfl

/-! ### C4 — issue announcement consistency and amount -/

/-- **C4 (amended).** For the isolated Issue check with proofs present:
(i) if the first output script parsing as an `IssueAnnouncement` differs
from the announcement embedded in the transaction type, the check fails
with `IssueAnnouncementMismatch`; (ii) on the non-bulletproof branch a
successful check forces the output luma sum to equal the announced
amount, where the announced amount defaults to 0 when no output parses
as an `IssueAnnouncement` — so with no announcement output the check
still constrains the sum (to 0) rather than succeeding regardless;
(iii) when every other sub-check passes and the sums differ, the error
is `AnnouncedAmountDoesNotMatch`. -/
theorem issue_announcement_amount_check
    (checkByOutput : PixelProof → TxOut → Bool) (xonly tweakEmpty : Nat → Nat)
    (inputs : List TxIn) (outputs : List TxOut) (proofs : ProofMap)
    (announcement found : IssueAnnouncement) :
    (find_issue_announcement outputs = some found → found ≠ announcement →
      check_issue_isolated checkByOutput xonly tweakEmpty inputs outputs
          (some proofs) announcement =
        Except.error CheckError.issueAnnouncementMismatch) ∧
    (is_bulletproof (proofs.map Prod.snd) = false →
      check_issue_isolated checkByOutput xonly tweakEmpty inputs outputs
          (some proofs) announcement = Except.ok () →
      (proofs.map (fun kv => kv.2.pixel.amount)).sum = announcedAmountD outputs) ∧
    (∀ announced gathered,
      check_issue_announcement outputs announcement = Except.ok announced →
      check_number_of_proofs outputs proofs = Except.ok () →
      check_same_chroma_proofs (proofs.map Prod.snd) = Except.ok () →
      extract_from_iterable_by_proof_map proofs outputs = Except.ok gathered →
      check_gathered_outputs checkByOutput gathered = Except.ok () →
      check_issue_conservation_rules xonly tweakEmpty gathered inputs = Except.ok () →
      is_bulletproof (proofs.map Prod.snd) = false →
      (proofs.map (fun kv => kv.2.pixel.amount)).sum ≠ announced →
      check_issue_isolated checkByOutput xonly tweakEmpty inputs outputs
          (some proofs) announcement =
        Except.error (CheckError.announcedAmountDoesNotMatch announced
          ((proofs.map (fun kv => kv.2.pixel.amount)).sum))) := by
  refine ⟨?_, ?_, ?_⟩
  · intro hfind hne
    have h1 : check_issue_announcement outputs announcement =
        Except.error CheckError.issueAnnouncementMismatch := by
      rw [check_issue_announcement_eq, hfind]
      simp [hne]
    simp only [check_issue_isolated, h1, except_bind_err]
  · intro hbp hok
    simp only [check_issue_isolated] at hok
    cases hann : check_issue_announcement outputs announcement with
    | error e => rw [hann, except_bind_err] at hok; cases hok
    | ok announced =>
      rw [hann, except_bind_ok] at hok
      cases hnum : check_number_of_proofs outputs proofs with
      | error e => rw [hnum, except_bind_err] at hok; cases hok
      | ok u =>
        rw [hnum, except_bind_ok] at hok
        cases hsame : check_same_chroma_proofs (proofs.map Prod.snd) with
        | error e => rw [hsame, except_bind_err] at hok; cases hok
        | ok u =>
          rw [hsame, except_bind_ok] at hok
          cases hext : extract_from_iterable_by_proof_map proofs outputs with
          | error e => rw [hext, except_bind_err] at hok; cases hok
          | ok gathered =>
            rw [hext, except_bind_ok] at hok
            cases hchk : check_gathered_outputs checkByOutput gathered with
            | error e => rw [hchk, except_bind_err] at hok; cases hok
            | ok u =>
              rw [hchk, except_bind_ok] at hok
              cases hcons : check_issue_conservation_rules xonly tweakEmpty
                  gathered inputs with
              | error e => rw [hcons, except_bind_err] at hok; cases hok
              | ok u =>
                rw [hcons, except_bind_ok, hbp] at hok
                simp only [Bool.false_eq_true, if_false] at hok
                have hamt : (proofs.map (fun kv => kv.2.pixel.amount)).sum = announced := by
                  by_cases h : (proofs.map (fun kv => kv.2.pixel.amount)).sum = announced
                  · exact h
                  · rw [if_pos h] at hok; cases hok
                rw [hamt]
                rw [check_issue_announcement_eq] at hann
                unfold announcedAmountD
                cases hfind : find_issue_announcement outputs with
                | none =>
                  rw [hfind] at hann
                  dsimp only at hann ⊢
                  simpa using hann.symm
                | some a =>
                  rw [hfind] at hann
                  dsimp only at hann ⊢
                  by_cases hne : a ≠ announcement
                  · rw [if_pos hne] at hann; cases hann
                  · rw [if_neg hne] at hann
                    simpa using hann.symm
  · intro announced gathered hann hnum hsame hext hchk hcons hbp hne
    simp only [check_issue_isolated, hann, hnum, hsame, hext, hchk, hcons,
      except_bind_ok, hbp, Bool.false_eq_true, if_false]
    rw [if_pos hne]

/-- **C4 (counterexample).** No output parses as an `IssueAnnouncement`,
every other sub-check passes, yet the check fails with
`AnnouncedAmountDoesNotMatch(0, 5)` because the output luma sum is 5; the
same transaction with a zero output luma succeeds. The claim's "the
amount-equality constraint does not apply and the check can succeed
regardless of the output luma sum" is therefore false. -/
theorem issue_no_announcement_still_constrains :
    find_issue_announcement [⟨Script.pay 0⟩] = none ∧
    check_issue_isolated (fun _ _ => true) id (fun c => c + 100)
        [⟨0, 0, some 7⟩] [⟨Script.pay 0⟩]
        (some [(0, PixelProof.sig ⟨7, 5⟩)]) ⟨7, 5⟩ =
      Except.error (CheckError.announcedAmountDoesNotMatch 0 5) ∧
    check_issue_isolated (fun _ _ => true) id (fun c => c + 100)
        [⟨0, 0, some 7⟩] [⟨Script.pay 0⟩]
        (some [(0, PixelProof.sig ⟨7, 0⟩)]) ⟨7, 0⟩ =
      Except.ok () := by
  exact ⟨rfl, rfl, rfl⟩

/-- Witness for the amended Issue-announcement theorem at a concrete
transaction. -/
theorem issue_announcement_amount_check_witness :
    check_issue_isolated (fun _ _ => true) id (fun c => c + 100)
        [⟨0, 0, some 7⟩] [⟨Script.pay 0⟩]
        (some [(0, PixelProof.sig ⟨7, 5⟩)]) ⟨7, 5⟩ =
      Except.error (CheckError.announcedAmountDoesNotMatch 0 5) := by
  have h := (issue_announcement_amount_check (fun _ _ => true) id (fun c => c + 100)
      [⟨0, 0, some 7⟩] [⟨Script.pay 0⟩] [(0, PixelProof.sig ⟨7, 5⟩)]
      ⟨7, 5⟩ ⟨7, 5⟩).2.2
  exact h 0 [(⟨Script.pay 0⟩, 0, PixelProof.sig ⟨7, 5⟩)]
    rfl rfl rfl rfl rfl rfl rfl (by decide)

/-! ## C9 — block indexer tip advancement

Embedding of `BitcoinBlockIndexer::index_block` (indexer.rs:242–255) and
the forward walk of `handle_new_blocks` (indexer.rs:258–297). A
sub-indexer is observed through its per-block verdict; `index_block`
runs them in registration order (`?` propagates the first error) and
persists `last_indexed` only afterwards. The chain walked through
`nextblockhash` is materialized as the list of fetched blocks. -/

structure Block where
  hash : Nat
  height : Nat
  deriving DecidableEq, Repr

abbrev Subindexer := Block → Except String Unit

/-- The `for indexer in self.inner_indexers` loop with `?`. -/
def run_subindexers : List Subindexer → Block → Except String Unit
  | [], _ => Except.ok ()
  | s :: rest, b => do
    s b
    run_subindexers rest b

/-- `index_block`: run every sub-indexer, then (and only then) store the
block hash as `last_indexed`; an error leaves the stored hash unchanged
and propagates. -/
def index_block (subs : List Subindexer) (lastIndexed : Option Nat) (b : Block) :
    Option Nat × Except String Unit :=
  match run_subindexers subs b with
  | Except.ok () => (some b.hash, Except.ok ())
  | Except.error e => (lastIndexed, Except.error e)

/-- The block loop of `handle_new_blocks`: index each fetched block in
turn, aborting at the first failure. -/
def handle_new_blocks_walk (subs : List Subindexer) (lastIndexed : Option Nat) :
    List Block → Option Nat × Except String Unit
  | [] => (lastIndexed, Except.ok ())
  | b :: rest =>
    match run_subindexers subs b with
    | Except.ok () => handle_new_blocks_walk subs (some b.hash) rest
    | Except.error e => (lastIndexed, Except.error e)

/-- **C9.** The stored `last_indexed` hash is set to a block's hash only
when every registered sub-indexer succeeded on it: a fully successful
`index_block` stores the block hash, a failing one leaves the stored
hash unchanged and propagates the error, and after any walk over new
blocks the stored hash is either still the initial one or the hash of
some walked block on which every sub-indexer succeeded. -/
theorem last_indexed_only_after_subindexer_success
    (subs : List Subindexer) (lastIndexed : Option Nat) (b : Block)
    (blocks : List Block) :
    (run_subindexers subs b = Except.ok () →
      index_block subs lastIndexed b = (some b.hash, Except.ok ())) ∧
    (∀ e, run_subindexers subs b = Except.error e →
      index_block subs lastIndexed b = (lastIndexed, Except.error e)) ∧
    ((handle_new_blocks_walk subs lastIndexed blocks).1 = lastIndexed ∨
      ∃ b' ∈ blocks, run_subindexers subs b' = Except.ok () ∧
        (handle_new_blocks_walk subs lastIndexed blocks).1 = some b'.hash) := by
  refine ⟨?_, ?_, ?_⟩
  · intro h
    simp [index_block, h]
  · intro e h
    simp [index_block, h]
  · induction blocks generalizing lastIndexed with
    | nil => exact Or.inl rfl
    | cons b' rest ih =>
      simp only [handle_new_blocks_walk]
      cases hrun : run_subindexers subs b' with
      | ok u =>
        obtain ⟨⟩ := u
        rcases ih (some b'.hash) with h | ⟨b'', hmem, hok, hh⟩
        · exact Or.inr ⟨b', List.mem_cons_self .., hrun, h⟩
        · exact Or.inr ⟨b'', List.mem_cons_of_mem _ hmem, hok, hh⟩
      | error e => exact Or.inl rfl

/-- Witness: a successful sub-indexer list advances the tip to the block
hash; a failing one leaves the stored `None` tip untouched. -/
theorem last_indexed_only_after_subindexer_success_witness :
    index_block [fun _ => Except.ok ()] none ⟨42, 7⟩ =
      (some 42, Except.ok ()) := by
  exact (last_indexed_only_after_subindexer_success
    [fun _ => Except.ok ()] none ⟨42, 7⟩ []).1 rfl

/-! ## C6 — consensus codec

Byte streams are `List Nat`. Bitcoin consensus integers (`u8`, `u32`)
are little-endian; the announcement wire format uses big-endian (§6.3).
The `bitcoin::Transaction` and `PixelProof` codecs live in external /
absent crates and are parameters (`encT`/`decT`, `encP`/`decP`) assumed
to round-trip. -/

def natToLE (width value : Nat) : List Nat :=
  match width with
  | 0 => []
  | w + 1 => value % 256 :: natToLE w (value / 256)

def leToNat (bytes : List Nat) : Nat :=
  bytes.foldr (fun b acc => acc * 256 + b) 0

lemma natToLE_length (width value : Nat) : (natToLE width value).length = width := by
  induction width generalizing value with
  | zero => rfl
  | succ w ih => simp [natToLE, ih]

lemma leToNat_natToLE (width value : Nat) (h : value < 256 ^ width) :
    leToNat (natToLE width value) = value := by
  induction width generalizing value with
  | zero =>
    simp only [Nat.pow_zero, Nat.lt_one_iff] at h
    simp [natToLE, leToNat, h]
  | succ w ih =>
    have hdiv : value / 256 < 256 ^ w := by
      rw [Nat.div_lt_iff_lt_mul (by omega)]
      calc value < 256 ^ (w + 1) := h
      _ = 256 ^ w * 256 := by rw [Nat.pow_succ]
    simp only [natToLE, leToNat, List.foldr_cons]
    have := ih (value / 256) hdiv
    simp only [leToNat] at this
    rw [this]
    omega

lemma natToBE_length (width value : Nat) : (natToBE width value).length = width := by
  induction width generalizing value with
  | zero => rfl
  | succ w ih => simp [natToBE, ih]

lemma beToNat_natToBE (width value : Nat) (h : value < 256 ^ width) :
    beToNat (natToBE width value) = value := by
  induction width generalizing value with
  | zero =>
    simp only [Nat.pow_zero, Nat.lt_one_iff] at h
    simp [natToBE, beToNat, h]
  | succ w ih =>
    have hdiv : value / 256 < 256 ^ w := by
      rw [Nat.div_lt_iff_lt_mul (by omega)]
      calc value < 256 ^ (w + 1) := h
      _ = 256 ^ w * 256 := by rw [Nat.pow_succ]
    simp only [natToBE, beToNat, List.foldl_append, List.foldl_cons, List.foldl_nil]
    have := ih (value / 256) hdiv
    simp only [beToNat] at this
    rw [this]
    omega

/-- Read exactly `n` bytes from the stream. -/
def readBytes (n : Nat) (bs : List Nat) : Option (List Nat × List Nat) :=
  if n ≤ bs.length then some (bs.take n, bs.drop n) else none

/-- Read one byte. -/
def readByte (bs : List Nat) : Option (Nat × List Nat) :=
  match bs with
  | [] => none
  | b :: rest => some (b, rest)

lemma readBytes_append (xs rest : List Nat) :
    readBytes xs.length (xs ++ rest) = some (xs, rest) := by
  unfold readBytes
  rw [if_pos (by simp)]
  rw [List.take_left, List.drop_left]

lemma readBytes_exact (n : Nat) (xs rest : List Nat) (h : xs.length = n) :
    readBytes n (xs ++ rest) = some (xs, rest) := by
  subst h
  exact readBytes_append xs rest

/-! ### Announcement codec -/

/-- Payload parser for `ChromaAnnouncement` (modelled from the spec,
§6.3 kind 00 00; the payload must be consumed exactly). -/
def ChromaAnnouncement.from_announcement_data_bytes (data : List Nat) :
    Option ChromaAnnouncement := do
  let (cb, r1) ← readBytes 32 data
  let (nl, r2) ← readByte r1
  let (nm, r3) ← readBytes nl r2
  let (sl, r4) ← readByte r3
  let (sb, r5) ← readBytes sl r4
  let (dec, r6) ← readByte r5
  let (msb, r7) ← readBytes 16 r6
  let (frz, r8) ← readByte r7
  if r8 = [] then
    some ⟨beToNat cb, nm, sb, dec, beToNat msb, frz == 1⟩
  else
    none

/-- Payload parser for `FreezeAnnouncement` (modelled from the spec,
§6.3 kind 00 01). -/
def FreezeAnnouncement.from_announcement_data_bytes (data : List Nat) :
    Option FreezeAnnouncement := do
  let (tb, r1) ← readBytes 32 data
  let (vb, r2) ← readBytes 4 r1
  if r2 = [] then some ⟨beToNat tb, beToNat vb⟩ else none

/-- `announcement_from_bytes` (in the absent `announcements/mod.rs`;
modelled from the spec): check minimal length and the `b"yuv"` prefix,
dispatch on the two kind bytes. -/
def announcement_from_bytes (bs : List Nat) : Option Announcement :=
  if bs.length < 5 then none
  else if bs.take 3 ≠ announcementPrefix then none
  else
    let kind := (bs.drop 3).take 2
    let data := bs.drop 5
    if kind = [0, 0] then
      (ChromaAnnouncement.from_announcement_data_bytes data).map Announcement.chroma
    else if kind = [0, 1] then
      (FreezeAnnouncement.from_announcement_data_bytes data).map Announcement.freeze
    else if kind = [0, 2] then
      (IssueAnnouncement.from_announcement_data_bytes data).map Announcement.issue
    else
      none

/-- Well-formedness of an announcement's numeric fields: each fits the
byte width its wire format gives it. -/
def Announcement.wf : Announcement → Prop
  | .chroma a => a.chroma < 256 ^ 32 ∧ a.name.length < 256 ∧ a.symbol.length < 256 ∧
      a.decimals < 256 ∧ a.max_supply < 256 ^ 16
  | .freeze a => a.txid < 256 ^ 32 ∧ a.vout < 256 ^ 4
  | .issue a => a.chroma < 256 ^ 32 ∧ a.amount < 256 ^ 16

lemma afb_dispatch (k0 k1 : Nat) (data : List Nat) :
    announcement_from_bytes (announcementPrefix ++ [k0, k1] ++ data) =
      (if [k0, k1] = [0, 0] then
        (ChromaAnnouncement.from_announcement_data_bytes data).map Announcement.chroma
      else if [k0, k1] = [0, 1] then
        (FreezeAnnouncement.from_announcement_data_bytes data).map Announcement.freeze
      else if [k0, k1] = [0, 2] then
        (IssueAnnouncement.from_announcement_data_bytes data).map Announcement.issue
      else none) := by
  unfold announcement_from_bytes
  rw [if_neg (by simp [announcementPrefix])]
  rw [if_neg (by simp [announcementPrefix])]
  have hkind : ((announcementPrefix ++ [k0, k1] ++ data).drop 3).take 2 = [k0, k1] := by
    simp [announcementPrefix]
  have hdata : (announcementPrefix ++ [k0, k1] ++ data).drop 5 = data := by
    simp [announcementPrefix]
  rw [hkind, hdata]

lemma chroma_data_roundtrip (c : ChromaAnnouncement)
    (h1 : c.chroma < 256 ^ 32) (h5 : c.max_supply < 256 ^ 16) :
    ChromaAnnouncement.from_announcement_data_bytes
      c.to_announcement_data_bytes = some c := by
  obtain ⟨cc, cn, cs, cd, cm, cf⟩ := c
  simp only at h1 h5
  unfold ChromaAnnouncement.from_announcement_data_bytes
    ChromaAnnouncement.to_announcement_data_bytes
  simp only
  rw [show natToBE 32 cc ++ [cn.length] ++ cn ++ [cs.length] ++
        cs ++ [cd] ++ natToBE 16 cm ++ [if cf then 1 else 0] =
      natToBE 32 cc ++ ([cn.length] ++ (cn ++ ([cs.length] ++
        (cs ++ ([cd] ++ (natToBE 16 cm ++ [if cf then 1 else 0])))))) from by simp]
  rw [readBytes_exact 32 _ _ (natToBE_length 32 cc)]
  simp only [Option.bind_eq_bind, Option.some_bind, readByte, List.singleton_append]
  rw [readBytes_exact cn.length _ _ rfl]
  simp only [Option.some_bind, readByte]
  rw [readBytes_exact cs.length _ _ rfl]
  simp only [Option.some_bind, readByte]
  rw [readBytes_exact 16 _ _ (natToBE_length 16 cm)]
  simp only [Option.some_bind, readByte]
  rw [beToNat_natToBE 32 cc h1, beToNat_natToBE 16 cm h5]
  cases cf with
  | true => simp
  | false => simp

lemma freeze_data_roundtrip (f : FreezeAnnouncement)
    (h1 : f.txid < 256 ^ 32) (h2 : f.vout < 256 ^ 4) :
    FreezeAnnouncement.from_announcement_data_bytes
      f.to_announcement_data_bytes = some f := by
  obtain ⟨ft, fv⟩ := f
  simp only at h1 h2
  unfold FreezeAnnouncement.from_announcement_data_bytes
    FreezeAnnouncement.to_announcement_data_bytes
  simp only
  rw [readBytes_exact 32 _ _ (natToBE_length 32 ft)]
  simp only [Option.bind_eq_bind, Option.some_bind]
  rw [show (natToBE 4 fv : List Nat) = natToBE 4 fv ++ [] from by simp]
  rw [readBytes_exact 4 _ _ (natToBE_length 4 fv)]
  simp only [Option.some_bind]
  rw [beToNat_natToBE 32 ft h1, beToNat_natToBE 4 fv h2]
  simp

lemma issue_data_roundtrip (i : IssueAnnouncement)
    (h1 : i.chroma < 256 ^ 32) (h2 : i.amount < 256 ^ 16) :
    IssueAnnouncement.from_announcement_data_bytes
      i.to_announcement_data_bytes = some i := by
  obtain ⟨ic, ia⟩ := i
  simp only at h1 h2
  unfold IssueAnnouncement.from_announcement_data_bytes
    IssueAnnouncement.to_announcement_data_bytes
  simp only
  rw [if_pos (by simp [natToBE_length])]
  rw [List.take_left' (natToBE_length 32 ic), List.drop_left' (natToBE_length 32 ic),
    beToNat_natToBE 32 ic h1, beToNat_natToBE 16 ia h2]

lemma announcement_to_bytes_parses (a : Announcement) (h : a.wf) :
    announcement_from_bytes a.to_bytes = some a := by
  cases a with
  | chroma c =>
    obtain ⟨h1, _, _, _, h5⟩ := h
    show announcement_from_bytes
      (announcementPrefix ++ [0, 0] ++ c.to_announcement_data_bytes) = _
    rw [afb_dispatch, if_pos rfl, chroma_data_roundtrip c h1 h5]
    rfl
  | freeze f =>
    obtain ⟨h1, h2⟩ := h
    show announcement_from_bytes
      (announcementPrefix ++ [0, 1] ++ f.to_announcement_data_bytes) = _
    rw [afb_dispatch, if_neg (by simp), if_pos rfl, freeze_data_roundtrip f h1 h2]
    rfl
  | issue i =>
    obtain ⟨h1, h2⟩ := h
    show announcement_from_bytes
      (announcementPrefix ++ [0, 2] ++ i.to_announcement_data_bytes) = _
    rw [afb_dispatch, if_neg (by simp), if_neg (by simp), if_pos rfl,
      issue_data_roundtrip i h1 h2]
    rfl

/-! ### YuvTxType / YuvTransaction / Inventory consensus framing
(consensus.rs:23–141, 171–197). Tags: Issue=0, Transfer=1,
FreezeToggle=2. Proof maps are `u32 count` then `(u32 vout, proof)`
pairs; decoding inserts into a `BTreeMap` (modelled by ordered
insertion). -/

structure FreezeTxToggle where
  txid : Nat
  vout : Nat
  deriving DecidableEq, Repr

/-- `FreezeTxToggle` consensus codec (toggle.rs:40–62): txid (32 raw
bytes) then vout (`u32`, little-endian). -/
def encodeFreezeTxToggle (f : FreezeTxToggle) : List Nat :=
  natToLE 32 f.txid ++ natToLE 4 f.vout

def decodeFreezeTxToggle (bs : List Nat) : Option (FreezeTxToggle × List Nat) := do
  let (tb, r1) ← readBytes 32 bs
  let (vb, r2) ← readBytes 4 r1
  pure (⟨leToNat tb, leToNat vb⟩, r2)

inductive ConsYuvTxType (π : Type) where
  | issue (output_proofs : List (Nat × π))
  | transfer (input_proofs output_proofs : List (Nat × π))
  | freezeToggle (freezes : List FreezeTxToggle)
  deriving DecidableEq

/-- `BTreeMap::insert`: ordered insertion, replacing an equal key. -/
def btInsert {π : Type} (m : List (Nat × π)) (k : Nat) (v : π) : List (Nat × π) :=
  match m with
  | [] => [(k, v)]
  | (k', v') :: rest =>
    if k' < k then (k', v') :: btInsert rest k v
    else if k' = k then (k, v) :: rest
    else (k, v) :: (k', v') :: rest

/-- `ProofsWrapper::consensus_encode` (consensus.rs:89): `u32` count,
then each `(u32 key, proof)` in map order. -/
def encodeProofMap {π : Type} (encP : π → List Nat) (m : List (Nat × π)) : List Nat :=
  natToLE 4 m.length ++ (m.map (fun kv => natToLE 4 kv.1 ++ encP kv.2)).flatten

def decodeProofPairs {π : Type} (decP : List Nat → Option (π × List Nat)) :
    Nat → List (Nat × π) → List Nat → Option (List (Nat × π) × List Nat)
  | 0, acc, bs => some (acc, bs)
  | n + 1, acc, bs => do
    let (kb, r1) ← readBytes 4 bs
    let (p, r2) ← decP r1
    decodeProofPairs decP n (btInsert acc (leToNat kb) p) r2

def decodeProofMap {π : Type} (decP : List Nat → Option (π × List Nat))
    (bs : List Nat) : Option (List (Nat × π) × List Nat) := do
  let (lb, r1) ← readBytes 4 bs
  decodeProofPairs decP (leToNat lb) [] r1

def decodeFreezes : Nat → List Nat → Option (List FreezeTxToggle × List Nat)
  | 0, bs => some ([], bs)
  | n + 1, bs => do
    let (f, r1) ← decodeFreezeTxToggle bs
    let (fs, r2) ← decodeFreezes n r1
    pure (f :: fs, r2)

/-- `YuvTxType` consensus encoding (consensus.rs:23–53). -/
def encodeTxType {π : Type} (encP : π → List Nat) : ConsYuvTxType π → List Nat
  | .issue ops => 0 :: encodeProofMap encP ops
  | .transfer ips ops => 1 :: (encodeProofMap encP ips ++ encodeProofMap encP ops)
  | .freezeToggle fs =>
    2 :: (natToLE 4 fs.length ++ (fs.map encodeFreezeTxToggle).flatten)

/-- `YuvTxType` consensus decoding (consensus.rs:55–85); an unknown
leading tag is a parse failure (`none`). -/
def decodeTxType {π : Type} (decP : List Nat → Option (π × List Nat))
    (bs : List Nat) : Option (ConsYuvTxType π × List Nat) :=
  match bs with
  | [] => none
  | kind :: rest =>
    if kind = 0 then
      (decodeProofMap decP rest).map (fun mr => (ConsYuvTxType.issue mr.1, mr.2))
    else if kind = 1 then do
      let (ips, r1) ← decodeProofMap decP rest
      let (ops, r2) ← decodeProofMap decP r1
      pure (ConsYuvTxType.transfer ips ops, r2)
    else if kind = 2 then do
      let (lb, r1) ← readBytes 4 rest
      let (fs, r2) ← decodeFreezes (leToNat lb) r1
      pure (ConsYuvTxType.freezeToggle fs, r2)
    else
      none

structure ConsYuvTransaction (τ π : Type) where
  bitcoin_tx : τ
  tx_type : ConsYuvTxType π

/-- `YuvTransaction` consensus codec (consensus.rs:120–141): the bitcoin
transaction (external codec) followed by the tx type. -/
def encodeYuvTx {τ π : Type} (encT : τ → List Nat) (encP : π → List Nat)
    (tx : ConsYuvTransaction τ π) : List Nat :=
  encT tx.bitcoin_tx ++ encodeTxType encP tx.tx_type

def decodeYuvTx {τ π : Type} (decT : List Nat → Option (τ × List Nat))
    (decP : List Nat → Option (π × List Nat)) (bs : List Nat) :
    Option (ConsYuvTransaction τ π × List Nat) := do
  let (t, r1) ← decT bs
  let (ty, r2) ← decodeTxType decP r1
  pure (⟨t, ty⟩, r2)

/-- `Inventory` (absent `messages` module; modelled from the spec §6.2:
the tagged union `{Ytx(Txid)}` with the one-byte tag 0) and its consensus
codec (consensus.rs:171–197). -/
inductive Inventory where
  | ytx (txid : Nat)
  deriving DecidableEq, Repr

def encodeInventory : Inventory → List Nat
  | .ytx t => 0 :: natToLE 32 t

def decodeInventory (bs : List Nat) : Option (Inventory × List Nat) :=
  match bs with
  | [] => none
  | flag :: rest =>
    if flag = 0 then
      (readBytes 32 rest).map (fun tr => (Inventory.ytx (leToNat tr.1), tr.2))
    else
      none

/-- Well-formedness of a consensus proof map: `u32`-sized count,
strictly ascending `u32` keys (the `BTreeMap` invariant). -/
def ProofMapWf {π : Type} (m : List (Nat × π)) : Prop :=
  m.length < 256 ^ 4 ∧ List.Pairwise (fun a b => a.1 < b.1) m ∧ ∀ kv ∈ m, kv.1 < 256 ^ 4

def FreezesWf (fs : List FreezeTxToggle) : Prop :=
  fs.length < 256 ^ 4 ∧ ∀ f ∈ fs, f.txid < 256 ^ 32 ∧ f.vout < 256 ^ 4

def TxTypeWf {π : Type} : ConsYuvTxType π → Prop
  | .issue ops => ProofMapWf ops
  | .transfer ips ops => ProofMapWf ips ∧ ProofMapWf ops
  | .freezeToggle fs => FreezesWf fs

def Inventory.wf : Inventory → Prop
  | .ytx t => t < 256 ^ 32

lemma decodeFreezeTxToggle_encode (f : FreezeTxToggle) (rest : List Nat)
    (h1 : f.txid < 256 ^ 32) (h2 : f.vout < 256 ^ 4) :
    decodeFreezeTxToggle (encodeFreezeTxToggle f ++ rest) = some (f, rest) := by
  obtain ⟨ft, fv⟩ := f
  simp only at h1 h2
  unfold decodeFreezeTxToggle encodeFreezeTxToggle
  simp only
  rw [show natToLE 32 ft ++ natToLE 4 fv ++ rest =
      natToLE 32 ft ++ (natToLE 4 fv ++ rest) from by simp]
  rw [readBytes_exact 32 _ _ (natToLE_length 32 ft)]
  simp only [Option.bind_eq_bind, Option.some_bind]
  rw [readBytes_exact 4 _ _ (natToLE_length 4 fv)]
  simp only [Option.some_bind]
  rw [leToNat_natToLE 32 ft h1, leToNat_natToLE 4 fv h2]
  rfl

lemma decodeFreezes_encode (fs : List FreezeTxToggle) (rest : List Nat)
    (h : ∀ f ∈ fs, f.txid < 256 ^ 32 ∧ f.vout < 256 ^ 4) :
    decodeFreezes fs.length ((fs.map encodeFreezeTxToggle).flatten ++ rest) =
      some (fs, rest) := by
  induction fs with
  | nil => simp [decodeFreezes]
  | cons f tl ih =>
    obtain ⟨hf1, hf2⟩ := h f (List.mem_cons_self ..)
    simp only [List.map_cons, List.flatten_cons, List.length_cons]
    rw [List.append_assoc]
    unfold decodeFreezes
    rw [decodeFreezeTxToggle_encode f _ hf1 hf2]
    simp only [Option.bind_eq_bind, Option.some_bind]
    rw [ih (fun x hx => h x (List.mem_cons_of_mem _ hx))]
    rfl

lemma btInsert_append_of_lt {π : Type} (m : List (Nat × π)) (k : Nat) (v : π)
    (h : ∀ kv ∈ m, kv.1 < k) : btInsert m k v = m ++ [(k, v)] := by
  induction m with
  | nil => rfl
  | cons kv rest ih =>
    obtain ⟨k', v'⟩ := kv
    have hk : k' < k := h (k', v') (List.mem_cons_self ..)
    simp only [btInsert, if_pos hk]
    rw [ih (fun x hx => h x (List.mem_cons_of_mem _ hx))]
    rfl

lemma decodeProofPairs_encode {π : Type}
    (encP : π → List Nat) (decP : List Nat → Option (π × List Nat))
    (hRT : ∀ p rest, decP (encP p ++ rest) = some (p, rest))
    (m : List (Nat × π)) :
    ∀ (acc : List (Nat × π)) (rest : List Nat),
      (∀ a ∈ acc, ∀ b ∈ m, a.1 < b.1) →
      List.Pairwise (fun a b => a.1 < b.1) m →
      (∀ kv ∈ m, kv.1 < 256 ^ 4) →
      decodeProofPairs decP m.length acc
        ((m.map (fun kv => natToLE 4 kv.1 ++ encP kv.2)).flatten ++ rest) =
        some (acc ++ m, rest) := by
  induction m with
  | nil =>
    intro acc rest _ _ _
    simp [decodeProofPairs]
  | cons kv tl ih =>
    intro acc rest hlt hpw hkb
    obtain ⟨k, v⟩ := kv
    simp only [List.map_cons, List.flatten_cons, List.length_cons]
    rw [List.append_assoc, List.append_assoc]
    unfold decodeProofPairs
    rw [readBytes_exact 4 _ _ (natToLE_length 4 k)]
    simp only [Option.bind_eq_bind, Option.some_bind]
    rw [hRT v _]
    simp only [Option.some_bind]
    rw [leToNat_natToLE 4 k (hkb (k, v) (List.mem_cons_self ..))]
    rw [btInsert_append_of_lt acc k v
      (fun a ha => hlt a ha (k, v) (List.mem_cons_self ..))]
    rw [List.pairwise_cons] at hpw
    have := ih (acc ++ [(k, v)]) rest
      (by
        intro a ha b hb
        rcases List.mem_append.mp ha with ha | ha
        · exact hlt a ha b (List.mem_cons_of_mem _ hb)
        · rcases List.mem_singleton.mp ha with rfl
          exact hpw.1 b hb)
      hpw.2
      (fun x hx => hkb x (List.mem_cons_of_mem _ hx))
    rw [this]
    simp

lemma decodeProofMap_encode {π : Type}
    (encP : π → List Nat) (decP : List Nat → Option (π × List Nat))
    (hRT : ∀ p rest, decP (encP p ++ rest) = some (p, rest))
    (m : List (Nat × π)) (rest : List Nat) (hwf : ProofMapWf m) :
    decodeProofMap decP (encodeProofMap encP m ++ rest) = some (m, rest) := by
  obtain ⟨hlen, hpw, hkb⟩ := hwf
  unfold decodeProofMap encodeProofMap
  rw [List.append_assoc]
  rw [readBytes_exact 4 _ _ (natToLE_length 4 m.length)]
  simp only [Option.bind_eq_bind, Option.some_bind]
  rw [leToNat_natToLE 4 m.length hlen]
  have := decodeProofPairs_encode encP decP hRT m [] rest (by simp) hpw hkb
  simpa using this

lemma decodeTxType_encode {π : Type}
    (encP : π → List Nat) (decP : List Nat → Option (π × List Nat))
    (hRT : ∀ p rest, decP (encP p ++ rest) = some (p, rest))
    (ty : ConsYuvTxType π) (rest : List Nat) (hwf : TxTypeWf ty) :
    decodeTxType decP (encodeTxType encP ty ++ rest) = some (ty, rest) := by
  cases ty with
  | issue ops =>
    simp only [encodeTxType, List.cons_append, decodeTxType, if_pos rfl]
    rw [decodeProofMap_encode encP decP hRT ops rest hwf]
    rfl
  | transfer ips ops =>
    obtain ⟨h1, h2⟩ := hwf
    simp only [encodeTxType, List.cons_append, decodeTxType]
    rw [if_neg (by omega)]
    simp only [if_true]
    rw [List.append_assoc]
    rw [decodeProofMap_encode encP decP hRT ips _ h1]
    simp only [Option.bind_eq_bind, Option.some_bind]
    rw [decodeProofMap_encode encP decP hRT ops rest h2]
    rfl
  | freezeToggle fs =>
    obtain ⟨hlen, hfs⟩ := hwf
    simp only [encodeTxType, List.cons_append, decodeTxType]
    rw [if_neg (by omega), if_neg (by omega)]
    simp only [if_true]
    rw [List.append_assoc]
    rw [readBytes_exact 4 _ _ (natToLE_length 4 fs.length)]
    simp only [Option.bind_eq_bind, Option.some_bind]
    rw [leToNat_natToLE 4 fs.length hlen]
    rw [decodeFreezes_encode fs rest hfs]
    rfl

lemma decodeTxType_unknown_tag {π : Type}
    (decP : List Nat → Option (π × List Nat)) (b : Nat) (rest : List Nat)
    (h0 : b ≠ 0) (h1 : b ≠ 1) (h2 : b ≠ 2) :
    decodeTxType decP (b :: rest) = none := by
  simp only [decodeTxType, if_neg h0, if_neg h1, if_neg h2]

lemma decodeYuvTx_encode {τ π : Type}
    (encT : τ → List Nat) (decT : List Nat → Option (τ × List Nat))
    (encP : π → List Nat) (decP : List Nat → Option (π × List Nat))
    (hT : ∀ t rest, decT (encT t ++ rest) = some (t, rest))
    (hP : ∀ p rest, decP (encP p ++ rest) = some (p, rest))
    (tx : ConsYuvTransaction τ π) (rest : List Nat) (hwf : TxTypeWf tx.tx_type) :
    decodeYuvTx decT decP (encodeYuvTx encT encP tx ++ rest) = some (tx, rest) := by
  unfold decodeYuvTx encodeYuvTx
  rw [List.append_assoc, hT tx.bitcoin_tx _]
  simp only [Option.bind_eq_bind, Option.some_bind]
  rw [decodeTxType_encode encP decP hP tx.tx_type rest hwf]
  rfl

lemma decodeInventory_encode (inv : Inventory) (rest : List Nat) (h : inv.wf) :
    decodeInventory (encodeInventory inv ++ rest) = some (inv, rest) := by
  cases inv with
  | ytx t =>
    have h' : t < 256 ^ 32 := h
    simp only [encodeInventory, List.cons_append, decodeInventory, if_true]
    rw [readBytes_exact 32 _ _ (natToLE_length 32 t)]
    simp [leToNat_natToLE 32 t h']

/-- **C6.** Consensus round-trip: with round-tripping codecs for the
external `bitcoin::Transaction` and `PixelProof` parts, consensus-decoding
the consensus-encoding of any well-formed `YuvTx` yields it back (with the
remaining stream intact); the same holds for every well-formed
`Announcement` (whose consensus decoding parses the emitted bytes) and
every `Inventory`; and decoding a `YuvTxType` stream whose leading tag
byte is not 0 (Issue), 1 (Transfer) or 2 (FreezeToggle) fails. -/
theorem consensus_roundtrip_and_unknown_tag_fails
    {τ π : Type} (encT : τ → List Nat) (decT : List Nat → Option (τ × List Nat))
    (encP : π → List Nat) (decP : List Nat → Option (π × List Nat))
    (hT : ∀ t rest, decT (encT t ++ rest) = some (t, rest))
    (hP : ∀ p rest, decP (encP p ++ rest) = some (p, rest))
    (tx : ConsYuvTransaction τ π) (a : Announcement) (inv : Inventory)
    (b : Nat) (rest bs : List Nat)
    (htx : TxTypeWf tx.tx_type) (ha : a.wf) (hinv : inv.wf)
    (hb0 : b ≠ 0) (hb1 : b ≠ 1) (hb2 : b ≠ 2) :
    decodeYuvTx decT decP (encodeYuvTx encT encP tx ++ rest) = some (tx, rest) ∧
    announcement_from_bytes a.to_bytes = some a ∧
    decodeInventory (encodeInventory inv ++ rest) = some (inv, rest) ∧
    decodeTxType decP (b :: bs) = none :=
  ⟨decodeYuvTx_encode encT decT encP decP hT hP tx rest htx,
   announcement_to_bytes_parses a ha,
   decodeInventory_encode inv rest hinv,
   decodeTxType_unknown_tag decP b bs hb0 hb1 hb2⟩

/-- A concrete round-tripping stand-in codec for the parameterized
external parts. -/
def unitEnc : Unit → List Nat := fun _ => [9]

def unitDec : List Nat → Option (Unit × List Nat) :=
  fun bs =>
    match bs with
    | [] => none
    | b :: r => if b = 9 then some ((), r) else none

lemma unitDec_unitEnc : ∀ (t : Unit) (rest : List Nat),
    unitDec (unitEnc t ++ rest) = some (t, rest) := by
  intro t rest
  cases t
  rfl

/-- Witness for the consensus round-trip theorem at concrete values. -/
theorem consensus_roundtrip_witness :
    decodeYuvTx unitDec unitDec
        (encodeYuvTx unitEnc unitEnc ⟨(), ConsYuvTxType.issue [(0, ())]⟩ ++ []) =
      some (⟨(), ConsYuvTxType.issue [(0, ())]⟩, []) ∧
    announcement_from_bytes (Announcement.issue ⟨1, 2⟩).to_bytes =
      some (Announcement.issue ⟨1, 2⟩) ∧
    decodeInventory (encodeInventory (Inventory.ytx 5) ++ []) =
      some (Inventory.ytx 5, []) ∧
    decodeTxType unitDec (7 :: []) = none := by
  exact consensus_roundtrip_and_unknown_tag_fails unitEnc unitDec unitEnc unitDec
    unitDec_unitEnc unitDec_unitEnc
    ⟨(), ConsYuvTxType.issue [(0, ())]⟩ (Announcement.issue ⟨1, 2⟩) (Inventory.ytx 5)
    7 [] []
    ⟨by norm_num, by simp, by intro kv hkv; rcases List.mem_singleton.mp hkv with rfl; norm_num⟩
    ⟨by norm_num, by norm_num⟩ (show (5 : Nat) < 256 ^ 32 by norm_num)
    (by omega) (by omega) (by omega)

/-! ## DAG attacher (tx-attach/src/lib.rs)

The attacher's state: the transactions storage, the page storage
(`get_pages_number` / `get_page_by_num` / `put_page` /
`put_pages_number`), the frozen storage, and the three in-memory maps
`deps`, `inverse_deps`, `stored_txs`. `HashMap`s are association lists;
`HashSet`s are duplicate-free lists in insertion order (a deterministic
model of the unspecified iteration order). A YUV transaction is kept as
its txid, the txids referenced by its bitcoin inputs, and its type
(`YuvTxType` of types/src/transactions/mod.rs: Issue, Transfer with its
input-proof keys, FreezeToggle with its freeze toggles). Time is the
`now` parameter (`SystemTime::now()` at the call). -/

inductive ATy where
  | issue
  | transfer (proofKeys : List Nat)
  | freezeToggle (freezes : List FreezeTxToggle)
  deriving DecidableEq, Repr

structure ATx where
  txid : Nat
  inputs : List Nat
  ty : ATy
  deriving DecidableEq, Repr

structure GBState where
  txmap : List (Nat × ATx)
  pagesNumber : Option Nat
  pages : List (Nat × List Nat)
  frozen : List (OutPoint × List Nat)
  deps : List (Nat × List Nat)
  inverseDeps : List (Nat × List Nat)
  storedTxs : List (Nat × (ATx × Nat))
  deriving DecidableEq, Repr

/-- `HashSet::insert` on the list model. -/
def setInsert (s : List Nat) (x : Nat) : List Nat :=
  if x ∈ s then s else s ++ [x]

/-- `HashSet::extend` (`queued_txs.extend(ids)`). -/
def setUnion (s ids : List Nat) : List Nat :=
  ids.foldl setInsert s

/-- The parent txids a transfer waits for: for each input-proof key,
the referenced input's previous-output txid (out-of-range keys are
skipped, lib.rs:404–408). -/
def parentsOf (proofKeys : List Nat) (inputs : List Nat) : List Nat :=
  proofKeys.filterMap (fun k => inputs.get? k)

/-- `GraphBuilder::update_freezes` (lib.rs:479): append the freeze txid
to each targeted outpoint's entry. -/
def update_freezes (st : GBState) (txid : Nat) (freezes : List FreezeTxToggle) :
    GBState :=
  freezes.foldl
    (fun st f =>
      let outpoint : OutPoint := (f.txid, f.vout)
      let value := (alLookup st.frozen outpoint).getD []
      { st with frozen := alInsert st.frozen outpoint (value ++ [txid]) })
    st

/-- `GraphBuilder::set_tx_attached` (lib.rs:454): store the transaction;
freeze toggles update the frozen storage and are not pushed to the
attached batch. -/
def set_tx_attached (st : GBState) (tx : ATx) (attached : List Nat) :
    GBState × List Nat :=
  let st := { st with txmap := alInsert st.txmap tx.txid tx }
  match tx.ty with
  | .freezeToggle freezes => (update_freezes st tx.txid freezes, attached)
  | _ => (st, attached ++ [tx.txid])

/-- `GraphBuilder::remove_attached_parents` (lib.rs:367): drop the deps
of `txid` that are already in the transactions storage; report whether
none remain. -/
def remove_attached_parents (st : GBState) (txid : Nat) : GBState × Bool :=
  match alLookup st.deps txid with
  | none => (st, true)
  | some ids =>
    let ids' := ids.filter (fun id => (alLookup st.txmap id).isNone)
    ({ st with deps := alInsert st.deps txid ids' }, ids'.isEmpty)

/-- `GraphBuilder::handle_transfer` (lib.rs:396). -/
def handle_transfer (now : Nat) (st : GBState) (tx : ATx) (proofKeys : List Nat)
    (queued attached : List Nat) : GBState × List Nat × List Nat :=
  let childId := tx.txid
  let st := (parentsOf proofKeys tx.inputs).foldl
    (fun st parentId =>
      if (alLookup st.txmap parentId).isSome then st
      else
        { st with
            inverseDeps := alInsert st.inverseDeps parentId
              (setInsert ((alLookup st.inverseDeps parentId).getD []) childId),
            deps := alInsert st.deps childId
              (setInsert ((alLookup st.deps childId).getD []) parentId) })
    st
  -- `self.deps.entry(child_id).or_default().is_empty()`
  let childDeps := (alLookup st.deps childId).getD []
  let st := { st with deps := alInsert st.deps childId childDeps }
  if childDeps.isEmpty then
    let (st, attached) := set_tx_attached st tx attached
    let st := { st with deps := alRemove st.deps childId }
    match alLookup st.inverseDeps childId with
    | none => (st, queued, attached)
    | some ids =>
      ({ st with inverseDeps := alRemove st.inverseDeps childId },
        setUnion queued ids, attached)
  else
    ({ st with storedTxs := alInsert st.storedTxs childId (tx, now) },
      queued, attached)

/-- One queued txid of the attach loop (lib.rs:261–291). -/
def attachLoopStep (st : GBState) (lq attached : List Nat) (txid : Nat) :
    GBState × List Nat × List Nat :=
  let (st, isEmpty) := remove_attached_parents st txid
  if !isEmpty then (st, lq, attached)
  else
    match alLookup st.storedTxs txid with
    | none => (st, lq, attached)
    | some (tx, _) =>
      let st := { st with storedTxs := alRemove st.storedTxs txid }
      let st := { st with deps := alRemove st.deps txid }
      let (st, attached) := set_tx_attached st tx attached
      match alLookup st.inverseDeps txid with
      | none => (st, lq, attached)
      | some invDeps =>
        ({ st with inverseDeps := alRemove st.inverseDeps txid },
          setUnion lq invDeps, attached)

/-- The `while !queued_txs.is_empty()` loop (lib.rs:258–294), with fuel
(each round either attaches a stored tx or ends). -/
def attachLoop : Nat → GBState → List Nat → List Nat → GBState × List Nat
  | _, st, [], attached => (st, attached)
  | 0, st, _, attached => (st, attached)
  | fuel + 1, st, queued, attached =>
    let r := queued.foldl
      (fun acc txid => attachLoopStep acc.1 acc.2.1 acc.2.2 txid)
      (st, ([] : List Nat), attached)
    attachLoop fuel r.1 r.2.1 r.2.2

/-- `GraphBuilder::put_txs_ids_to_page` (lib.rs:324). -/
def put_txs_ids_to_page (txPerPage : Nat) (st : GBState) (txids : List Nat) :
    GBState :=
  let lastPageNum := st.pagesNumber.getD 0
  let lastPage := (alLookup st.pages lastPageNum).getD []
  let leftSpace := txPerPage - lastPage.length
  let inCurrentPage := txids.take (min leftSpace txids.length)
  let inNextPage := txids.drop (min leftSpace txids.length)
  let st :=
    if inCurrentPage.isEmpty then st
    else { st with pages := alInsert st.pages lastPageNum (lastPage ++ inCurrentPage) }
  if inNextPage.isEmpty then st
  else
    { st with
        pages := alInsert st.pages (lastPageNum + 1) inNextPage,
        pagesNumber := some (lastPageNum + 1) }

/-- `attached_txs.chunks(tx_per_page)` (fuel-structured on the length;
`chunks(0)` cannot occur in Rust — it panics — and is given a harmless
value here). -/
def chunksGo (n : Nat) : Nat → List Nat → List (List Nat)
  | _, [] => []
  | 0, l => [l]
  | fuel + 1, l => if n = 0 then [l] else l.take n :: chunksGo n fuel (l.drop n)

def chunksOf (n : Nat) (l : List Nat) : List (List Nat) :=
  chunksGo n l.length l

/-- `GraphBuilder::handle_fully_attached_txs` (lib.rs:303): write the
attached ids to pages chunk by chunk and emit `AttachedTxs`. Returns the
emitted batch (empty when nothing was attached). -/
def handle_fully_attached_txs (txPerPage : Nat) (st : GBState)
    (attached : List Nat) : GBState × List Nat :=
  if attached.isEmpty then (st, [])
  else
    ((chunksOf txPerPage attached).foldl (put_txs_ids_to_page txPerPage) st,
      attached)

/-- The per-transaction dispatch of `attach_txs` (lib.rs:223–255). -/
def attachTx (now : Nat) (st : GBState) (queued attached : List Nat) (tx : ATx) :
    GBState × List Nat × List Nat :=
  match tx.ty with
  | .issue =>
    let (st, attached) := set_tx_attached st tx attached
    (match alLookup st.inverseDeps tx.txid with
      | none => (st, queued, attached)
      | some ids =>
        ({ st with inverseDeps := alRemove st.inverseDeps tx.txid },
          setUnion queued ids, attached))
  | .freezeToggle _ =>
    let (st, attached) := set_tx_attached st tx attached
    (st, queued, attached)
  | .transfer proofKeys => handle_transfer now st tx proofKeys queued attached

/-- `GraphBuilder::attach_txs` (lib.rs:219). Returns the new state and
the emitted `AttachedTxs` batch. -/
def attach_txs (now txPerPage : Nat) (st : GBState) (batch : List ATx) :
    GBState × List Nat :=
  let r := batch.foldl
    (fun acc tx => attachTx now acc.1 acc.2.1 acc.2.2 tx)
    (st, ([] : List Nat), ([] : List Nat))
  let (st', attached') := attachLoop (r.1.storedTxs.length + 2) r.1 r.2.1 r.2.2
  handle_fully_attached_txs txPerPage st' attached'

/-! ### Association-list and set lemmas for the attacher proofs -/

def NodupKeys {κ α : Type} [DecidableEq κ] (m : List (κ × α)) : Prop :=
  (m.map Prod.fst).Nodup

lemma alInsert_cons_eq {κ α : Type} [DecidableEq κ] (k : κ) (v v' : α)
    (rest : List (κ × α)) : alInsert ((k, v') :: rest) k v = (k, v) :: rest := by
  simp [alInsert]

lemma alInsert_cons_ne {κ α : Type} [DecidableEq κ] (k₀ k : κ) (v v₀ : α)
    (rest : List (κ × α)) (h : k₀ ≠ k) :
    alInsert ((k₀, v₀) :: rest) k v = (k₀, v₀) :: alInsert rest k v := by
  simp [alInsert, h]

lemma alLookup_alInsert_self {κ α : Type} [DecidableEq κ]
    (m : List (κ × α)) (k : κ) (v : α) : alLookup (alInsert m k v) k = some v := by
  induction m with
  | nil => simp [alInsert, alLookup]
  | cons kv rest ih =>
    obtain ⟨k', v'⟩ := kv
    by_cases h : k' = k
    · subst h
      simp [alInsert, alLookup]
    · simp only [alInsert, if_neg h]
      rw [alLookup_cons_ne k' k v' _ h]
      exact ih

lemma alLookup_alInsert_ne {κ α : Type} [DecidableEq κ]
    (m : List (κ × α)) (k k' : κ) (v : α) (h : k ≠ k') :
    alLookup (alInsert m k v) k' = alLookup m k' := by
  induction m with
  | nil =>
    simp only [alInsert]
    rw [alLookup_cons_ne k k' v [] h]
  | cons kv rest ih =>
    obtain ⟨k₀, v₀⟩ := kv
    by_cases h0 : k₀ = k
    · subst h0
      rw [alInsert_cons_eq, alLookup_cons_ne k₀ k' v _ h, alLookup_cons_ne k₀ k' v₀ _ h]
    · rw [alInsert_cons_ne k₀ k v v₀ rest h0]
      by_cases h1 : k₀ = k'
      · subst h1
        rw [alLookup_cons_eq, alLookup_cons_eq]
      · rw [alLookup_cons_ne k₀ k' v₀ _ h1, alLookup_cons_ne k₀ k' v₀ _ h1, ih]

lemma alInsert_self {κ α : Type} [DecidableEq κ]
    (m : List (κ × α)) (k : κ) (v : α) (h : alLookup m k = some v) :
    alInsert m k v = m := by
  induction m with
  | nil => cases h
  | cons kv rest ih =>
    obtain ⟨k', v'⟩ := kv
    by_cases hk : k' = k
    · subst hk
      rw [alLookup_cons_eq] at h
      obtain rfl : v' = v := by simpa using h
      simp [alInsert]
    · rw [alLookup_cons_ne k' k v' rest hk] at h
      simp only [alInsert, if_neg hk]
      rw [ih h]

lemma alLookup_none_iff_not_mem_keys {κ α : Type} [DecidableEq κ]
    (m : List (κ × α)) (k : κ) :
    alLookup m k = none ↔ k ∉ m.map Prod.fst := by
  induction m with
  | nil => simp [alLookup]
  | cons kv rest ih =>
    obtain ⟨k', v'⟩ := kv
    by_cases h : k' = k
    · subst h
      rw [alLookup_cons_eq]
      simp
    · rw [alLookup_cons_ne k' k v' rest h]
      simp only [List.map_cons, List.mem_cons, ih]
      constructor
      · rintro h1 (h2 | h2)
        · exact h h2.symm
        · exact h1 h2
      · intro h1 h2
        exact h1 (Or.inr h2)

lemma alRemove_alInsert_of_none {κ α : Type} [DecidableEq κ]
    (m : List (κ × α)) (k : κ) (v : α) (h : alLookup m k = none) :
    alRemove (alInsert m k v) k = m := by
  induction m with
  | nil => simp [alInsert, alRemove]
  | cons kv rest ih =>
    obtain ⟨k', v'⟩ := kv
    by_cases hk : k' = k
    · subst hk
      rw [alLookup_cons_eq] at h
      cases h
    · rw [alLookup_cons_ne k' k v' rest hk] at h
      simp only [alInsert, if_neg hk, alRemove, if_neg hk]
      rw [ih h]

lemma mem_keys_alInsert {κ α : Type} [DecidableEq κ]
    (m : List (κ × α)) (k : κ) (v : α) (x : κ) :
    x ∈ (alInsert m k v).map Prod.fst ↔ x ∈ m.map Prod.fst ∨ x = k := by
  induction m with
  | nil => simp [alInsert]
  | cons kv rest ih =>
    obtain ⟨k', v'⟩ := kv
    by_cases hk : k' = k
    · subst hk
      rw [alInsert_cons_eq]
      simp only [List.map_cons, List.mem_cons]
      tauto
    · rw [alInsert_cons_ne k' k v v' rest hk]
      simp only [List.map_cons, List.mem_cons, ih]
      tauto

lemma nodupKeys_alInsert {κ α : Type} [DecidableEq κ]
    (m : List (κ × α)) (k : κ) (v : α) (h : NodupKeys m) :
    NodupKeys (alInsert m k v) := by
  induction m with
  | nil => simp [alInsert, NodupKeys]
  | cons kv rest ih =>
    obtain ⟨k', v'⟩ := kv
    simp only [NodupKeys, List.map_cons, List.nodup_cons] at h
    by_cases hk : k' = k
    · subst hk
      rw [alInsert_cons_eq]
      simp only [NodupKeys, List.map_cons, List.nodup_cons]
      exact h
    · rw [alInsert_cons_ne k' k v v' rest hk]
      simp only [NodupKeys, List.map_cons, List.nodup_cons]
      refine ⟨fun hmem => ?_, ih h.2⟩
      rcases (mem_keys_alInsert rest k v k').mp hmem with h1 | h1
      · exact h.1 h1
      · exact hk h1

lemma keys_alRemove_subset {κ α : Type} [DecidableEq κ]
    (m : List (κ × α)) (k : κ) (x : κ) :
    x ∈ (alRemove m k).map Prod.fst → x ∈ m.map Prod.fst := by
  induction m with
  | nil => simp [alRemove]
  | cons kv rest ih =>
    obtain ⟨k', v'⟩ := kv
    by_cases hk : k' = k
    · subst hk
      rw [alRemove_cons_eq]
      intro h
      exact List.mem_cons.mpr (Or.inr h)
    · rw [alRemove_cons_ne k' k v' rest hk]
      simp only [List.map_cons, List.mem_cons]
      rintro (h | h)
      · exact Or.inl h
      · exact Or.inr (ih h)

lemma nodupKeys_alRemove {κ α : Type} [DecidableEq κ]
    (m : List (κ × α)) (k : κ) (h : NodupKeys m) : NodupKeys (alRemove m k) := by
  induction m with
  | nil => simpa [alRemove] using h
  | cons kv rest ih =>
    obtain ⟨k', v'⟩ := kv
    simp only [NodupKeys, List.map_cons, List.nodup_cons] at h
    by_cases hk : k' = k
    · subst hk
      rw [alRemove_cons_eq]
      exact h.2
    · rw [alRemove_cons_ne k' k v' rest hk]
      simp only [NodupKeys, List.map_cons, List.nodup_cons]
      exact ⟨fun hmem => h.1 (keys_alRemove_subset rest k k' hmem), ih h.2⟩

lemma alLookup_alRemove_self {κ α : Type} [DecidableEq κ]
    (m : List (κ × α)) (k : κ) (h : NodupKeys m) :
    alLookup (alRemove m k) k = none := by
  induction m with
  | nil => rfl
  | cons kv rest ih =>
    obtain ⟨k', v'⟩ := kv
    simp only [NodupKeys, List.map_cons, List.nodup_cons] at h
    by_cases hk : k' = k
    · subst hk
      rw [alRemove_cons_eq]
      rw [alLookup_none_iff_not_mem_keys]
      exact h.1
    · rw [alRemove_cons_ne k' k v' rest hk, alLookup_cons_ne k' k v' _ hk]
      exact ih h.2

lemma alLookup_alRemove_ne' {κ α : Type} [DecidableEq κ]
    (m : List (κ × α)) (k k' : κ) (h : k ≠ k') :
    alLookup (alRemove m k) k' = alLookup m k' :=
  alLookup_alRemove_ne m k k' h

lemma setInsert_of_mem (s : List Nat) (x : Nat) (h : x ∈ s) :
    setInsert s x = s := by
  simp [setInsert, h]

lemma mem_setInsert_self (s : List Nat) (x : Nat) : x ∈ setInsert s x := by
  by_cases h : x ∈ s <;> simp [setInsert, h]

lemma mem_setInsert_of_mem (s : List Nat) (x y : Nat) (h : y ∈ s) :
    y ∈ setInsert s x := by
  by_cases hx : x ∈ s <;> simp [setInsert, hx, h]

lemma mem_setInsert_iff (s : List Nat) (x y : Nat) :
    y ∈ setInsert s x ↔ y ∈ s ∨ y = x := by
  by_cases hx : x ∈ s
  · simp only [setInsert, if_pos hx]
    constructor
    · exact Or.inl
    · rintro (h | rfl)
      · exact h
      · exact hx
  · simp [setInsert, hx]

/-! ### C7 — idempotence analysis of `attach_txs` -/

/-- The record a first `attach_txs` run leaves for one batch member:
issues and freezes are attached; a transfer is either attached (all its
parents attached, no pending record) or pending with its dependency
links in place. -/
def PostTx (now : Nat) (st : GBState) (t : ATx) : Prop :=
  match t.ty with
  | .issue =>
    alLookup st.txmap t.txid = some t ∧ alLookup st.inverseDeps t.txid = none
  | .freezeToggle _ => alLookup st.txmap t.txid = some t
  | .transfer proofKeys =>
    (alLookup st.txmap t.txid = some t ∧
      (∀ p ∈ parentsOf proofKeys t.inputs, (alLookup st.txmap p).isSome = true) ∧
      alLookup st.deps t.txid = none ∧ alLookup st.inverseDeps t.txid = none ∧
      alLookup st.storedTxs t.txid = none) ∨
    (∃ l, alLookup st.deps t.txid = some l ∧ l ≠ [] ∧
      alLookup st.storedTxs t.txid = some (t, now) ∧
      ∀ p ∈ parentsOf proofKeys t.inputs, alLookup st.txmap p = none →
        p ∈ l ∧ ∃ m, alLookup st.inverseDeps p = some m ∧ t.txid ∈ m)

def Processed (now : Nat) (b : List ATx) (st : GBState) : Prop :=
  ∀ t ∈ b, PostTx now st t

/-- The four components the claim is about. -/
def DagEq (s s' : GBState) : Prop :=
  s'.txmap = s.txmap ∧ s'.deps = s.deps ∧ s'.inverseDeps = s.inverseDeps ∧
    s'.storedTxs = s.storedTxs

lemma update_freezes_components (st : GBState) (txid : Nat)
    (fs : List FreezeTxToggle) :
    (update_freezes st txid fs).txmap = st.txmap ∧
    (update_freezes st txid fs).deps = st.deps ∧
    (update_freezes st txid fs).inverseDeps = st.inverseDeps ∧
    (update_freezes st txid fs).storedTxs = st.storedTxs ∧
    (update_freezes st txid fs).pages = st.pages ∧
    (update_freezes st txid fs).pagesNumber = st.pagesNumber := by
  induction fs generalizing st with
  | nil => exact ⟨rfl, rfl, rfl, rfl, rfl, rfl⟩
  | cons f rest ih =>
    simp only [update_freezes, List.foldl_cons]
    exact ih _

/-- PostTx only reads the four DAG components. -/
lemma postTx_of_dagEq (now : Nat) (s s' : GBState) (t : ATx)
    (heq : DagEq s s') (h : PostTx now s t) : PostTx now s' t := by
  obtain ⟨h1, h2, h3, h4⟩ := heq
  unfold PostTx at h ⊢
  cases hty : t.ty with
  | issue =>
    rw [hty] at h
    dsimp only at h ⊢
    rw [h1, h3]
    exact h
  | freezeToggle fs =>
    rw [hty] at h
    dsimp only at h ⊢
    rw [h1]
    exact h
  | transfer ks =>
    rw [hty] at h
    dsimp only at h ⊢
    rw [h1, h2, h3, h4]
    exact h

/-- One batch element of a second run leaves the DAG components, the
pages and the queue untouched. -/
lemma attachTx_noop (now : Nat) (st : GBState) (q a : List Nat) (t : ATx)
    (h : PostTx now st t) :
    DagEq st (attachTx now st q a t).1 ∧
    (attachTx now st q a t).1.pages = st.pages ∧
    (attachTx now st q a t).1.pagesNumber = st.pagesNumber ∧
    (attachTx now st q a t).2.1 = q := by
  unfold PostTx at h
  cases hty : t.ty with
  | issue =>
    rw [hty] at h
    obtain ⟨htm, hinv⟩ := h
    simp only [attachTx, hty, set_tx_attached]
    rw [alInsert_self st.txmap t.txid t htm]
    simp only [hinv]
    refine ⟨⟨?_, ?_, ?_, ?_⟩, ?_, ?_, ?_⟩ <;> first | rfl | trivial
  | freezeToggle fs =>
    rw [hty] at h
    simp only [attachTx, hty, set_tx_attached]
    rw [alInsert_self st.txmap t.txid t h]
    have hc := update_freezes_components st t.txid fs
    have hrec : { st with txmap := st.txmap } = st := rfl
    rw [hrec]
    refine ⟨⟨?_, ?_, ?_, ?_⟩, ?_, ?_, ?_⟩
    · exact hc.1
    · exact hc.2.1
    · exact hc.2.2.1
    · exact hc.2.2.2.1
    · exact hc.2.2.2.2.1
    · exact hc.2.2.2.2.2
    · trivial
  | transfer proofKeys =>
    rw [hty] at h
    rcases h with ⟨htm, hpar, hdep, hinv, _⟩ | ⟨l, hdep, hlne, hstored, hpar⟩
    · -- attached case: every lookup succeeds, the created empty deps
      -- entry is removed again
      have hfold :
          (parentsOf proofKeys t.inputs).foldl
            (fun st parentId =>
              if (alLookup st.txmap parentId).isSome then st
              else
                { st with
                    inverseDeps := alInsert st.inverseDeps parentId
                      (setInsert ((alLookup st.inverseDeps parentId).getD []) t.txid),
                    deps := alInsert st.deps t.txid
                      (setInsert ((alLookup st.deps t.txid).getD []) parentId) })
            st = st := by
        have : ∀ ps : List Nat, (∀ p ∈ ps, (alLookup st.txmap p).isSome = true) →
            ps.foldl
              (fun st' parentId =>
                if (alLookup st'.txmap parentId).isSome then st'
                else
                  { st' with
                      inverseDeps := alInsert st'.inverseDeps parentId
                        (setInsert ((alLookup st'.inverseDeps parentId).getD []) t.txid),
                      deps := alInsert st'.deps t.txid
                        (setInsert ((alLookup st'.deps t.txid).getD []) parentId) })
              st = st := by
          intro ps hps
          induction ps with
          | nil => rfl
          | cons p rest ih =>
            simp only [List.foldl_cons, if_pos (hps p (List.mem_cons_self ..))]
            exact ih (fun x hx => hps x (List.mem_cons_of_mem _ hx))
        exact this _ hpar
      simp only [attachTx, hty, handle_transfer, hfold, hdep, Option.getD_none,
        List.isEmpty_nil, if_true, set_tx_attached]
      rw [alInsert_self st.txmap t.txid t htm]
      have hdep2 : alLookup (alInsert st.deps t.txid ([] : List Nat)) t.txid
          = some [] := alLookup_alInsert_self ..
      rw [alRemove_alInsert_of_none st.deps t.txid [] hdep]
      simp only [hinv]
      refine ⟨⟨?_, ?_, ?_, ?_⟩, ?_, ?_, ?_⟩ <;> first | rfl | trivial
    · -- pending case: all inserts are no-ops, the stored record and the
      -- dependency links are rewritten identically
      have hfold :
          (parentsOf proofKeys t.inputs).foldl
            (fun st parentId =>
              if (alLookup st.txmap parentId).isSome then st
              else
                { st with
                    inverseDeps := alInsert st.inverseDeps parentId
                      (setInsert ((alLookup st.inverseDeps parentId).getD []) t.txid),
                    deps := alInsert st.deps t.txid
                      (setInsert ((alLookup st.deps t.txid).getD []) parentId) })
            st = st := by
        have : ∀ ps : List Nat,
            (∀ p ∈ ps, alLookup st.txmap p = none →
              p ∈ l ∧ ∃ m, alLookup st.inverseDeps p = some m ∧ t.txid ∈ m) →
            ps.foldl
              (fun st' parentId =>
                if (alLookup st'.txmap parentId).isSome then st'
                else
                  { st' with
                      inverseDeps := alInsert st'.inverseDeps parentId
                        (setInsert ((alLookup st'.inverseDeps parentId).getD []) t.txid),
                      deps := alInsert st'.deps t.txid
                        (setInsert ((alLookup st'.deps t.txid).getD []) parentId) })
              st = st := by
          intro ps hps
          induction ps with
          | nil => rfl
          | cons p rest ih =>
            simp only [List.foldl_cons]
            cases htm : alLookup st.txmap p with
            | some v =>
              rw [if_pos (by rfl)]
              exact ih (fun x hx => hps x (List.mem_cons_of_mem _ hx))
            | none =>
              obtain ⟨hpl, m, hm, htin⟩ := hps p (List.mem_cons_self ..) htm
              rw [if_neg (by simp)]
              have hstep :
                  { st with
                      inverseDeps := alInsert st.inverseDeps p
                        (setInsert ((alLookup st.inverseDeps p).getD []) t.txid),
                      deps := alInsert st.deps t.txid
                        (setInsert ((alLookup st.deps t.txid).getD []) p) } = st := by
                rw [hm, hdep]
                simp only [Option.getD_some]
                rw [setInsert_of_mem m t.txid htin, setInsert_of_mem l p hpl,
                  alInsert_self st.inverseDeps p m hm, alInsert_self st.deps t.txid l hdep]
              rw [hstep]
              exact ih (fun x hx => hps x (List.mem_cons_of_mem _ hx))
        exact this _ hpar
      simp only [attachTx, hty, handle_transfer, hfold, hdep, Option.getD_some]
      rw [alInsert_self st.deps t.txid l hdep]
      have hrec : { st with deps := st.deps } = st := rfl
      rw [hrec]
      have hle : l.isEmpty = false := by
        cases l with
        | nil => exact absurd rfl hlne
        | cons x xs => rfl
      rw [hle]
      simp only [Bool.false_eq_true, if_false]
      rw [alInsert_self st.storedTxs t.txid (t, now) hstored]
      have hrec2 : { st with storedTxs := st.storedTxs } = st := rfl
      rw [hrec2]
      refine ⟨⟨?_, ?_, ?_, ?_⟩, ?_, ?_, ?_⟩ <;> first | rfl | trivial

lemma dagEq_refl (s : GBState) : DagEq s s := ⟨rfl, rfl, rfl, rfl⟩

lemma dagEq_trans {s₁ s₂ s₃ : GBState} (h₁ : DagEq s₁ s₂) (h₂ : DagEq s₂ s₃) :
    DagEq s₁ s₃ :=
  ⟨h₂.1.trans h₁.1, h₂.2.1.trans h₁.2.1, h₂.2.2.1.trans h₁.2.2.1,
    h₂.2.2.2.trans h₁.2.2.2⟩

/-- A second pass over the whole batch leaves the DAG components, pages
and queue untouched. -/
lemma attachPhase1_noop (now : Nat) (b : List ATx) :
    ∀ (st : GBState) (q a : List Nat), Processed now b st →
      DagEq st (b.foldl (fun acc tx => attachTx now acc.1 acc.2.1 acc.2.2 tx)
        (st, q, a)).1 ∧
      (b.foldl (fun acc tx => attachTx now acc.1 acc.2.1 acc.2.2 tx)
        (st, q, a)).1.pages = st.pages ∧
      (b.foldl (fun acc tx => attachTx now acc.1 acc.2.1 acc.2.2 tx)
        (st, q, a)).1.pagesNumber = st.pagesNumber ∧
      (b.foldl (fun acc tx => attachTx now acc.1 acc.2.1 acc.2.2 tx)
        (st, q, a)).2.1 = q := by
  induction b with
  | nil =>
    intro st q a _
    exact ⟨dagEq_refl st, rfl, rfl, rfl⟩
  | cons t rest ih =>
    intro st q a h
    obtain ⟨hd, hp, hn, hq⟩ := attachTx_noop now st q a t (h t (List.mem_cons_self ..))
    simp only [List.foldl_cons]
    have hproc : Processed now rest (attachTx now st q a t).1 :=
      fun t' ht' => postTx_of_dagEq now st _ t' hd (h t' (List.mem_cons_of_mem _ ht'))
    have hih := ih (attachTx now st q a t).1 (attachTx now st q a t).2.1
      (attachTx now st q a t).2.2 hproc
    refine ⟨dagEq_trans hd hih.1, hih.2.1.trans hp, hih.2.2.1.trans hn,
      hih.2.2.2.trans hq⟩

/-- The attach loop on an empty queue returns immediately. -/
lemma attachLoop_nil (fuel : Nat) (st : GBState) (a : List Nat) :
    attachLoop fuel st [] a = (st, a) := by
  cases fuel <;> rfl

/-- Pagination touches only `pages` and `pagesNumber`. -/
lemma put_page_components (tpp : Nat) (st : GBState) (txids : List Nat) :
    (put_txs_ids_to_page tpp st txids).txmap = st.txmap ∧
    (put_txs_ids_to_page tpp st txids).deps = st.deps ∧
    (put_txs_ids_to_page tpp st txids).inverseDeps = st.inverseDeps ∧
    (put_txs_ids_to_page tpp st txids).storedTxs = st.storedTxs ∧
    (put_txs_ids_to_page tpp st txids).frozen = st.frozen := by
  unfold put_txs_ids_to_page
  dsimp only
  split <;> split <;> exact ⟨rfl, rfl, rfl, rfl, rfl⟩

lemma put_page_fold_components (tpp : Nat) (chunks : List (List Nat)) :
    ∀ st : GBState,
    (chunks.foldl (put_txs_ids_to_page tpp) st).txmap = st.txmap ∧
    (chunks.foldl (put_txs_ids_to_page tpp) st).deps = st.deps ∧
    (chunks.foldl (put_txs_ids_to_page tpp) st).inverseDeps = st.inverseDeps ∧
    (chunks.foldl (put_txs_ids_to_page tpp) st).storedTxs = st.storedTxs ∧
    (chunks.foldl (put_txs_ids_to_page tpp) st).frozen = st.frozen := by
  induction chunks with
  | nil => exact fun st => ⟨rfl, rfl, rfl, rfl, rfl⟩
  | cons c rest ih =>
    intro st
    simp only [List.foldl_cons]
    have h1 := put_page_components tpp st c
    have h2 := ih (put_txs_ids_to_page tpp st c)
    exact ⟨h2.1.trans h1.1, h2.2.1.trans h1.2.1, h2.2.2.1.trans h1.2.2.1,
      h2.2.2.2.1.trans h1.2.2.2.1, h2.2.2.2.2.trans h1.2.2.2.2⟩

lemma handle_fully_attached_components (tpp : Nat) (st : GBState) (a : List Nat) :
    (handle_fully_attached_txs tpp st a).1.txmap = st.txmap ∧
    (handle_fully_attached_txs tpp st a).1.deps = st.deps ∧
    (handle_fully_attached_txs tpp st a).1.inverseDeps = st.inverseDeps ∧
    (handle_fully_attached_txs tpp st a).1.storedTxs = st.storedTxs ∧
    (handle_fully_attached_txs tpp st a).1.frozen = st.frozen := by
  unfold handle_fully_attached_txs
  split
  · exact ⟨rfl, rfl, rfl, rfl, rfl⟩
  · exact put_page_fold_components tpp (chunksOf tpp a) st

/-- Theorem A: a second `attach_txs` run over an already-processed batch
leaves `txmap`, `deps`, `inverseDeps` and `storedTxs` exactly as they
were. -/
lemma attach_txs_second_run (now tpp : Nat) (s1 : GBState) (b : List ATx)
    (hp : Processed now b s1) :
    DagEq s1 (attach_txs now tpp s1 b).1 := by
  obtain ⟨hd, _, _, hq⟩ := attachPhase1_noop now b s1 [] [] hp
  unfold attach_txs
  dsimp only
  rw [hq, attachLoop_nil]
  have hfc := handle_fully_attached_components tpp
    (b.foldl (fun acc tx => attachTx now acc.1 acc.2.1 acc.2.2 tx)
      (s1, ([] : List Nat), ([] : List Nat))).1
    (b.foldl (fun acc tx => attachTx now acc.1 acc.2.1 acc.2.2 tx)
      (s1, ([] : List Nat), ([] : List Nat))).2.2
  exact ⟨hfc.1.trans hd.1, hfc.2.1.trans hd.2.1, hfc.2.2.1.trans hd.2.2.1,
    hfc.2.2.2.1.trans hd.2.2.2⟩

/-! #### Theorem B: the first run establishes `PostTx` for every batch
member. -/

/-- The body of the missing-parents fold of `handle_transfer`
(lib.rs:403–419), with the child id abstracted. -/
def depsFoldStep (child : Nat) (st : GBState) (parentId : Nat) : GBState :=
  if (alLookup st.txmap parentId).isSome then st
  else
    { st with
        inverseDeps := alInsert st.inverseDeps parentId
          (setInsert ((alLookup st.inverseDeps parentId).getD []) child),
        deps := alInsert st.deps child
          (setInsert ((alLookup st.deps child).getD []) parentId) }

lemma foldl_depsFoldStep_eq (child : Nat) (ps : List Nat) (st : GBState) :
    ps.foldl (fun st parentId =>
        if (alLookup st.txmap parentId).isSome then st
        else
          { st with
              inverseDeps := alInsert st.inverseDeps parentId
                (setInsert ((alLookup st.inverseDeps parentId).getD []) child),
              deps := alInsert st.deps child
                (setInsert ((alLookup st.deps child).getD []) parentId) })
      st = ps.foldl (depsFoldStep child) st := rfl

lemma alLookup_alInsert_isSome_mono {κ α : Type} [DecidableEq κ]
    (m : List (κ × α)) (k : κ) (v : α) (p : κ)
    (h : (alLookup m p).isSome = true) :
    (alLookup (alInsert m k v) p).isSome = true := by
  by_cases hp : k = p
  · subst hp
    rw [alLookup_alInsert_self]
    rfl
  · rw [alLookup_alInsert_ne m k p v hp]
    exact h

lemma alLookup_alInsert_none_inv {κ α : Type} [DecidableEq κ]
    (m : List (κ × α)) (k : κ) (v : α) (p : κ)
    (h : alLookup (alInsert m k v) p = none) : alLookup m p = none := by
  by_cases hp : k = p
  · subst hp
    rw [alLookup_alInsert_self] at h
    cases h
  · rw [alLookup_alInsert_ne m k p v hp] at h
    exact h

/-- Everything the missing-parents fold guarantees: the other state
components are untouched, `deps` changes at the child key only and only
grows, `inverse_deps` membership is monotone and untouched at
already-attached keys, each missing parent ends up linked both ways, key
nodup-ness is preserved, and with no missing parent the fold is the
identity. -/
def FoldOut (child : Nat) (ps : List Nat) (st st₁ : GBState) : Prop :=
  st₁.txmap = st.txmap ∧ st₁.storedTxs = st.storedTxs ∧ st₁.pages = st.pages ∧
  st₁.pagesNumber = st.pagesNumber ∧ st₁.frozen = st.frozen ∧
  (∀ k, k ≠ child → alLookup st₁.deps k = alLookup st.deps k) ∧
  (∀ x, x ∈ (alLookup st.deps child).getD [] →
    x ∈ (alLookup st₁.deps child).getD []) ∧
  (∀ k m x, alLookup st.inverseDeps k = some m → x ∈ m →
    ∃ m', alLookup st₁.inverseDeps k = some m' ∧ x ∈ m') ∧
  (∀ k, (alLookup st.txmap k).isSome = true →
    alLookup st₁.inverseDeps k = alLookup st.inverseDeps k) ∧
  (∀ p ∈ ps, alLookup st.txmap p = none →
    p ∈ (alLookup st₁.deps child).getD [] ∧
    ∃ m, alLookup st₁.inverseDeps p = some m ∧ child ∈ m) ∧
  (NodupKeys st.deps → NodupKeys st₁.deps) ∧
  (NodupKeys st.inverseDeps → NodupKeys st₁.inverseDeps) ∧
  ((∀ p ∈ ps, (alLookup st.txmap p).isSome = true) → st₁ = st)

lemma parents_fold_facts (child : Nat) (ps : List Nat) :
    ∀ st : GBState, FoldOut child ps st (ps.foldl (depsFoldStep child) st) := by
  induction ps with
  | nil =>
    intro st
    exact ⟨rfl, rfl, rfl, rfl, rfl, fun _ _ => rfl, fun _ h => h,
      fun k m x hk hx => ⟨m, hk, hx⟩, fun _ _ => rfl, fun p hp => absurd hp (by simp),
      id, id, fun _ => rfl⟩
  | cons p rest ih =>
    intro st
    simp only [List.foldl_cons]
    by_cases hsp : (alLookup st.txmap p).isSome = true
    · rw [show depsFoldStep child st p = st from by simp [depsFoldStep, hsp]]
      obtain ⟨h1, h2, h3, h4, h5, h6, h7, h8, h9, h10, h11, h12, h13⟩ := ih st
      refine ⟨h1, h2, h3, h4, h5, h6, h7, h8, h9, ?_, h11, h12, ?_⟩
      · intro p' hp' hnone
        rcases List.mem_cons.mp hp' with rfl | hp'
        · rw [hnone] at hsp
          cases hsp
        · exact h10 p' hp' hnone
      · intro hall
        exact h13 (fun p' hp' => hall p' (List.mem_cons_of_mem _ hp'))
    · have hnone : alLookup st.txmap p = none := by
        cases h : alLookup st.txmap p with
        | none => rfl
        | some v => rw [h] at hsp; exact absurd rfl hsp
      rw [show depsFoldStep child st p =
          { st with
              inverseDeps := alInsert st.inverseDeps p
                (setInsert ((alLookup st.inverseDeps p).getD []) child),
              deps := alInsert st.deps child
                (setInsert ((alLookup st.deps child).getD []) p) } from by
        simp [depsFoldStep, hsp]]
      obtain ⟨h1, h2, h3, h4, h5, h6, h7, h8, h9, h10, h11, h12, h13⟩ :=
        ih { st with
              inverseDeps := alInsert st.inverseDeps p
                (setInsert ((alLookup st.inverseDeps p).getD []) child),
              deps := alInsert st.deps child
                (setInsert ((alLookup st.deps child).getD []) p) }
      refine ⟨h1, h2, h3, h4, h5, ?_, ?_, ?_, ?_, ?_, ?_, ?_, ?_⟩
      · intro k hk
        rw [h6 k hk]
        exact alLookup_alInsert_ne st.deps child k _ (Ne.symm hk)
      · intro x hx
        refine h7 x ?_
        rw [alLookup_alInsert_self]
        exact mem_setInsert_of_mem _ _ _ hx
      · intro k m x hk hx
        by_cases hkp : k = p
        · subst hkp
          refine h8 k (setInsert ((alLookup st.inverseDeps k).getD []) child) x
            (alLookup_alInsert_self ..) ?_
          rw [hk]
          exact mem_setInsert_of_mem _ _ _ hx
        · refine h8 k m x ?_ hx
          rw [alLookup_alInsert_ne st.inverseDeps p k _ (fun hh => hkp hh.symm)]
          exact hk
      · intro k hk
        have hkp : p ≠ k := by
          intro hh
          rw [hh] at hnone
          rw [hnone] at hk
          cases hk
        rw [h9 k hk]
        exact alLookup_alInsert_ne st.inverseDeps p k _ hkp
      · intro p' hp' hn'
        rcases List.mem_cons.mp hp' with rfl | hp'
        · constructor
          · refine h7 p' ?_
            rw [alLookup_alInsert_self]
            exact mem_setInsert_self ..
          · refine h8 p' _ child (alLookup_alInsert_self ..) (mem_setInsert_self ..)
        · exact h10 p' hp' hn'
      · intro h
        exact h11 (nodupKeys_alInsert _ _ _ h)
      · intro h
        exact h12 (nodupKeys_alInsert _ _ _ h)
      · intro hall
        have := hall p (List.mem_cons_self ..)
        rw [hnone] at this
        cases this

/-- A batch member not yet processed: its txid is unknown to the
transactions storage, the deps map and the stored-txs map. -/
def FreshT (st : GBState) (t : ATx) : Prop :=
  alLookup st.txmap t.txid = none ∧ alLookup st.deps t.txid = none ∧
  alLookup st.storedTxs t.txid = none

/-- Every pending record is keyed by its own txid, carries the current
timestamp, and its tx is not in the transactions storage. -/
def StoredOk (now : Nat) (st : GBState) : Prop :=
  ∀ k p, alLookup st.storedTxs k = some p →
    p.1.txid = k ∧ p.2 = now ∧ alLookup st.txmap k = none

/-- The four maps have duplicate-free keys (`HashMap` model soundness). -/
def MapsWf (st : GBState) : Prop :=
  NodupKeys st.txmap ∧ NodupKeys st.deps ∧ NodupKeys st.inverseDeps ∧
  NodupKeys st.storedTxs

/-- Preservation core: a state change that inserts a fresh tx into
`txmap`, possibly drops its `inverse_deps` entry, and leaves `deps` and
`stored_txs` as they were, preserves every established postcondition,
`StoredOk` and well-formedness, and keeps the other batch members
fresh. -/
lemma step_like_attach (now : Nat) (st st' : GBState) (t : ATx)
    (hf : FreshT st t) (hso : StoredOk now st) (hwf : MapsWf st)
    (htm : st'.txmap = alInsert st.txmap t.txid t)
    (hdeps : st'.deps = st.deps)
    (hinv : st'.inverseDeps = st.inverseDeps ∨
      st'.inverseDeps = alRemove st.inverseDeps t.txid)
    (hst : st'.storedTxs = st.storedTxs) :
    (∀ u, PostTx now st u → PostTx now st' u) ∧ StoredOk now st' ∧
    MapsWf st' ∧
    (∀ u, u.txid ≠ t.txid → FreshT st u → FreshT st' u) := by
  obtain ⟨hf1, hf2, hf3⟩ := hf
  have hinv_pres : ∀ k, k ≠ t.txid →
      alLookup st'.inverseDeps k = alLookup st.inverseDeps k := by
    intro k hk
    rcases hinv with h | h
    · rw [h]
    · rw [h]
      exact alLookup_alRemove_ne' st.inverseDeps t.txid k (fun hh => hk hh.symm)
  refine ⟨?_, ?_, ?_, ?_⟩
  · intro u hu
    unfold PostTx at hu ⊢
    cases huty : u.ty with
    | issue =>
      rw [huty] at hu
      dsimp only at hu ⊢
      obtain ⟨hu1, hu2⟩ := hu
      have hne : u.txid ≠ t.txid := by
        intro hh
        rw [hh, hf1] at hu1
        cases hu1
      rw [htm, alLookup_alInsert_ne st.txmap t.txid u.txid t (fun hh => hne hh.symm),
        hinv_pres u.txid hne]
      exact ⟨hu1, hu2⟩
    | freezeToggle fs =>
      rw [huty] at hu
      dsimp only at hu ⊢
      have hne : u.txid ≠ t.txid := by
        intro hh
        rw [hh, hf1] at hu
        cases hu
      rw [htm, alLookup_alInsert_ne st.txmap t.txid u.txid t (fun hh => hne hh.symm)]
      exact hu
    | transfer ks =>
      rw [huty] at hu
      dsimp only at hu ⊢
      rcases hu with ⟨hu1, hup, hud, hui, hus⟩ | ⟨l, hud, hlne, hus, hcond⟩
      · have hne : u.txid ≠ t.txid := by
          intro hh
          rw [hh, hf1] at hu1
          cases hu1
        refine Or.inl ⟨?_, ?_, ?_, ?_, ?_⟩
        · rw [htm, alLookup_alInsert_ne st.txmap t.txid u.txid t (fun hh => hne hh.symm)]
          exact hu1
        · intro p hp
          rw [htm]
          exact alLookup_alInsert_isSome_mono st.txmap t.txid t p (hup p hp)
        · rw [hdeps]
          exact hud
        · rw [hinv_pres u.txid hne]
          exact hui
        · rw [hst]
          exact hus
      · have hne : u.txid ≠ t.txid := by
          intro hh
          rw [hh, hf3] at hus
          cases hus
        refine Or.inr ⟨l, ?_, hlne, ?_, ?_⟩
        · rw [hdeps]
          exact hud
        · rw [hst]
          exact hus
        · intro p hp hpn
          have hpt : p ≠ t.txid := by
            intro hh
            rw [htm, hh, alLookup_alInsert_self] at hpn
            cases hpn
          rw [htm, alLookup_alInsert_ne st.txmap t.txid p t (fun hh => hpt hh.symm)]
            at hpn
          obtain ⟨hpl, m, hm, hin⟩ := hcond p hp hpn
          refine ⟨hpl, m, ?_, hin⟩
          rw [hinv_pres p hpt]
          exact hm
  · intro k p hk
    rw [hst] at hk
    obtain ⟨ha, hb, hc⟩ := hso k p hk
    have hne : k ≠ t.txid := by
      intro hh
      rw [hh, hf3] at hk
      cases hk
    refine ⟨ha, hb, ?_⟩
    rw [htm, alLookup_alInsert_ne st.txmap t.txid k t (fun hh => hne hh.symm)]
    exact hc
  · obtain ⟨w1, w2, w3, w4⟩ := hwf
    refine ⟨?_, ?_, ?_, ?_⟩
    · rw [htm]
      exact nodupKeys_alInsert _ _ _ w1
    · rw [hdeps]
      exact w2
    · rcases hinv with h | h
      · rw [h]
        exact w3
      · rw [h]
        exact nodupKeys_alRemove _ _ w3
    · rw [hst]
      exact w4
  · intro u hne hu
    obtain ⟨hu1, hu2, hu3⟩ := hu
    refine ⟨?_, ?_, ?_⟩
    · rw [htm, alLookup_alInsert_ne st.txmap t.txid u.txid t (fun hh => hne hh.symm)]
      exact hu1
    · rw [hdeps]
      exact hu2
    · rw [hst]
      exact hu3

/-- The state `handle_transfer` leaves when the transfer stays pending. -/
def pendingResult (now : Nat) (stMid : GBState) (t : ATx) (L : List Nat) : GBState :=
  { stMid with
      deps := alInsert stMid.deps t.txid L,
      storedTxs := alInsert stMid.storedTxs t.txid (t, now) }

lemma pending_step_props (now : Nat) (st stMid : GBState) (t : ATx)
    (ks L : List Nat)
    (hf : FreshT st t) (hso : StoredOk now st) (hwf : MapsWf st)
    (F : FoldOut t.txid (parentsOf ks t.inputs) st stMid)
    (hty : t.ty = ATy.transfer ks)
    (hcd : alLookup stMid.deps t.txid = some L) (hL : L ≠ []) :
    PostTx now (pendingResult now stMid t L) t ∧
    (∀ u, PostTx now st u → PostTx now (pendingResult now stMid t L) u) ∧
    StoredOk now (pendingResult now stMid t L) ∧
    MapsWf (pendingResult now stMid t L) ∧
    (∀ u, u.txid ≠ t.txid → FreshT st u →
      FreshT (pendingResult now stMid t L) u) := by
  obtain ⟨hf1, hf2, hf3⟩ := hf
  obtain ⟨w1, w2, w3, w4⟩ := hwf
  obtain ⟨F1, F2, _, _, _, F6, F7, F8, F9, F10, F11, F12, _⟩ := F
  have e1 : (pendingResult now stMid t L).txmap = st.txmap := F1
  have e2 : (pendingResult now stMid t L).inverseDeps = stMid.inverseDeps := rfl
  refine ⟨?_, ?_, ?_, ?_, ?_⟩
  · unfold PostTx
    rw [hty]
    dsimp only
    refine Or.inr ⟨L, ?_, hL, ?_, ?_⟩
    · exact alLookup_alInsert_self ..
    · exact alLookup_alInsert_self ..
    · intro p hp hpn
      rw [e1] at hpn
      obtain ⟨hpl, m, hm, hin⟩ := F10 p hp hpn
      rw [hcd] at hpl
      exact ⟨hpl, m, hm, hin⟩
  · intro u hu
    unfold PostTx at hu ⊢
    cases huty : u.ty with
    | issue =>
      rw [huty] at hu
      dsimp only at hu ⊢
      obtain ⟨hu1, hu2⟩ := hu
      rw [e1, e2, F9 u.txid (by rw [hu1]; rfl)]
      exact ⟨hu1, hu2⟩
    | freezeToggle fs =>
      rw [huty] at hu
      dsimp only at hu ⊢
      rw [e1]
      exact hu
    | transfer ks' =>
      rw [huty] at hu
      dsimp only at hu ⊢
      rcases hu with ⟨hu1, hup, hud, hui, hus⟩ | ⟨l, hud, hlne, hus, hcond⟩
      · have hne : u.txid ≠ t.txid := by
          intro hh
          rw [hh, hf1] at hu1
          cases hu1
        refine Or.inl ⟨?_, ?_, ?_, ?_, ?_⟩
        · rw [e1]
          exact hu1
        · intro p hp
          rw [e1]
          exact hup p hp
        · show alLookup (alInsert stMid.deps t.txid L) u.txid = none
          rw [alLookup_alInsert_ne stMid.deps t.txid u.txid L (fun hh => hne hh.symm),
            F6 u.txid hne]
          exact hud
        · rw [e2, F9 u.txid (by rw [hu1]; rfl)]
          exact hui
        · show alLookup (alInsert stMid.storedTxs t.txid (t, now)) u.txid = none
          rw [alLookup_alInsert_ne stMid.storedTxs t.txid u.txid _
            (fun hh => hne hh.symm), F2]
          exact hus
      · have hne : u.txid ≠ t.txid := by
          intro hh
          rw [hh, hf3] at hus
          cases hus
        refine Or.inr ⟨l, ?_, hlne, ?_, ?_⟩
        · show alLookup (alInsert stMid.deps t.txid L) u.txid = some l
          rw [alLookup_alInsert_ne stMid.deps t.txid u.txid L (fun hh => hne hh.symm),
            F6 u.txid hne]
          exact hud
        · show alLookup (alInsert stMid.storedTxs t.txid (t, now)) u.txid
            = some (u, now)
          rw [alLookup_alInsert_ne stMid.storedTxs t.txid u.txid _
            (fun hh => hne hh.symm), F2]
          exact hus
        · intro p hp hpn
          rw [e1] at hpn
          obtain ⟨hpl, m, hm, hin⟩ := hcond p hp hpn
          obtain ⟨m', hm', hin'⟩ := F8 p m u.txid hm hin
          exact ⟨hpl, m', hm', hin'⟩
  · intro k p hk
    by_cases hkt : k = t.txid
    · subst hkt
      have : p = (t, now) := by
        have hself : alLookup (alInsert stMid.storedTxs t.txid (t, now)) t.txid
            = some (t, now) := alLookup_alInsert_self ..
        rw [show alLookup (pendingResult now stMid t L).storedTxs t.txid
            = some (t, now) from hself] at hk
        exact (Option.some_inj.mp hk).symm
      subst this
      refine ⟨rfl, rfl, ?_⟩
      rw [e1]
      exact hf1
    · have hk' : alLookup stMid.storedTxs k = some p := by
        have := alLookup_alInsert_ne stMid.storedTxs t.txid k
          ((t, now)) (fun hh => hkt hh.symm)
        rw [show alLookup (pendingResult now stMid t L).storedTxs k
            = alLookup (alInsert stMid.storedTxs t.txid (t, now)) k from rfl, this] at hk
        exact hk
      rw [F2] at hk'
      obtain ⟨ha, hb, hc⟩ := hso k p hk'
      refine ⟨ha, hb, ?_⟩
      rw [e1]
      exact hc
  · refine ⟨?_, ?_, ?_, ?_⟩
    · rw [show (pendingResult now stMid t L).txmap = st.txmap from e1]
      exact w1
    · exact nodupKeys_alInsert _ _ _ (F11 w2)
    · exact F12 w3
    · refine nodupKeys_alInsert _ _ _ ?_
      show NodupKeys stMid.storedTxs
      rw [F2]
      exact w4
  · intro u hne hu
    obtain ⟨hu1, hu2, hu3⟩ := hu
    refine ⟨?_, ?_, ?_⟩
    · rw [e1]
      exact hu1
    · show alLookup (alInsert stMid.deps t.txid L) u.txid = none
      rw [alLookup_alInsert_ne stMid.deps t.txid u.txid L (fun hh => hne hh.symm),
        F6 u.txid hne]
      exact hu2
    · show alLookup (alInsert stMid.storedTxs t.txid (t, now)) u.txid = none
      rw [alLookup_alInsert_ne stMid.storedTxs t.txid u.txid _
        (fun hh => hne hh.symm), F2]
      exact hu3

/-- Processing one fresh batch member establishes its postcondition and
preserves everything already established. -/
lemma attachTx_step (now : Nat) (st : GBState) (q a : List Nat) (t : ATx)
    (hf : FreshT st t) (hso : StoredOk now st) (hwf : MapsWf st) :
    PostTx now (attachTx now st q a t).1 t ∧
    (∀ u, PostTx now st u → PostTx now (attachTx now st q a t).1 u) ∧
    StoredOk now (attachTx now st q a t).1 ∧
    MapsWf (attachTx now st q a t).1 ∧
    (∀ u, u.txid ≠ t.txid → FreshT st u → FreshT (attachTx now st q a t).1 u) := by
  cases hty : t.ty with
  | issue =>
    cases hinv : alLookup st.inverseDeps t.txid with
    | none =>
      have hres : attachTx now st q a t =
          ({ st with txmap := alInsert st.txmap t.txid t }, q, a ++ [t.txid]) := by
        simp only [attachTx, hty, set_tx_attached]
        rw [hinv]
      rw [hres]
      have hrest := step_like_attach now st
        { st with txmap := alInsert st.txmap t.txid t } t hf hso hwf rfl rfl
        (Or.inl rfl) rfl
      refine ⟨?_, hrest.1, hrest.2.1, hrest.2.2.1, hrest.2.2.2⟩
      unfold PostTx
      rw [hty]
      dsimp only
      exact ⟨alLookup_alInsert_self .., hinv⟩
    | some ids =>
      have hres : attachTx now st q a t =
          ({ st with
              txmap := alInsert st.txmap t.txid t,
              inverseDeps := alRemove st.inverseDeps t.txid },
            setUnion q ids, a ++ [t.txid]) := by
        simp only [attachTx, hty, set_tx_attached]
        rw [hinv]
      rw [hres]
      have hrest := step_like_attach now st
        { st with
            txmap := alInsert st.txmap t.txid t,
            inverseDeps := alRemove st.inverseDeps t.txid } t hf hso hwf rfl rfl
        (Or.inr rfl) rfl
      refine ⟨?_, hrest.1, hrest.2.1, hrest.2.2.1, hrest.2.2.2⟩
      unfold PostTx
      rw [hty]
      dsimp only
      exact ⟨alLookup_alInsert_self ..,
        alLookup_alRemove_self st.inverseDeps t.txid hwf.2.2.1⟩
  | freezeToggle fs =>
    have hres : attachTx now st q a t =
        (update_freezes { st with txmap := alInsert st.txmap t.txid t } t.txid fs,
          q, a) := by
      simp only [attachTx, hty, set_tx_attached]
    rw [hres]
    have hc := update_freezes_components
      { st with txmap := alInsert st.txmap t.txid t } t.txid fs
    have hrest := step_like_attach now st
      (update_freezes { st with txmap := alInsert st.txmap t.txid t } t.txid fs)
      t hf hso hwf hc.1 hc.2.1 (Or.inl hc.2.2.1) hc.2.2.2.1
    refine ⟨?_, hrest.1, hrest.2.1, hrest.2.2.1, hrest.2.2.2⟩
    unfold PostTx
    rw [hty]
    dsimp only
    rw [hc.1]
    exact alLookup_alInsert_self ..
  | transfer ks =>
    obtain ⟨hf1, hf2, hf3⟩ := hf
    have F := parents_fold_facts t.txid (parentsOf ks t.inputs) st
    cases hcd : alLookup
        ((parentsOf ks t.inputs).foldl (depsFoldStep t.txid) st).deps t.txid with
    | none =>
      -- no pending record: the fold was the identity, the tx is attached
      have hall : ∀ p ∈ parentsOf ks t.inputs,
          (alLookup st.txmap p).isSome = true := by
        intro p hp
        cases hsp : alLookup st.txmap p with
        | some v => rfl
        | none =>
          obtain ⟨hpl, _⟩ := F.2.2.2.2.2.2.2.2.2.1 p hp hsp
          rw [hcd] at hpl
          cases hpl
      have hid : (parentsOf ks t.inputs).foldl (depsFoldStep t.txid) st = st :=
        F.2.2.2.2.2.2.2.2.2.2.2.2 hall
      rw [hid, hf2] at hcd
      cases hcd
      cases hinv : alLookup st.inverseDeps t.txid with
      | none =>
        have hres : attachTx now st q a t =
            ({ st with txmap := alInsert st.txmap t.txid t }, q, a ++ [t.txid]) := by
          simp only [attachTx, hty, handle_transfer, foldl_depsFoldStep_eq]
          rw [hid, hf2]
          simp only [Option.getD_none, List.isEmpty_nil, if_true, set_tx_attached, hty]
          rw [alRemove_alInsert_of_none st.deps t.txid [] hf2, hinv]
        rw [hres]
        have hrest := step_like_attach now st
          { st with txmap := alInsert st.txmap t.txid t } t ⟨hf1, hf2, hf3⟩
          hso hwf rfl rfl (Or.inl rfl) rfl
        refine ⟨?_, hrest.1, hrest.2.1, hrest.2.2.1, hrest.2.2.2⟩
        unfold PostTx
        rw [hty]
        dsimp only
        refine Or.inl ⟨alLookup_alInsert_self .., ?_, hf2, hinv, hf3⟩
        intro p hp
        exact alLookup_alInsert_isSome_mono st.txmap t.txid t p (hall p hp)
      | some ids =>
        have hres : attachTx now st q a t =
            ({ st with
                txmap := alInsert st.txmap t.txid t,
                inverseDeps := alRemove st.inverseDeps t.txid },
              setUnion q ids, a ++ [t.txid]) := by
          simp only [attachTx, hty, handle_transfer, foldl_depsFoldStep_eq]
          rw [hid, hf2]
          simp only [Option.getD_none, List.isEmpty_nil, if_true, set_tx_attached, hty]
          rw [alRemove_alInsert_of_none st.deps t.txid [] hf2, hinv]
        rw [hres]
        have hrest := step_like_attach now st
          { st with
              txmap := alInsert st.txmap t.txid t,
              inverseDeps := alRemove st.inverseDeps t.txid } t ⟨hf1, hf2, hf3⟩
          hso hwf rfl rfl (Or.inr rfl) rfl
        refine ⟨?_, hrest.1, hrest.2.1, hrest.2.2.1, hrest.2.2.2⟩
        unfold PostTx
        rw [hty]
        dsimp only
        refine Or.inl ⟨alLookup_alInsert_self .., ?_,
          hf2, alLookup_alRemove_self st.inverseDeps t.txid hwf.2.2.1, hf3⟩
        intro p hp
        exact alLookup_alInsert_isSome_mono st.txmap t.txid t p (hall p hp)
    | some L =>
      cases L with
      | nil =>
        -- impossible: an empty deps entry cannot appear for a fresh child
        exfalso
        have hall : ∀ p ∈ parentsOf ks t.inputs,
            (alLookup st.txmap p).isSome = true := by
          intro p hp
          cases hsp : alLookup st.txmap p with
          | some v => rfl
          | none =>
            obtain ⟨hpl, _⟩ := F.2.2.2.2.2.2.2.2.2.1 p hp hsp
            rw [hcd] at hpl
            cases hpl
        have hid := F.2.2.2.2.2.2.2.2.2.2.2.2 hall
        rw [hid, hf2] at hcd
        cases hcd
      | cons x xs =>
        have hres : attachTx now st q a t =
            (pendingResult now
              ((parentsOf ks t.inputs).foldl (depsFoldStep t.txid) st) t (x :: xs),
              q, a) := by
          simp only [attachTx, hty, handle_transfer, foldl_depsFoldStep_eq]
          rw [hcd]
          simp only [Option.getD_some, List.isEmpty_cons, if_false]
          rfl
        rw [hres]
        have hp := pending_step_props now st
          ((parentsOf ks t.inputs).foldl (depsFoldStep t.txid) st) t ks (x :: xs)
          ⟨hf1, hf2, hf3⟩ hso hwf F hty hcd (by intro h; cases h)
        exact hp

lemma set_tx_attached_components (st : GBState) (tx : ATx) (a : List Nat) :
    (set_tx_attached st tx a).1.txmap = alInsert st.txmap tx.txid tx ∧
    (set_tx_attached st tx a).1.deps = st.deps ∧
    (set_tx_attached st tx a).1.inverseDeps = st.inverseDeps ∧
    (set_tx_attached st tx a).1.storedTxs = st.storedTxs := by
  unfold set_tx_attached
  cases hty : tx.ty with
  | issue => exact ⟨rfl, rfl, rfl, rfl⟩
  | transfer ks => exact ⟨rfl, rfl, rfl, rfl⟩
  | freezeToggle fs =>
    dsimp only
    have hc := update_freezes_components
      { st with txmap := alInsert st.txmap tx.txid tx } tx.txid fs
    exact ⟨hc.1, hc.2.1, hc.2.2.1, hc.2.2.2.1⟩

/-- Preservation core for the attach loop's attach path: a stored tx is
moved into the transactions storage, its pending record and dependency
entries dropped. -/
lemma loop_attach_props (now : Nat) (st st' : GBState) (t₀ : ATx) (txid : Nat)
    (hso : StoredOk now st)
    (hs : alLookup st.storedTxs txid = some (t₀, now))
    (htm : st'.txmap = alInsert st.txmap txid t₀)
    (hdeps : ∀ k, k ≠ txid → alLookup st'.deps k = alLookup st.deps k)
    (hdeps0 : alLookup st'.deps txid = none)
    (hinvne : ∀ k, k ≠ txid → alLookup st'.inverseDeps k = alLookup st.inverseDeps k)
    (hinv0 : alLookup st'.inverseDeps txid = none)
    (hst : st'.storedTxs = alRemove st.storedTxs txid)
    (hnodupS : NodupKeys st.storedTxs)
    (hup : ∀ l, alLookup st.deps txid = some l →
      ∀ x ∈ l, (alLookup st.txmap x).isSome = true) :
    (∀ u, PostTx now st u → PostTx now st' u) ∧ StoredOk now st' := by
  obtain ⟨ht0, _, htm0⟩ := hso txid (t₀, now) hs
  constructor
  · intro u hu
    unfold PostTx at hu ⊢
    cases huty : u.ty with
    | issue =>
      rw [huty] at hu
      dsimp only at hu ⊢
      obtain ⟨hu1, hu2⟩ := hu
      have hne : u.txid ≠ txid := by
        intro hh
        rw [hh, htm0] at hu1
        cases hu1
      rw [htm, alLookup_alInsert_ne st.txmap txid u.txid t₀ (fun hh => hne hh.symm),
        hinvne u.txid hne]
      exact ⟨hu1, hu2⟩
    | freezeToggle fs =>
      rw [huty] at hu
      dsimp only at hu ⊢
      have hne : u.txid ≠ txid := by
        intro hh
        rw [hh, htm0] at hu
        cases hu
      rw [htm, alLookup_alInsert_ne st.txmap txid u.txid t₀ (fun hh => hne hh.symm)]
      exact hu
    | transfer ks =>
      rw [huty] at hu
      dsimp only at hu ⊢
      rcases hu with ⟨hu1, hup', hud, hui, hus⟩ | ⟨l, hud, hlne, hus, hcond⟩
      · have hne : u.txid ≠ txid := by
          intro hh
          rw [hh, htm0] at hu1
          cases hu1
        refine Or.inl ⟨?_, ?_, ?_, ?_, ?_⟩
        · rw [htm, alLookup_alInsert_ne st.txmap txid u.txid t₀ (fun hh => hne hh.symm)]
          exact hu1
        · intro p hp
          rw [htm]
          exact alLookup_alInsert_isSome_mono st.txmap txid t₀ p (hup' p hp)
        · rw [hdeps u.txid hne]
          exact hud
        · rw [hinvne u.txid hne]
          exact hui
        · rw [hst, alLookup_alRemove_ne' st.storedTxs txid u.txid
            (fun hh => hne hh.symm)]
          exact hus
      · by_cases hut : u.txid = txid
        · -- this is the stored tx being attached: upgrade to attached
          have hu0 : u = t₀ := by
            rw [hut, hs] at hus
            exact congrArg Prod.fst (Option.some_inj.mp hus.symm)
          refine Or.inl ⟨?_, ?_, ?_, ?_, ?_⟩
          · rw [htm, hut, alLookup_alInsert_self, hu0]
          · intro p hp
            rw [htm]
            refine alLookup_alInsert_isSome_mono st.txmap txid t₀ p ?_
            cases hsp : alLookup st.txmap p with
            | some v => rfl
            | none =>
              obtain ⟨hpl, _⟩ := hcond p hp hsp
              have := hup l (by rw [← hut]; exact hud) p hpl
              rw [hsp] at this
              cases this
          · rw [hut]
            exact hdeps0
          · rw [hut]
            exact hinv0
          · rw [hst, hut]
            exact alLookup_alRemove_self st.storedTxs txid hnodupS
        · refine Or.inr ⟨l, ?_, hlne, ?_, ?_⟩
          · rw [hdeps u.txid hut]
            exact hud
          · rw [hst, alLookup_alRemove_ne' st.storedTxs txid u.txid
              (fun hh => hut hh.symm)]
            exact hus
          · intro p hp hpn
            have hpt : p ≠ txid := by
              intro hh
              rw [htm, hh, alLookup_alInsert_self] at hpn
              cases hpn
            rw [htm, alLookup_alInsert_ne st.txmap txid p t₀
              (fun hh => hpt hh.symm)] at hpn
            obtain ⟨hpl, m, hm, hin⟩ := hcond p hp hpn
            refine ⟨hpl, m, ?_, hin⟩
            rw [hinvne p hpt]
            exact hm
  · intro k p hk
    by_cases hkt : k = txid
    · subst hkt
      rw [hst, alLookup_alRemove_self st.storedTxs k hnodupS] at hk
      cases hk
    · rw [hst, alLookup_alRemove_ne' st.storedTxs txid k (fun hh => hkt hh.symm)] at hk
      obtain ⟨ha, hb, hc⟩ := hso k p hk
      refine ⟨ha, hb, ?_⟩
      rw [htm, alLookup_alInsert_ne st.txmap txid k t₀ (fun hh => hkt hh.symm)]
      exact hc

/-- One queued txid of the attach loop preserves every established
postcondition, `StoredOk` and map well-formedness. -/
lemma attachLoopStep_inv (now : Nat) (st : GBState) (lq a : List Nat) (txid : Nat)
    (hso : StoredOk now st) (hwf : MapsWf st) :
    (∀ u, PostTx now st u → PostTx now (attachLoopStep st lq a txid).1 u) ∧
    StoredOk now (attachLoopStep st lq a txid).1 ∧
    MapsWf (attachLoopStep st lq a txid).1 := by
  obtain ⟨w1, w2, w3, w4⟩ := hwf
  cases hd : alLookup st.deps txid with
  | none =>
    cases hs : alLookup st.storedTxs txid with
    | none =>
      have hres : attachLoopStep st lq a txid = (st, lq, a) := by
        simp only [attachLoopStep, remove_attached_parents, hd, Bool.not_true,
          Bool.false_eq_true, if_false, hs]
      rw [hres]
      exact ⟨fun u h => h, hso, ⟨w1, w2, w3, w4⟩⟩
    | some pr =>
      obtain ⟨t₀, ts₀⟩ := pr
      have hts : ts₀ = now := (hso txid (t₀, ts₀) hs).2.1
      rw [hts] at hs
      rcases hsta : set_tx_attached
          { st with
              storedTxs := alRemove st.storedTxs txid,
              deps := alRemove st.deps txid } t₀ a with ⟨stA, aA⟩
      have hc := set_tx_attached_components
        { st with
            storedTxs := alRemove st.storedTxs txid,
            deps := alRemove st.deps txid } t₀ a
      rw [hsta] at hc
      dsimp only at hc
      have ht0 : t₀.txid = txid := (hso txid (t₀, now) hs).1
      have hup0 : ∀ l, alLookup st.deps txid = some l →
          ∀ x ∈ l, (alLookup st.txmap x).isSome = true := by
        intro l hl
        rw [hd] at hl
        cases hl
      cases hinvl : alLookup st.inverseDeps txid with
      | none =>
        have hres : attachLoopStep st lq a txid = (stA, lq, aA) := by
          simp only [attachLoopStep, remove_attached_parents, hd, Bool.not_true,
            Bool.false_eq_true, if_false, hs, hsta]
          rw [show alLookup stA.inverseDeps txid = none from by
            rw [hc.2.2.1]; exact hinvl]
        rw [hres]
        have hmain := loop_attach_props now st stA t₀ txid hso hs
          (by rw [hc.1, ht0])
          (fun k hk => by
            rw [hc.2.1]
            exact alLookup_alRemove_ne' st.deps txid k (fun hh => hk hh.symm))
          (by rw [hc.2.1]; exact alLookup_alRemove_self st.deps txid w2)
          (fun k hk => by rw [hc.2.2.1])
          (by rw [hc.2.2.1]; exact hinvl)
          hc.2.2.2 w4 hup0
        refine ⟨hmain.1, hmain.2, ?_, ?_, ?_, ?_⟩
        · rw [hc.1]
          exact nodupKeys_alInsert _ _ _ w1
        · rw [hc.2.1]
          exact nodupKeys_alRemove _ _ w2
        · rw [hc.2.2.1]
          exact w3
        · rw [hc.2.2.2]
          exact nodupKeys_alRemove _ _ w4
      | some ids =>
        have hres : attachLoopStep st lq a txid =
            ({ stA with inverseDeps := alRemove stA.inverseDeps txid },
              setUnion lq ids, aA) := by
          simp only [attachLoopStep, remove_attached_parents, hd, Bool.not_true,
            Bool.false_eq_true, if_false, hs, hsta]
          rw [show alLookup stA.inverseDeps txid = some ids from by
            rw [hc.2.2.1]; exact hinvl]
        rw [hres]
        have hw3A : NodupKeys stA.inverseDeps := by
          rw [hc.2.2.1]
          exact w3
        have hmain := loop_attach_props now st
          { stA with inverseDeps := alRemove stA.inverseDeps txid } t₀ txid hso hs
          (by rw [show ({ stA with inverseDeps := alRemove stA.inverseDeps txid }
              : GBState).txmap = stA.txmap from rfl, hc.1, ht0])
          (fun k hk => by
            rw [show ({ stA with inverseDeps := alRemove stA.inverseDeps txid }
              : GBState).deps = stA.deps from rfl, hc.2.1]
            exact alLookup_alRemove_ne' st.deps txid k (fun hh => hk hh.symm))
          (by
            rw [show ({ stA with inverseDeps := alRemove stA.inverseDeps txid }
              : GBState).deps = stA.deps from rfl, hc.2.1]
            exact alLookup_alRemove_self st.deps txid w2)
          (fun k hk => by
            show alLookup (alRemove stA.inverseDeps txid) k = _
            rw [alLookup_alRemove_ne' stA.inverseDeps txid k (fun hh => hk hh.symm),
              hc.2.2.1])
          (by
            show alLookup (alRemove stA.inverseDeps txid) txid = none
            exact alLookup_alRemove_self stA.inverseDeps txid hw3A)
          hc.2.2.2 w4 hup0
        refine ⟨hmain.1, hmain.2, ?_, ?_, ?_, ?_⟩
        · rw [show ({ stA with inverseDeps := alRemove stA.inverseDeps txid }
            : GBState).txmap = stA.txmap from rfl, hc.1]
          exact nodupKeys_alInsert _ _ _ w1
        · rw [show ({ stA with inverseDeps := alRemove stA.inverseDeps txid }
            : GBState).deps = stA.deps from rfl, hc.2.1]
          exact nodupKeys_alRemove _ _ w2
        · exact nodupKeys_alRemove _ _ hw3A
        · rw [show ({ stA with inverseDeps := alRemove stA.inverseDeps txid }
            : GBState).storedTxs = stA.storedTxs from rfl, hc.2.2.2]
          exact nodupKeys_alRemove _ _ w4
  | some ids =>
    cases hids : ids.filter (fun id => (alLookup st.txmap id).isNone) with
    | cons y ys =>
      have hres : attachLoopStep st lq a txid =
          ({ st with deps := alInsert st.deps txid (y :: ys) }, lq, a) := by
        simp only [attachLoopStep, remove_attached_parents, hd, hids,
          List.isEmpty_cons, Bool.not_false, if_true]
      rw [hres]
      refine ⟨?_, hso, w1, nodupKeys_alInsert _ _ _ w2, w3, w4⟩
      intro u hu
      unfold PostTx at hu ⊢
      cases huty : u.ty with
      | issue =>
        rw [huty] at hu
        dsimp only at hu ⊢
        exact hu
      | freezeToggle fs =>
        rw [huty] at hu
        dsimp only at hu ⊢
        exact hu
      | transfer ks =>
        rw [huty] at hu
        dsimp only at hu ⊢
        rcases hu with ⟨hu1, hup', hud, hui, hus⟩ | ⟨l, hud, hlne, hus, hcond⟩
        · by_cases hut : u.txid = txid
          · rw [hut, hd] at hud
            cases hud
          · refine Or.inl ⟨hu1, hup', ?_, hui, hus⟩
            show alLookup (alInsert st.deps txid (y :: ys)) u.txid = none
            rw [alLookup_alInsert_ne st.deps txid u.txid _ (fun hh => hut hh.symm)]
            exact hud
        · by_cases hut : u.txid = txid
          · have hlids : l = ids := by
              rw [hut, hd] at hud
              exact (Option.some_inj.mp hud).symm
            refine Or.inr ⟨y :: ys, ?_, List.cons_ne_nil y ys, hus, ?_⟩
            · show alLookup (alInsert st.deps txid (y :: ys)) u.txid = some (y :: ys)
              rw [hut]
              exact alLookup_alInsert_self ..
            · intro p hp hpn
              obtain ⟨hpl, m, hm, hin⟩ := hcond p hp hpn
              refine ⟨?_, m, hm, hin⟩
              rw [← hids]
              refine List.mem_filter.mpr ⟨?_, ?_⟩
              · rw [← hlids]
                exact hpl
              · rw [hpn]
                rfl
          · refine Or.inr ⟨l, ?_, hlne, hus, hcond⟩
            show alLookup (alInsert st.deps txid (y :: ys)) u.txid = some l
            rw [alLookup_alInsert_ne st.deps txid u.txid _ (fun hh => hut hh.symm)]
            exact hud
    | nil =>
      cases hs : alLookup st.storedTxs txid with
      | none =>
        have hres : attachLoopStep st lq a txid =
            ({ st with deps := alInsert st.deps txid [] }, lq, a) := by
          simp only [attachLoopStep, remove_attached_parents, hd, hids,
            List.isEmpty_nil, Bool.not_true, Bool.false_eq_true, if_false, hs]
        rw [hres]
        refine ⟨?_, hso, w1, nodupKeys_alInsert _ _ _ w2, w3, w4⟩
        intro u hu
        unfold PostTx at hu ⊢
        cases huty : u.ty with
        | issue =>
          rw [huty] at hu
          dsimp only at hu ⊢
          exact hu
        | freezeToggle fs =>
          rw [huty] at hu
          dsimp only at hu ⊢
          exact hu
        | transfer ks =>
          rw [huty] at hu
          dsimp only at hu ⊢
          rcases hu with ⟨hu1, hup', hud, hui, hus⟩ | ⟨l, hud, hlne, hus, hcond⟩
          · by_cases hut : u.txid = txid
            · rw [hut, hd] at hud
              cases hud
            · refine Or.inl ⟨hu1, hup', ?_, hui, hus⟩
              show alLookup (alInsert st.deps txid []) u.txid = none
              rw [alLookup_alInsert_ne st.deps txid u.txid _ (fun hh => hut hh.symm)]
              exact hud
          · by_cases hut : u.txid = txid
            · rw [hut, hs] at hus
              cases hus
            · refine Or.inr ⟨l, ?_, hlne, hus, hcond⟩
              show alLookup (alInsert st.deps txid []) u.txid = some l
              rw [alLookup_alInsert_ne st.deps txid u.txid _ (fun hh => hut hh.symm)]
              exact hud
      | some pr =>
        obtain ⟨t₀, ts₀⟩ := pr
        have hts : ts₀ = now := (hso txid (t₀, ts₀) hs).2.1
        rw [hts] at hs
        rcases hsta : set_tx_attached
            { st with
                deps := alRemove (alInsert st.deps txid []) txid,
                storedTxs := alRemove st.storedTxs txid } t₀ a with ⟨stA, aA⟩
        have hc := set_tx_attached_components
          { st with
              deps := alRemove (alInsert st.deps txid []) txid,
              storedTxs := alRemove st.storedTxs txid } t₀ a
        rw [hsta] at hc
        dsimp only at hc
        have ht0 : t₀.txid = txid := (hso txid (t₀, now) hs).1
        have hndI : NodupKeys (alInsert st.deps txid []) :=
          nodupKeys_alInsert _ _ _ w2
        have hdeps' : ∀ k, k ≠ txid →
            alLookup (alRemove (alInsert st.deps txid []) txid) k
              = alLookup st.deps k := by
          intro k hk
          rw [alLookup_alRemove_ne' _ txid k (fun hh => hk hh.symm),
            alLookup_alInsert_ne st.deps txid k _ (fun hh => hk hh.symm)]
        have hup0 : ∀ l, alLookup st.deps txid = some l →
            ∀ x ∈ l, (alLookup st.txmap x).isSome = true := by
          intro l hl x hx
          have hlids : l = ids := by
            rw [hd] at hl
            exact (Option.some_inj.mp hl).symm
          subst hlids
          have hnf := List.filter_eq_nil_iff.mp hids x hx
          cases hsp : alLookup st.txmap x with
          | some v => rfl
          | none =>
            exfalso
            apply hnf
            rw [hsp]
            rfl
        cases hinvl : alLookup st.inverseDeps txid with
        | none =>
          have hres : attachLoopStep st lq a txid = (stA, lq, aA) := by
            simp only [attachLoopStep, remove_attached_parents, hd, hids,
              List.isEmpty_nil, Bool.not_true, Bool.false_eq_true, if_false, hs,
              hsta]
            rw [show alLookup stA.inverseDeps txid = none from by
              rw [hc.2.2.1]; exact hinvl]
          rw [hres]
          have hmain := loop_attach_props now st stA t₀ txid hso hs
            (by rw [hc.1, ht0])
            (fun k hk => by rw [hc.2.1]; exact hdeps' k hk)
            (by rw [hc.2.1]; exact alLookup_alRemove_self _ txid hndI)
            (fun k hk => by rw [hc.2.2.1])
            (by rw [hc.2.2.1]; exact hinvl)
            hc.2.2.2 w4 hup0
          refine ⟨hmain.1, hmain.2, ?_, ?_, ?_, ?_⟩
          · rw [hc.1]
            exact nodupKeys_alInsert _ _ _ w1
          · rw [hc.2.1]
            exact nodupKeys_alRemove _ _ hndI
          · rw [hc.2.2.1]
            exact w3
          · rw [hc.2.2.2]
            exact nodupKeys_alRemove _ _ w4
        | some invIds =>
          have hres : attachLoopStep st lq a txid =
              ({ stA with inverseDeps := alRemove stA.inverseDeps txid },
                setUnion lq invIds, aA) := by
            simp only [attachLoopStep, remove_attached_parents, hd, hids,
              List.isEmpty_nil, Bool.not_true, Bool.false_eq_true, if_false, hs,
              hsta]
            rw [show alLookup stA.inverseDeps txid = some invIds from by
              rw [hc.2.2.1]; exact hinvl]
          rw [hres]
          have hw3A : NodupKeys stA.inverseDeps := by
            rw [hc.2.2.1]
            exact w3
          have hmain := loop_attach_props now st
            { stA with inverseDeps := alRemove stA.inverseDeps txid } t₀ txid hso hs
            (by rw [show ({ stA with inverseDeps := alRemove stA.inverseDeps txid }
                : GBState).txmap = stA.txmap from rfl, hc.1, ht0])
            (fun k hk => by
              rw [show ({ stA with inverseDeps := alRemove stA.inverseDeps txid }
                : GBState).deps = stA.deps from rfl, hc.2.1]
              exact hdeps' k hk)
            (by
              rw [show ({ stA with inverseDeps := alRemove stA.inverseDeps txid }
                : GBState).deps = stA.deps from rfl, hc.2.1]
              exact alLookup_alRemove_self _ txid hndI)
            (fun k hk => by
              show alLookup (alRemove stA.inverseDeps txid) k = _
              rw [alLookup_alRemove_ne' stA.inverseDeps txid k (fun hh => hk hh.symm),
                hc.2.2.1])
            (by
              show alLookup (alRemove stA.inverseDeps txid) txid = none
              exact alLookup_alRemove_self stA.inverseDeps txid hw3A)
            hc.2.2.2 w4 hup0
          refine ⟨hmain.1, hmain.2, ?_, ?_, ?_, ?_⟩
          · rw [show ({ stA with inverseDeps := alRemove stA.inverseDeps txid }
              : GBState).txmap = stA.txmap from rfl, hc.1]
            exact nodupKeys_alInsert _ _ _ w1
          · rw [show ({ stA with inverseDeps := alRemove stA.inverseDeps txid }
              : GBState).deps = stA.deps from rfl, hc.2.1]
            exact nodupKeys_alRemove _ _ hndI
          · exact nodupKeys_alRemove _ _ hw3A
          · rw [show ({ stA with inverseDeps := alRemove stA.inverseDeps txid }
              : GBState).storedTxs = stA.storedTxs from rfl, hc.2.2.2]
            exact nodupKeys_alRemove _ _ w4

lemma attachLoop_fold_inv (now : Nat) (q : List Nat) :
    ∀ (st : GBState) (lq a : List Nat), StoredOk now st → MapsWf st →
    (∀ u, PostTx now st u → PostTx now
      (q.foldl (fun acc txid => attachLoopStep acc.1 acc.2.1 acc.2.2 txid)
        (st, lq, a)).1 u) ∧
    StoredOk now
      (q.foldl (fun acc txid => attachLoopStep acc.1 acc.2.1 acc.2.2 txid)
        (st, lq, a)).1 ∧
    MapsWf
      (q.foldl (fun acc txid => attachLoopStep acc.1 acc.2.1 acc.2.2 txid)
        (st, lq, a)).1 := by
  induction q with
  | nil => exact fun st lq a hso hwf => ⟨fun u h => h, hso, hwf⟩
  | cons x xs ih =>
    intro st lq a hso hwf
    simp only [List.foldl_cons]
    obtain ⟨hp, hso', hwf'⟩ := attachLoopStep_inv now st lq a x hso hwf
    obtain ⟨ihp, ihso, ihwf⟩ := ih (attachLoopStep st lq a x).1
      (attachLoopStep st lq a x).2.1 (attachLoopStep st lq a x).2.2 hso' hwf'
    exact ⟨fun u hu => ihp u (hp u hu), ihso, ihwf⟩

lemma attachLoop_inv (now : Nat) (fuel : Nat) :
    ∀ (st : GBState) (q a : List Nat), StoredOk now st → MapsWf st →
    (∀ u, PostTx now st u → PostTx now (attachLoop fuel st q a).1 u) ∧
    StoredOk now (attachLoop fuel st q a).1 ∧
    MapsWf (attachLoop fuel st q a).1 := by
  induction fuel with
  | zero =>
    intro st q a hso hwf
    cases q with
    | nil => exact ⟨fun u h => h, hso, hwf⟩
    | cons x xs => exact ⟨fun u h => h, hso, hwf⟩
  | succ fuel ih =>
    intro st q a hso hwf
    cases q with
    | nil => exact ⟨fun u h => h, hso, hwf⟩
    | cons x xs =>
      show _ ∧ _ ∧ _
      have hfold := attachLoop_fold_inv now (x :: xs) st [] a hso hwf
      obtain ⟨hp, hso', hwf'⟩ := hfold
      obtain ⟨ihp, ihso, ihwf⟩ := ih
        ((x :: xs).foldl (fun acc txid => attachLoopStep acc.1 acc.2.1 acc.2.2 txid)
          (st, [], a)).1
        ((x :: xs).foldl (fun acc txid => attachLoopStep acc.1 acc.2.1 acc.2.2 txid)
          (st, [], a)).2.1
        ((x :: xs).foldl (fun acc txid => attachLoopStep acc.1 acc.2.1 acc.2.2 txid)
          (st, [], a)).2.2 hso' hwf'
      exact ⟨fun u hu => ihp u (hp u hu), ihso, ihwf⟩

/-- Phase 1 over a fresh batch with distinct txids: postconditions are
established for every member, prior postconditions are preserved, and
all invariants are maintained. -/
lemma phase1_establishes (now : Nat) (b : List ATx) :
    ∀ (st : GBState) (q a : List Nat),
      StoredOk now st → MapsWf st → (∀ t ∈ b, FreshT st t) →
      (b.map ATx.txid).Nodup →
      (∀ u, PostTx now st u → PostTx now
        (b.foldl (fun acc tx => attachTx now acc.1 acc.2.1 acc.2.2 tx)
          (st, q, a)).1 u) ∧
      Processed now b
        (b.foldl (fun acc tx => attachTx now acc.1 acc.2.1 acc.2.2 tx)
          (st, q, a)).1 ∧
      StoredOk now
        (b.foldl (fun acc tx => attachTx now acc.1 acc.2.1 acc.2.2 tx)
          (st, q, a)).1 ∧
      MapsWf
        (b.foldl (fun acc tx => attachTx now acc.1 acc.2.1 acc.2.2 tx)
          (st, q, a)).1 := by
  induction b with
  | nil =>
    intro st q a hso hwf _ _
    exact ⟨fun u h => h, fun t ht => absurd ht (by simp), hso, hwf⟩
  | cons t rest ih =>
    intro st q a hso hwf hfresh hnodup
    simp only [List.foldl_cons]
    obtain ⟨hpost, hpres, hso', hwf', hfresh'⟩ :=
      attachTx_step now st q a t (hfresh t (List.mem_cons_self ..)) hso hwf
    have hnd : t.txid ∉ rest.map ATx.txid := by
      simp only [List.map_cons, List.nodup_cons] at hnodup
      exact hnodup.1
    have hfreshR : ∀ u ∈ rest, FreshT (attachTx now st q a t).1 u := by
      intro u hu
      refine hfresh' u ?_ (hfresh u (List.mem_cons_of_mem _ hu))
      intro hh
      exact hnd (hh ▸ List.mem_map_of_mem ATx.txid hu)
    have hndR : (rest.map ATx.txid).Nodup := by
      simp only [List.map_cons, List.nodup_cons] at hnodup
      exact hnodup.2
    obtain ⟨ihpres, ihproc, ihso, ihwf⟩ := ih (attachTx now st q a t).1
      (attachTx now st q a t).2.1 (attachTx now st q a t).2.2 hso' hwf' hfreshR hndR
    refine ⟨fun u hu => ihpres u (hpres u hu), ?_, ihso, ihwf⟩
    intro u hu
    rcases List.mem_cons.mp hu with rfl | hu
    · exact ihpres u hpost
    · exact ihproc u hu

/-- Theorem B: a first `attach_txs` run from a state with no pending DAG
data, on a batch of yet-unknown transactions with distinct txids, leaves
every batch member either attached or pending as described by `PostTx`. -/
lemma attach_txs_processed (now tpp : Nat) (S0 : GBState) (b : List ATx)
    (h1 : S0.deps = []) (h2 : S0.storedTxs = [])
    (h3 : (b.map ATx.txid).Nodup)
    (h4 : ∀ t ∈ b, alLookup S0.txmap t.txid = none)
    (h5 : NodupKeys S0.txmap) (h6 : NodupKeys S0.inverseDeps) :
    Processed now b (attach_txs now tpp S0 b).1 := by
  have hso : StoredOk now S0 := by
    intro k p hk
    rw [h2] at hk
    cases hk
  have hwf : MapsWf S0 := by
    refine ⟨h5, ?_, h6, ?_⟩
    · rw [h1]
      simp [NodupKeys]
    · rw [h2]
      simp [NodupKeys]
  have hfresh : ∀ t ∈ b, FreshT S0 t := by
    intro t ht
    refine ⟨h4 t ht, ?_, ?_⟩
    · rw [h1]
      rfl
    · rw [h2]
      rfl
  obtain ⟨_, hproc, hso', hwf'⟩ := phase1_establishes now b S0 [] [] hso hwf hfresh h3
  unfold attach_txs
  dsimp only
  obtain ⟨lp, lso, lwf⟩ := attachLoop_inv now
    ((b.foldl (fun acc tx => attachTx now acc.1 acc.2.1 acc.2.2 tx)
      (S0, ([] : List Nat), ([] : List Nat))).1.storedTxs.length + 2)
    (b.foldl (fun acc tx => attachTx now acc.1 acc.2.1 acc.2.2 tx)
      (S0, ([] : List Nat), ([] : List Nat))).1
    (b.foldl (fun acc tx => attachTx now acc.1 acc.2.1 acc.2.2 tx)
      (S0, ([] : List Nat), ([] : List Nat))).2.1
    (b.foldl (fun acc tx => attachTx now acc.1 acc.2.1 acc.2.2 tx)
      (S0, ([] : List Nat), ([] : List Nat))).2.2 hso' hwf'
  intro u hu
  have huloop := lp u (hproc u hu)
  -- pagination does not touch the DAG components
  have hfc := handle_fully_attached_components tpp
    (attachLoop
      ((b.foldl (fun acc tx => attachTx now acc.1 acc.2.1 acc.2.2 tx)
        (S0, ([] : List Nat), ([] : List Nat))).1.storedTxs.length + 2)
      (b.foldl (fun acc tx => attachTx now acc.1 acc.2.1 acc.2.2 tx)
        (S0, ([] : List Nat), ([] : List Nat))).1
      (b.foldl (fun acc tx => attachTx now acc.1 acc.2.1 acc.2.2 tx)
        (S0, ([] : List Nat), ([] : List Nat))).2.1
      (b.foldl (fun acc tx => attachTx now acc.1 acc.2.1 acc.2.2 tx)
        (S0, ([] : List Nat), ([] : List Nat))).2.2).1
    (attachLoop
      ((b.foldl (fun acc tx => attachTx now acc.1 acc.2.1 acc.2.2 tx)
        (S0, ([] : List Nat), ([] : List Nat))).1.storedTxs.length + 2)
      (b.foldl (fun acc tx => attachTx now acc.1 acc.2.1 acc.2.2 tx)
        (S0, ([] : List Nat), ([] : List Nat))).1
      (b.foldl (fun acc tx => attachTx now acc.1 acc.2.1 acc.2.2 tx)
        (S0, ([] : List Nat), ([] : List Nat))).2.1
      (b.foldl (fun acc tx => attachTx now acc.1 acc.2.1 acc.2.2 tx)
        (S0, ([] : List Nat), ([] : List Nat))).2.2).2
  exact postTx_of_dagEq now _ _ u ⟨hfc.1, hfc.2.1, hfc.2.2.1, hfc.2.2.2.1⟩ huloop

/-- **C7 (amended).** For a valid batch — distinct txids not yet in the
transactions storage, starting from a state with no pending DAG records —
running `attach_txs` a second time on the same batch leaves the
transactions storage and the three in-memory DAG maps (`deps`,
`inverse_deps`, `stored_txs`) exactly as after the first run; the page
structure, however, is NOT preserved (see the counterexample), so the
claimed full-state idempotence is restricted to these components. -/
theorem attach_txs_twice_dag_equal (now tpp : Nat) (S0 : GBState) (b : List ATx)
    (h1 : S0.deps = []) (h2 : S0.storedTxs = [])
    (h3 : (b.map ATx.txid).Nodup)
    (h4 : ∀ t ∈ b, alLookup S0.txmap t.txid = none)
    (h5 : NodupKeys S0.txmap) (h6 : NodupKeys S0.inverseDeps) :
    (attach_txs now tpp (attach_txs now tpp S0 b).1 b).1.txmap
        = (attach_txs now tpp S0 b).1.txmap ∧
    (attach_txs now tpp (attach_txs now tpp S0 b).1 b).1.deps
        = (attach_txs now tpp S0 b).1.deps ∧
    (attach_txs now tpp (attach_txs now tpp S0 b).1 b).1.inverseDeps
        = (attach_txs now tpp S0 b).1.inverseDeps ∧
    (attach_txs now tpp (attach_txs now tpp S0 b).1 b).1.storedTxs
        = (attach_txs now tpp S0 b).1.storedTxs :=
  attach_txs_second_run now tpp (attach_txs now tpp S0 b).1 b
    (attach_txs_processed now tpp S0 b h1 h2 h3 h4 h5 h6)

/-- **C7 (witness).** The amended idempotence at a concrete input: a
single issue transaction attached from the empty state. -/
theorem attach_txs_twice_dag_equal_witness :
    (attach_txs 0 100 (attach_txs 0 100 ⟨[], none, [], [], [], [], []⟩
        [⟨1, [], ATy.issue⟩]).1 [⟨1, [], ATy.issue⟩]).1.txmap
      = (attach_txs 0 100 ⟨[], none, [], [], [], [], []⟩
          [⟨1, [], ATy.issue⟩]).1.txmap ∧
    (attach_txs 0 100 (attach_txs 0 100 ⟨[], none, [], [], [], [], []⟩
        [⟨1, [], ATy.issue⟩]).1 [⟨1, [], ATy.issue⟩]).1.deps
      = (attach_txs 0 100 ⟨[], none, [], [], [], [], []⟩
          [⟨1, [], ATy.issue⟩]).1.deps ∧
    (attach_txs 0 100 (attach_txs 0 100 ⟨[], none, [], [], [], [], []⟩
        [⟨1, [], ATy.issue⟩]).1 [⟨1, [], ATy.issue⟩]).1.inverseDeps
      = (attach_txs 0 100 ⟨[], none, [], [], [], [], []⟩
          [⟨1, [], ATy.issue⟩]).1.inverseDeps ∧
    (attach_txs 0 100 (attach_txs 0 100 ⟨[], none, [], [], [], [], []⟩
        [⟨1, [], ATy.issue⟩]).1 [⟨1, [], ATy.issue⟩]).1.storedTxs
      = (attach_txs 0 100 ⟨[], none, [], [], [], [], []⟩
          [⟨1, [], ATy.issue⟩]).1.storedTxs :=
  attach_txs_twice_dag_equal 0 100 ⟨[], none, [], [], [], [], []⟩
    [⟨1, [], ATy.issue⟩] rfl rfl (by decide) (fun t _ => rfl)
    (by simp [NodupKeys]) (by simp [NodupKeys])

/-- **C7 (counterexample).** `attach_txs` is not idempotent on the page
structure: re-attaching the same single-issue batch appends the txid to
page 0 a second time (page 0 holds `[1]` after one run and `[1, 1]`
after two), so the claimed equality of the full state including page
contents fails. -/
theorem attach_txs_not_page_idempotent :
    (attach_txs 0 100 (attach_txs 0 100 ⟨[], none, [], [], [], [], []⟩
        [⟨1, [], ATy.issue⟩]).1 [⟨1, [], ATy.issue⟩]).1.pages
      ≠ (attach_txs 0 100 ⟨[], none, [], [], [], [], []⟩
          [⟨1, [], ATy.issue⟩]).1.pages := by
  decide

/-! ### C8 — attacher cleanup (`handle_cleanup` / `remove_outdated_tx`,
lib.rs:143–211) -/

/-- `GraphBuilder::remove_tx_from_deps` (lib.rs:194): drop the deps entry
of `txid` and delete `txid` from the inverse-deps sets of its parents,
removing sets that become empty. -/
def remove_tx_from_deps (st : GBState) (txid : Nat) : GBState :=
  match alLookup st.deps txid with
  | none => st
  | some ds =>
    ds.foldl
      (fun st dep =>
        match alLookup st.inverseDeps dep with
        | none => st
        | some invDeps =>
          let invDeps' := invDeps.filter (fun id => id ≠ txid)
          if invDeps'.isEmpty then
            { st with inverseDeps := alRemove st.inverseDeps dep }
          else { st with inverseDeps := alInsert st.inverseDeps dep invDeps' })
      { st with deps := alRemove st.deps txid }

/-- The `while !txs_to_remove.is_empty()` BFS of `remove_outdated_tx`
(lib.rs:167–192), with fuel; each round pops the queue head, removes it
from the three maps, and enqueues its not-yet-seen inverse deps. -/
def removeOutdatedGo : Nat → GBState → List Nat → List Nat → GBState × List Nat
  | _, st, [], removed => (st, removed)
  | 0, st, _ :: _, removed => (st, removed)
  | fuel + 1, st, txid :: rest, removed =>
    let st1 := { st with storedTxs := alRemove st.storedTxs txid }
    let st2 := remove_tx_from_deps st1 txid
    match alLookup st2.inverseDeps txid with
    | none => removeOutdatedGo fuel st2 rest removed
    | some invDeps =>
      let st3 := { st2 with inverseDeps := alRemove st2.inverseDeps txid }
      let acc := invDeps.foldl
        (fun acc invDep =>
          if invDep ∈ acc.2 then acc
          else (acc.1 ++ [invDep], acc.2 ++ [invDep]))
        (rest, removed)
      removeOutdatedGo fuel st3 acc.1 acc.2

/-- Total size of the inverse-deps sets: the BFS measure. -/
def totalInv (m : List (Nat × List Nat)) : Nat :=
  (m.map (fun kv => kv.2.length)).sum

/-- Enough fuel for the whole BFS from a single root. -/
def bfsFuel (st : GBState) : Nat := totalInv st.inverseDeps + 2

/-- `GraphBuilder::remove_outdated_tx` (lib.rs:167). -/
def remove_outdated_tx (st : GBState) (txid : Nat) : GBState :=
  (removeOutdatedGo (bfsFuel st) st [txid] [txid]).1

/-- `GraphBuilder::handle_cleanup` (lib.rs:143): `duration_since` fails
(aborting the cleanup) if some pending tx is younger than `now`;
otherwise every pending tx strictly older than `dur` is removed with its
recursive inverse deps. Map iteration order is modelled by list order. -/
def handle_cleanup (now dur : Nat) (st : GBState) : Except String GBState :=
  if st.storedTxs.any (fun kv => now < kv.2.2) then
    Except.error "failed to calculate duration since"
  else
    Except.ok
      (((st.storedTxs.filter (fun kv => dur < now - kv.2.2)).map Prod.fst).foldl
        remove_outdated_tx st)

/-- Absence of a txid from the three in-memory DAG maps. -/
def Absent (st : GBState) (y : Nat) : Prop :=
  alLookup st.storedTxs y = none ∧ alLookup st.deps y = none ∧
  alLookup st.inverseDeps y = none

/-- Every edge of the reference graph `G0` is either still live or its
target is fully removed. -/
def Sane (G0 : List (Nat × List Nat)) (st : GBState) : Prop :=
  ∀ x y, y ∈ (alLookup G0 x).getD [] →
    y ∈ (alLookup st.inverseDeps x).getD [] ∨ Absent st y

lemma alLookup_some_mem {κ α : Type} [DecidableEq κ]
    (m : List (κ × α)) (k : κ) (v : α) (h : alLookup m k = some v) : (k, v) ∈ m := by
  induction m with
  | nil => cases h
  | cons kv rest ih =>
    obtain ⟨k', v'⟩ := kv
    by_cases hk : k' = k
    · subst hk
      rw [alLookup_cons_eq] at h
      obtain rfl : v' = v := Option.some_inj.mp h
      exact List.mem_cons_self ..
    · rw [alLookup_cons_ne k' k v' rest hk] at h
      exact List.mem_cons_of_mem _ (ih h)

lemma alRemove_of_none {κ α : Type} [DecidableEq κ]
    (m : List (κ × α)) (k : κ) (h : alLookup m k = none) : alRemove m k = m := by
  induction m with
  | nil => rfl
  | cons kv rest ih =>
    obtain ⟨k', v'⟩ := kv
    by_cases hk : k' = k
    · subst hk
      rw [alLookup_cons_eq] at h
      cases h
    · rw [alLookup_cons_ne k' k v' rest hk] at h
      rw [alRemove_cons_ne k' k v' rest hk, ih h]

lemma alLookup_alRemove_none {κ α : Type} [DecidableEq κ]
    (m : List (κ × α)) (k y : κ) (h : alLookup m y = none) :
    alLookup (alRemove m k) y = none := by
  by_cases hk : k = y
  · subst hk
    rw [alRemove_of_none m k h]
    exact h
  · rw [alLookup_alRemove_ne' m k y hk]
    exact h

lemma alLookup_alInsert_none {κ α : Type} [DecidableEq κ]
    (m : List (κ × α)) (k y : κ) (v : α) (hk : k ≠ y)
    (h : alLookup m y = none) : alLookup (alInsert m k v) y = none := by
  rw [alLookup_alInsert_ne m k y v hk]
  exact h

lemma totalInv_alRemove_le (m : List (Nat × List Nat)) (k : Nat) :
    totalInv (alRemove m k) ≤ totalInv m := by
  induction m with
  | nil => exact Nat.le_refl _
  | cons kv rest ih =>
    obtain ⟨k', v'⟩ := kv
    by_cases hk : k' = k
    · subst hk
      rw [alRemove_cons_eq]
      simp only [totalInv, List.map_cons, List.sum_cons]
      omega
    · rw [alRemove_cons_ne k' k v' rest hk]
      simp only [totalInv, List.map_cons, List.sum_cons] at ih ⊢
      omega

lemma totalInv_alRemove_eq (m : List (Nat × List Nat)) (k : Nat) (v : List Nat)
    (h : alLookup m k = some v) :
    totalInv (alRemove m k) + v.length = totalInv m := by
  induction m with
  | nil => cases h
  | cons kv rest ih =>
    obtain ⟨k', v'⟩ := kv
    by_cases hk : k' = k
    · subst hk
      rw [alLookup_cons_eq] at h
      obtain rfl : v' = v := Option.some_inj.mp h
      rw [alRemove_cons_eq]
      simp only [totalInv, List.map_cons, List.sum_cons]
      omega
    · rw [alLookup_cons_ne k' k v' rest hk] at h
      rw [alRemove_cons_ne k' k v' rest hk]
      have := ih h
      simp only [totalInv, List.map_cons, List.sum_cons] at this ⊢
      omega

lemma totalInv_alInsert_eq (m : List (Nat × List Nat)) (k : Nat)
    (v w : List Nat) (h : alLookup m k = some w) :
    totalInv (alInsert m k v) + w.length = totalInv m + v.length := by
  induction m with
  | nil => cases h
  | cons kv rest ih =>
    obtain ⟨k', v'⟩ := kv
    by_cases hk : k' = k
    · subst hk
      rw [alLookup_cons_eq] at h
      obtain rfl : v' = w := Option.some_inj.mp h
      rw [alInsert_cons_eq]
      simp only [totalInv, List.map_cons, List.sum_cons]
      omega
    · rw [alLookup_cons_ne k' k v' rest hk] at h
      rw [alInsert_cons_ne k' k v v' rest hk]
      have := ih h
      simp only [totalInv, List.map_cons, List.sum_cons] at this ⊢
      omega

/-- What the inverse-deps pruning fold of `remove_tx_from_deps`
guarantees. -/
def RtfOut (txid : Nat) (st st₁ : GBState) : Prop :=
  st₁.txmap = st.txmap ∧ st₁.storedTxs = st.storedTxs ∧ st₁.deps = st.deps ∧
  (∀ k y, y ∈ (alLookup st.inverseDeps k).getD [] → y ≠ txid →
    y ∈ (alLookup st₁.inverseDeps k).getD []) ∧
  (∀ k, alLookup st.inverseDeps k = none → alLookup st₁.inverseDeps k = none) ∧
  NodupKeys st₁.inverseDeps ∧
  totalInv st₁.inverseDeps ≤ totalInv st.inverseDeps

lemma rtf_fold (txid : Nat) (ds : List Nat) :
    ∀ st : GBState, NodupKeys st.inverseDeps →
    RtfOut txid st
      (ds.foldl
        (fun st dep =>
          match alLookup st.inverseDeps dep with
          | none => st
          | some invDeps =>
            let invDeps' := invDeps.filter (fun id => id ≠ txid)
            if invDeps'.isEmpty then
              { st with inverseDeps := alRemove st.inverseDeps dep }
            else { st with inverseDeps := alInsert st.inverseDeps dep invDeps' })
        st) := by
  induction ds with
  | nil =>
    intro st hnd
    exact ⟨rfl, rfl, rfl, fun k y hy _ => hy, fun k h => h, hnd, Nat.le_refl _⟩
  | cons dep rest ih =>
    intro st hnd
    simp only [List.foldl_cons]
    cases hdep : alLookup st.inverseDeps dep with
    | none =>
      simp only [hdep]
      exact ih st hnd
    | some invDeps =>
      simp only [hdep]
      cases hflt : invDeps.filter (fun id => id ≠ txid) with
      | nil =>
        simp only [hflt, List.isEmpty_nil, if_true]
        obtain ⟨e1, e2, e3, e4, e5, e6, e7⟩ :=
          ih { st with inverseDeps := alRemove st.inverseDeps dep }
            (nodupKeys_alRemove _ _ hnd)
        refine ⟨e1, e2, e3, ?_, ?_, e6, ?_⟩
        · intro k y hy hyt
          by_cases hk : k = dep
          · subst hk
            exfalso
            rw [hdep] at hy
            have : y ∈ invDeps.filter (fun id => id ≠ txid) :=
              List.mem_filter.mpr ⟨hy, by simp [hyt]⟩
            rw [hflt] at this
            cases this
          · refine e4 k y ?_ hyt
            show y ∈ (alLookup (alRemove st.inverseDeps dep) k).getD []
            rw [alLookup_alRemove_ne' st.inverseDeps dep k (fun hh => hk hh.symm)]
            exact hy
        · intro k hk
          refine e5 k ?_
          show alLookup (alRemove st.inverseDeps dep) k = none
          exact alLookup_alRemove_none st.inverseDeps dep k hk
        · refine Nat.le_trans e7 ?_
          exact totalInv_alRemove_le st.inverseDeps dep
      | cons z zs =>
        simp only [hflt, List.isEmpty_cons, Bool.false_eq_true, if_false]
        obtain ⟨e1, e2, e3, e4, e5, e6, e7⟩ :=
          ih { st with inverseDeps := alInsert st.inverseDeps dep (z :: zs) }
            (nodupKeys_alInsert _ _ _ hnd)
        refine ⟨e1, e2, e3, ?_, ?_, e6, ?_⟩
        · intro k y hy hyt
          by_cases hk : k = dep
          · subst hk
            refine e4 k y ?_ hyt
            show y ∈ (alLookup (alInsert st.inverseDeps k (z :: zs)) k).getD []
            rw [alLookup_alInsert_self]
            rw [hdep] at hy
            rw [← hflt]
            exact List.mem_filter.mpr ⟨hy, by simp [hyt]⟩
          · refine e4 k y ?_ hyt
            show y ∈ (alLookup (alInsert st.inverseDeps dep (z :: zs)) k).getD []
            rw [alLookup_alInsert_ne st.inverseDeps dep k _ (fun hh => hk hh.symm)]
            exact hy
        · intro k hk
          have hkd : dep ≠ k := by
            intro hh
            rw [hh, hk] at hdep
            cases hdep
          refine e5 k ?_
          show alLookup (alInsert st.inverseDeps dep (z :: zs)) k = none
          exact alLookup_alInsert_none st.inverseDeps dep k _ hkd hk
        · refine Nat.le_trans e7 ?_
          show totalInv (alInsert st.inverseDeps dep (z :: zs)) ≤ totalInv st.inverseDeps
          have hlen : (z :: zs).length ≤ invDeps.length := by
            rw [← hflt]
            exact List.length_filter_le _ invDeps
          have := totalInv_alInsert_eq st.inverseDeps dep (z :: zs) invDeps hdep
          omega

lemma remove_tx_from_deps_spec (st : GBState) (txid : Nat)
    (hndD : NodupKeys st.deps) (hndI : NodupKeys st.inverseDeps) :
    (remove_tx_from_deps st txid).txmap = st.txmap ∧
    (remove_tx_from_deps st txid).storedTxs = st.storedTxs ∧
    alLookup (remove_tx_from_deps st txid).deps txid = none ∧
    (∀ k, k ≠ txid → alLookup (remove_tx_from_deps st txid).deps k
      = alLookup st.deps k) ∧
    (∀ k y, y ∈ (alLookup st.inverseDeps k).getD [] → y ≠ txid →
      y ∈ (alLookup (remove_tx_from_deps st txid).inverseDeps k).getD []) ∧
    (∀ k, alLookup st.inverseDeps k = none →
      alLookup (remove_tx_from_deps st txid).inverseDeps k = none) ∧
    NodupKeys (remove_tx_from_deps st txid).deps ∧
    NodupKeys (remove_tx_from_deps st txid).inverseDeps ∧
    totalInv (remove_tx_from_deps st txid).inverseDeps
      ≤ totalInv st.inverseDeps := by
  unfold remove_tx_from_deps
  cases hd : alLookup st.deps txid with
  | none =>
    exact ⟨rfl, rfl, hd, fun k _ => rfl, fun k y hy _ => hy, fun k h => h,
      hndD, hndI, Nat.le_refl _⟩
  | some ds =>
    obtain ⟨e1, e2, e3, e4, e5, e6, e7⟩ :=
      rtf_fold txid ds { st with deps := alRemove st.deps txid } hndI
    refine ⟨e1, e2, ?_, ?_, e4, e5, ?_, e6, e7⟩
    · rw [e3]
      show alLookup (alRemove st.deps txid) txid = none
      exact alLookup_alRemove_self st.deps txid hndD
    · intro k hk
      rw [e3]
      show alLookup (alRemove st.deps txid) k = alLookup st.deps k
      exact alLookup_alRemove_ne' st.deps txid k (fun hh => hk hh.symm)
    · rw [e3]
      exact nodupKeys_alRemove _ _ hndD

/-- What the enqueue fold of the BFS guarantees. -/
lemma pushes_spec (ids : List Nat) :
    ∀ (q R : List Nat),
    (∀ x ∈ R, x ∈ (ids.foldl
      (fun acc invDep => if invDep ∈ acc.2 then acc
        else (acc.1 ++ [invDep], acc.2 ++ [invDep])) (q, R)).2) ∧
    (∀ y ∈ ids, y ∈ (ids.foldl
      (fun acc invDep => if invDep ∈ acc.2 then acc
        else (acc.1 ++ [invDep], acc.2 ++ [invDep])) (q, R)).2) ∧
    ((∀ x ∈ q, x ∈ R) → ∀ x ∈ (ids.foldl
      (fun acc invDep => if invDep ∈ acc.2 then acc
        else (acc.1 ++ [invDep], acc.2 ++ [invDep])) (q, R)).1,
      x ∈ (ids.foldl
        (fun acc invDep => if invDep ∈ acc.2 then acc
          else (acc.1 ++ [invDep], acc.2 ++ [invDep])) (q, R)).2) ∧
    (∀ x, x ∈ (ids.foldl
      (fun acc invDep => if invDep ∈ acc.2 then acc
        else (acc.1 ++ [invDep], acc.2 ++ [invDep])) (q, R)).2 →
      x ∉ (ids.foldl
        (fun acc invDep => if invDep ∈ acc.2 then acc
          else (acc.1 ++ [invDep], acc.2 ++ [invDep])) (q, R)).1 →
      x ∈ R ∧ x ∉ q) ∧
    (ids.foldl
      (fun acc invDep => if invDep ∈ acc.2 then acc
        else (acc.1 ++ [invDep], acc.2 ++ [invDep])) (q, R)).1.length
      ≤ q.length + ids.length := by
  induction ids with
  | nil =>
    intro q R
    exact ⟨fun x hx => hx, fun y hy => absurd hy (by simp), fun h x hx => h x hx,
      fun x hx hq => ⟨hx, hq⟩, by simp⟩
  | cons i rest ih =>
    intro q R
    simp only [List.foldl_cons]
    by_cases hi : i ∈ R
    · rw [if_pos hi]
      obtain ⟨p1, p2, p3, p4, p5⟩ := ih q R
      refine ⟨p1, ?_, p3, ?_, ?_⟩
      · intro y hy
        rcases List.mem_cons.mp hy with rfl | hy
        · exact p1 y hi
        · exact p2 y hy
      · exact p4
      · simp only [List.length_cons]
        omega
    · rw [if_neg hi]
      obtain ⟨p1, p2, p3, p4, p5⟩ := ih (q ++ [i]) (R ++ [i])
      refine ⟨?_, ?_, ?_, ?_, ?_⟩
      · intro x hx
        exact p1 x (List.mem_append.mpr (Or.inl hx))
      · intro y hy
        rcases List.mem_cons.mp hy with rfl | hy
        · exact p1 y (List.mem_append.mpr (Or.inr (List.mem_singleton.mpr rfl)))
        · exact p2 y hy
      · intro h
        refine p3 ?_
        intro x hx
        rcases List.mem_append.mp hx with hx | hx
        · exact List.mem_append.mpr (Or.inl (h x hx))
        · exact List.mem_append.mpr (Or.inr hx)
      · intro x hx hq
        obtain ⟨hx1, hx2⟩ := p4 x hx hq
        rcases List.mem_append.mp hx1 with hx1 | hx1
        · refine ⟨hx1, ?_⟩
          intro hc
          exact hx2 (List.mem_append.mpr (Or.inl hc))
        · exfalso
          obtain rfl : x = i := List.mem_singleton.mp hx1
          exact hx2 (List.mem_append.mpr (Or.inr (List.mem_singleton.mpr rfl)))
      · simp only [List.length_cons]
        simp only [List.length_append, List.length_singleton] at p5
        omega

/-- The BFS of `remove_outdated_tx`, with enough fuel, empties its queue;
afterwards every id in the removed set is absent from the three maps,
dead references never resurrect, and every reference-graph edge is live
or its target removed. -/
lemma removeOutdatedGo_spec (G0 : List (Nat × List Nat)) :
    ∀ (fuel : Nat) (st : GBState) (q R : List Nat),
      q.length + totalInv st.inverseDeps < fuel →
      NodupKeys st.deps → NodupKeys st.inverseDeps → NodupKeys st.storedTxs →
      (∀ x y, y ∈ (alLookup G0 x).getD [] →
        y ∈ (alLookup st.inverseDeps x).getD [] ∨ y ∈ R ∨ Absent st y) →
      (∀ x ∈ R, x ∉ q → Absent st x) →
      (∀ x ∈ q, x ∈ R) →
      Sane G0 (removeOutdatedGo fuel st q R).1 ∧
      (∀ x ∈ (removeOutdatedGo fuel st q R).2,
        Absent (removeOutdatedGo fuel st q R).1 x) ∧
      (∀ z, Absent st z → Absent (removeOutdatedGo fuel st q R).1 z) ∧
      (∀ x ∈ R, x ∈ (removeOutdatedGo fuel st q R).2) ∧
      NodupKeys (removeOutdatedGo fuel st q R).1.deps ∧
      NodupKeys (removeOutdatedGo fuel st q R).1.inverseDeps ∧
      NodupKeys (removeOutdatedGo fuel st q R).1.storedTxs ∧
      (removeOutdatedGo fuel st q R).1.txmap = st.txmap := by
  intro fuel
  induction fuel with
  | zero =>
    intro st q R hfuel _ _ _ _ _ _
    exact absurd hfuel (Nat.not_lt_zero _)
  | succ fuel ih =>
    intro st q R hfuel hndD hndI hndS hI1 hI3 hQR
    cases q with
    | nil =>
      refine ⟨?_, ?_, fun z h => h, fun x hx => hx, hndD, hndI, hndS, rfl⟩
      · intro x y hxy
        rcases hI1 x y hxy with h | h | h
        · exact Or.inl h
        · exact Or.inr (hI3 y h (by simp))
        · exact Or.inr h
      · intro x hx
        exact hI3 x hx (by simp)
    | cons txid rest =>
      have htxidR : txid ∈ R := hQR txid (List.mem_cons_self ..)
      obtain ⟨S1, S2, S3, S4, S5, S6, S7, S8, S9⟩ :=
        remove_tx_from_deps_spec { st with storedTxs := alRemove st.storedTxs txid }
          txid hndD hndI
      have hmono12 : ∀ z, Absent st z →
          Absent (remove_tx_from_deps
            { st with storedTxs := alRemove st.storedTxs txid } txid) z := by
        intro z hz
        refine ⟨?_, ?_, ?_⟩
        · rw [S2]
          show alLookup (alRemove st.storedTxs txid) z = none
          exact alLookup_alRemove_none st.storedTxs txid z hz.1
        · by_cases hzt : z = txid
          · rw [hzt]
            exact S3
          · rw [S4 z hzt]
            exact hz.2.1
        · exact S6 z hz.2.2
      cases hinv : alLookup (remove_tx_from_deps
          { st with storedTxs := alRemove st.storedTxs txid } txid).inverseDeps
          txid with
      | none =>
        have hres : removeOutdatedGo (fuel + 1) st (txid :: rest) R =
            removeOutdatedGo fuel
              (remove_tx_from_deps
                { st with storedTxs := alRemove st.storedTxs txid } txid)
              rest R := by
          simp only [removeOutdatedGo, hinv]
        rw [hres]
        have hfuel2 : rest.length + totalInv (remove_tx_from_deps
            { st with storedTxs := alRemove st.storedTxs txid } txid).inverseDeps
            < fuel := by
          have h9 : totalInv (remove_tx_from_deps
              { st with storedTxs := alRemove st.storedTxs txid } txid).inverseDeps
              ≤ totalInv st.inverseDeps := S9
          simp only [List.length_cons] at hfuel
          omega
        have hI1' : ∀ x y, y ∈ (alLookup G0 x).getD [] →
            y ∈ (alLookup (remove_tx_from_deps
              { st with storedTxs := alRemove st.storedTxs txid } txid).inverseDeps
                x).getD [] ∨
            y ∈ R ∨ Absent (remove_tx_from_deps
              { st with storedTxs := alRemove st.storedTxs txid } txid) y := by
          intro x y hxy
          rcases hI1 x y hxy with h | h | h
          · by_cases hyt : y = txid
            · exact Or.inr (Or.inl (hyt ▸ htxidR))
            · exact Or.inl (S5 x y h hyt)
          · exact Or.inr (Or.inl h)
          · exact Or.inr (Or.inr (hmono12 y h))
        have hI3' : ∀ x ∈ R, x ∉ rest →
            Absent (remove_tx_from_deps
              { st with storedTxs := alRemove st.storedTxs txid } txid) x := by
          intro x hx hq
          by_cases hxt : x = txid
          · subst hxt
            refine ⟨?_, S3, hinv⟩
            rw [S2]
            show alLookup (alRemove st.storedTxs x) x = none
            exact alLookup_alRemove_self st.storedTxs x hndS
          · refine hmono12 x (hI3 x hx ?_)
            intro hc
            rcases List.mem_cons.mp hc with hc | hc
            · exact hxt hc
            · exact hq hc
        have hndS2 : NodupKeys (remove_tx_from_deps
            { st with storedTxs := alRemove st.storedTxs txid } txid).storedTxs := by
          rw [S2]
          show NodupKeys (alRemove st.storedTxs txid)
          exact nodupKeys_alRemove _ _ hndS
        obtain ⟨c1, c2, c3, c4, c5, c6, c7, c8⟩ := ih
          (remove_tx_from_deps
            { st with storedTxs := alRemove st.storedTxs txid } txid)
          rest R hfuel2 S7 S8 hndS2 hI1' hI3'
          (fun x hx => hQR x (List.mem_cons_of_mem _ hx))
        exact ⟨c1, c2, fun z hz => c3 z (hmono12 z hz), c4, c5, c6, c7,
          c8.trans S1⟩
      | some invDeps =>
        obtain ⟨p1, p2, p3, p4, p5⟩ := pushes_spec invDeps rest R
        have hres : removeOutdatedGo (fuel + 1) st (txid :: rest) R =
            removeOutdatedGo fuel
              { remove_tx_from_deps
                  { st with storedTxs := alRemove st.storedTxs txid } txid with
                inverseDeps := alRemove (remove_tx_from_deps
                  { st with storedTxs := alRemove st.storedTxs txid }
                    txid).inverseDeps txid }
              (invDeps.foldl
                (fun acc invDep => if invDep ∈ acc.2 then acc
                  else (acc.1 ++ [invDep], acc.2 ++ [invDep])) (rest, R)).1
              (invDeps.foldl
                (fun acc invDep => if invDep ∈ acc.2 then acc
                  else (acc.1 ++ [invDep], acc.2 ++ [invDep])) (rest, R)).2 := by
          simp only [removeOutdatedGo, hinv]
        rw [hres]
        have hmono23 : ∀ z, Absent (remove_tx_from_deps
            { st with storedTxs := alRemove st.storedTxs txid } txid) z →
            Absent { remove_tx_from_deps
                { st with storedTxs := alRemove st.storedTxs txid } txid with
              inverseDeps := alRemove (remove_tx_from_deps
                { st with storedTxs := alRemove st.storedTxs txid }
                  txid).inverseDeps txid } z := by
          intro z hz
          exact ⟨hz.1, hz.2.1, alLookup_alRemove_none _ txid z hz.2.2⟩
        have hfuel3 : (invDeps.foldl
            (fun acc invDep => if invDep ∈ acc.2 then acc
              else (acc.1 ++ [invDep], acc.2 ++ [invDep])) (rest, R)).1.length +
            totalInv { remove_tx_from_deps
                { st with storedTxs := alRemove st.storedTxs txid } txid with
              inverseDeps := alRemove (remove_tx_from_deps
                { st with storedTxs := alRemove st.storedTxs txid }
                  txid).inverseDeps txid }.inverseDeps < fuel := by
          show _ + totalInv (alRemove (remove_tx_from_deps
            { st with storedTxs := alRemove st.storedTxs txid }
              txid).inverseDeps txid) < fuel
          have hrem := totalInv_alRemove_eq (remove_tx_from_deps
            { st with storedTxs := alRemove st.storedTxs txid } txid).inverseDeps
            txid invDeps hinv
          have h9 : totalInv (remove_tx_from_deps
              { st with storedTxs := alRemove st.storedTxs txid } txid).inverseDeps
              ≤ totalInv st.inverseDeps := S9
          simp only [List.length_cons] at hfuel
          omega
        have hI1'' : ∀ x y, y ∈ (alLookup G0 x).getD [] →
            y ∈ (alLookup { remove_tx_from_deps
                { st with storedTxs := alRemove st.storedTxs txid } txid with
              inverseDeps := alRemove (remove_tx_from_deps
                { st with storedTxs := alRemove st.storedTxs txid }
                  txid).inverseDeps txid }.inverseDeps x).getD [] ∨
            y ∈ (invDeps.foldl
              (fun acc invDep => if invDep ∈ acc.2 then acc
                else (acc.1 ++ [invDep], acc.2 ++ [invDep])) (rest, R)).2 ∨
            Absent { remove_tx_from_deps
                { st with storedTxs := alRemove st.storedTxs txid } txid with
              inverseDeps := alRemove (remove_tx_from_deps
                { st with storedTxs := alRemove st.storedTxs txid }
                  txid).inverseDeps txid } y := by
          intro x y hxy
          rcases hI1 x y hxy with h | h | h
          · by_cases hyt : y = txid
            · exact Or.inr (Or.inl (p1 y (hyt ▸ htxidR)))
            · have h2 := S5 x y h hyt
              by_cases hxt : x = txid
              · refine Or.inr (Or.inl (p2 y ?_))
                rw [hxt, hinv] at h2
                exact h2
              · refine Or.inl ?_
                show y ∈ (alLookup (alRemove (remove_tx_from_deps
                  { st with storedTxs := alRemove st.storedTxs txid }
                    txid).inverseDeps txid) x).getD []
                rw [alLookup_alRemove_ne' _ txid x (fun hh => hxt hh.symm)]
                exact h2
          · exact Or.inr (Or.inl (p1 y h))
          · exact Or.inr (Or.inr (hmono23 y (hmono12 y h)))
        have hI3'' : ∀ x ∈ (invDeps.foldl
            (fun acc invDep => if invDep ∈ acc.2 then acc
              else (acc.1 ++ [invDep], acc.2 ++ [invDep])) (rest, R)).2,
            x ∉ (invDeps.foldl
              (fun acc invDep => if invDep ∈ acc.2 then acc
                else (acc.1 ++ [invDep], acc.2 ++ [invDep])) (rest, R)).1 →
            Absent { remove_tx_from_deps
                { st with storedTxs := alRemove st.storedTxs txid } txid with
              inverseDeps := alRemove (remove_tx_from_deps
                { st with storedTxs := alRemove st.storedTxs txid }
                  txid).inverseDeps txid } x := by
          intro x hx hq
          obtain ⟨hxR, hxrest⟩ := p4 x hx hq
          by_cases hxt : x = txid
          · subst hxt
            refine ⟨?_, S3, ?_⟩
            · rw [S2]
              show alLookup (alRemove st.storedTxs x) x = none
              exact alLookup_alRemove_self st.storedTxs x hndS
            · show alLookup (alRemove (remove_tx_from_deps
                { st with storedTxs := alRemove st.storedTxs x }
                  x).inverseDeps x) x = none
              exact alLookup_alRemove_self _ x S8
          · refine hmono23 x (hmono12 x (hI3 x hxR ?_))
            intro hc
            rcases List.mem_cons.mp hc with hc | hc
            · exact hxt hc
            · exact hxrest hc
        have hndS3 : NodupKeys { remove_tx_from_deps
            { st with storedTxs := alRemove st.storedTxs txid } txid with
          inverseDeps := alRemove (remove_tx_from_deps
            { st with storedTxs := alRemove st.storedTxs txid }
              txid).inverseDeps txid }.storedTxs := by
          show NodupKeys (remove_tx_from_deps
            { st with storedTxs := alRemove st.storedTxs txid } txid).storedTxs
          rw [S2]
          show NodupKeys (alRemove st.storedTxs txid)
          exact nodupKeys_alRemove _ _ hndS
        obtain ⟨c1, c2, c3, c4, c5, c6, c7, c8⟩ := ih
          { remove_tx_from_deps
              { st with storedTxs := alRemove st.storedTxs txid } txid with
            inverseDeps := alRemove (remove_tx_from_deps
              { st with storedTxs := alRemove st.storedTxs txid }
                txid).inverseDeps txid }
          (invDeps.foldl
            (fun acc invDep => if invDep ∈ acc.2 then acc
              else (acc.1 ++ [invDep], acc.2 ++ [invDep])) (rest, R)).1
          (invDeps.foldl
            (fun acc invDep => if invDep ∈ acc.2 then acc
              else (acc.1 ++ [invDep], acc.2 ++ [invDep])) (rest, R)).2
          hfuel3 S7 (nodupKeys_alRemove _ _ S8) hndS3 hI1'' hI3''
          (p3 (fun x hx => hQR x (List.mem_cons_of_mem _ hx)))
        refine ⟨c1, c2, fun z hz => c3 z (hmono23 z (hmono12 z hz)),
          fun x hx => c4 x (p1 x hx), c5, c6, c7, c8.trans S1⟩

/-- One `remove_outdated_tx` call: everything reachable from the root in
the reference graph becomes absent, graph sanity and absences are
preserved, and the maps stay well-keyed. -/
lemma remove_outdated_tx_spec (G0 : List (Nat × List Nat)) (st : GBState)
    (txid : Nat)
    (hndD : NodupKeys st.deps) (hndI : NodupKeys st.inverseDeps)
    (hndS : NodupKeys st.storedTxs) (hSane : Sane G0 st) :
    Sane G0 (remove_outdated_tx st txid) ∧
    (∀ y, Relation.ReflTransGen
        (fun a c => c ∈ (alLookup G0 a).getD []) txid y →
      Absent (remove_outdated_tx st txid) y) ∧
    (∀ z, Absent st z → Absent (remove_outdated_tx st txid) z) ∧
    NodupKeys (remove_outdated_tx st txid).deps ∧
    NodupKeys (remove_outdated_tx st txid).inverseDeps ∧
    NodupKeys (remove_outdated_tx st txid).storedTxs ∧
    (remove_outdated_tx st txid).txmap = st.txmap := by
  have hfuel : [txid].length + totalInv st.inverseDeps < bfsFuel st := by
    simp only [List.length_singleton, bfsFuel]
    omega
  obtain ⟨c1, c2, c3, c4, c5, c6, c7, c8⟩ :=
    removeOutdatedGo_spec G0 (bfsFuel st) st [txid] [txid] hfuel hndD hndI hndS
      (fun x y hxy => (hSane x y hxy).imp id (fun h => Or.inr h))
      (fun x hx hq => absurd hx (by simpa using hq))
      (fun x hx => hx)
  have hreachAbs : ∀ y, Relation.ReflTransGen
      (fun a c => c ∈ (alLookup G0 a).getD []) txid y →
      Absent (removeOutdatedGo (bfsFuel st) st [txid] [txid]).1 y := by
    intro y hreach
    induction hreach with
    | refl =>
      exact c2 txid (c4 txid (List.mem_singleton.mpr rfl))
    | tail hab he ihk =>
      rcases c1 _ _ he with h | h
      · exfalso
        rw [ihk.2.2] at h
        simp only [Option.getD_none] at h
        cases h
      · exact h
  exact ⟨c1, hreachAbs, c3, c5, c6, c7, c8⟩

/-- The cleanup fold over the outdated roots. -/
lemma cleanup_fold (G0 : List (Nat × List Nat)) (roots : List Nat) :
    ∀ st : GBState, Sane G0 st →
      NodupKeys st.deps → NodupKeys st.inverseDeps → NodupKeys st.storedTxs →
      Sane G0 (roots.foldl remove_outdated_tx st) ∧
      (∀ z, Absent st z → Absent (roots.foldl remove_outdated_tx st) z) ∧
      (∀ r ∈ roots, ∀ y, Relation.ReflTransGen
          (fun a c => c ∈ (alLookup G0 a).getD []) r y →
        Absent (roots.foldl remove_outdated_tx st) y) ∧
      NodupKeys (roots.foldl remove_outdated_tx st).deps ∧
      NodupKeys (roots.foldl remove_outdated_tx st).inverseDeps ∧
      NodupKeys (roots.foldl remove_outdated_tx st).storedTxs := by
  induction roots with
  | nil =>
    intro st hSane hndD hndI hndS
    exact ⟨hSane, fun z h => h, fun r hr => absurd hr (by simp), hndD, hndI, hndS⟩
  | cons r rest ih =>
    intro st hSane hndD hndI hndS
    simp only [List.foldl_cons]
    obtain ⟨c1, c2, c3, c4, c5, c6, _⟩ :=
      remove_outdated_tx_spec G0 st r hndD hndI hndS hSane
    obtain ⟨d1, d2, d3, d4, d5, d6⟩ := ih (remove_outdated_tx st r) c1 c4 c5 c6
    refine ⟨d1, fun z hz => d2 z (c3 z hz), ?_, d4, d5, d6⟩
    intro r' hr' y hy
    rcases List.mem_cons.mp hr' with rfl | hr'
    · exact d2 y (c2 y hy)
    · exact d3 r' hr' y hy

/-- **C8.** After a successful attacher cleanup, every pending
transaction whose age strictly exceeds `tx_outdated_duration`, and every
transaction reachable from it through the pre-cleanup `inverse_deps`
relation, is absent from `deps`, `inverse_deps` and `stored_txs`. -/
theorem cleanup_removes_outdated_descendants (now dur : Nat) (st st' : GBState)
    (hndD : NodupKeys st.deps) (hndI : NodupKeys st.inverseDeps)
    (hndS : NodupKeys st.storedTxs)
    (hok : handle_cleanup now dur st = Except.ok st')
    (r : Nat) (tx : ATx) (created : Nat)
    (hr : alLookup st.storedTxs r = some (tx, created))
    (hout : dur < now - created)
    (y : Nat)
    (hreach : Relation.ReflTransGen
      (fun a c => c ∈ (alLookup st.inverseDeps a).getD []) r y) :
    alLookup st'.storedTxs y = none ∧ alLookup st'.deps y = none ∧
    alLookup st'.inverseDeps y = none := by
  unfold handle_cleanup at hok
  split at hok
  · cases hok
  · have heq : ((st.storedTxs.filter
        (fun kv => dur < now - kv.2.2)).map Prod.fst).foldl
        remove_outdated_tx st = st' := by
      injection hok
    subst heq
    obtain ⟨_, _, d3, _, _, _⟩ :=
      cleanup_fold st.inverseDeps
        ((st.storedTxs.filter (fun kv => dur < now - kv.2.2)).map Prod.fst) st
        (fun x y hxy => Or.inl hxy) hndD hndI hndS
    refine d3 r ?_ y hreach
    refine List.mem_map.mpr ⟨(r, (tx, created)), ?_, rfl⟩
    refine List.mem_filter.mpr ⟨alLookup_some_mem _ _ _ hr, ?_⟩
    simpa using hout

/-- A small cleanup scenario: pending txs 1, 2, 3 created at time 0,
with 2 an inverse dep of 1 and 3 an inverse dep of 2. -/
def cleanupW0 : GBState :=
  ⟨[], none, [], [], [], [(1, [2]), (2, [3])],
    [(1, (⟨1, [], ATy.issue⟩, 0)), (2, (⟨2, [], ATy.issue⟩, 0)),
      (3, (⟨3, [], ATy.issue⟩, 0))]⟩

def cleanupW1 : GBState :=
  match handle_cleanup 10 1 cleanupW0 with
  | Except.ok s => s
  | Except.error _ => cleanupW0

/-- **C8 (witness).** At time 10 with a one-tick outdated duration, tx 1
is outdated and its transitive inverse dep 3 is gone from all maps. -/
theorem cleanup_removes_outdated_descendants_witness :
    alLookup cleanupW1.storedTxs 3 = none ∧ alLookup cleanupW1.deps 3 = none ∧
    alLookup cleanupW1.inverseDeps 3 = none :=
  cleanup_removes_outdated_descendants 10 1 cleanupW0 cleanupW1
    (by unfold NodupKeys cleanupW0; decide)
    (by unfold NodupKeys cleanupW0; decide)
    (by unfold NodupKeys cleanupW0; decide)
    rfl 1 ⟨1, [], ATy.issue⟩ 0 rfl (by decide) 3
    (Relation.ReflTransGen.tail
      (Relation.ReflTransGen.tail Relation.ReflTransGen.refl
        (show (2 : Nat) ∈ (alLookup cleanupW0.inverseDeps 1).getD [] by decide))
      (show (3 : Nat) ∈ (alLookup cleanupW0.inverseDeps 2).getD [] by decide))

/-! ### C10 — freeze toggles are stored and frozen-marked but never paged
or emitted -/

lemma mem_alInsert {κ α : Type} [DecidableEq κ]
    (m : List (κ × α)) (k : κ) (v : α) (x : κ × α)
    (h : x ∈ alInsert m k v) : x = (k, v) ∨ x ∈ m := by
  induction m with
  | nil => simpa [alInsert] using h
  | cons kv rest ih =>
    obtain ⟨k', v'⟩ := kv
    by_cases hk : k' = k
    · subst hk
      rw [alInsert_cons_eq] at h
      rcases List.mem_cons.mp h with rfl | h
      · exact Or.inl rfl
      · exact Or.inr (List.mem_cons_of_mem _ h)
    · rw [alInsert_cons_ne k' k v v' rest hk] at h
      rcases List.mem_cons.mp h with rfl | h
      · exact Or.inr (List.mem_cons_self ..)
      · rcases ih h with h | h
        · exact Or.inl h
        · exact Or.inr (List.mem_cons_of_mem _ h)

lemma mem_alRemove {κ α : Type} [DecidableEq κ]
    (m : List (κ × α)) (k : κ) (x : κ × α)
    (h : x ∈ alRemove m k) : x ∈ m := by
  induction m with
  | nil => simp [alRemove] at h
  | cons kv rest ih =>
    obtain ⟨k', v'⟩ := kv
    by_cases hk : k' = k
    · subst hk
      rw [alRemove_cons_eq] at h
      exact List.mem_cons_of_mem _ h
    · rw [alRemove_cons_ne k' k v' rest hk] at h
      rcases List.mem_cons.mp h with rfl | h
      · exact List.mem_cons_self ..
      · exact List.mem_cons_of_mem _ (ih h)

lemma update_freezes_cons (st : GBState) (txid : Nat) (f : FreezeTxToggle)
    (rest : List FreezeTxToggle) :
    update_freezes st txid (f :: rest) =
      update_freezes { st with frozen := alInsert st.frozen (f.txid, f.vout) ((alLookup st.frozen (f.txid, f.vout)).getD [] ++ [txid]) } txid rest := rfl

/-- Frozen entries at outpoints not targeted by the toggles are
untouched. -/
lemma update_freezes_frozen_ne (txid : Nat) (fs : List FreezeTxToggle) :
    ∀ (st : GBState) (op : OutPoint),
    (∀ f ∈ fs, ((f.txid, f.vout) : OutPoint) ≠ op) →
    alLookup (update_freezes st txid fs).frozen op = alLookup st.frozen op := by
  induction fs with
  | nil => exact fun st op _ => rfl
  | cons f rest ih =>
    intro st op hop
    rw [update_freezes_cons]
    rw [ih { st with frozen := alInsert st.frozen (f.txid, f.vout) ((alLookup st.frozen (f.txid, f.vout)).getD [] ++ [txid]) } op (fun f' hf' => hop f' (List.mem_cons_of_mem _ hf'))]
    exact alLookup_alInsert_ne st.frozen (f.txid, f.vout) op _
      (hop f (List.mem_cons_self ..))

/-- `update_freezes` appends the freeze txid to every targeted
outpoint's entry (distinct outpoints). -/
lemma update_freezes_frozen (txid : Nat) (fs : List FreezeTxToggle) :
    ∀ st : GBState,
    (fs.map (fun f => ((f.txid, f.vout) : OutPoint))).Nodup →
    ∀ f ∈ fs, alLookup (update_freezes st txid fs).frozen (f.txid, f.vout)
      = some ((alLookup st.frozen (f.txid, f.vout)).getD [] ++ [txid]) := by
  induction fs with
  | nil => exact fun st _ f hf => absurd hf (by simp)
  | cons g rest ih =>
    intro st hnd f hf
    simp only [List.map_cons, List.nodup_cons] at hnd
    rw [update_freezes_cons]
    rcases List.mem_cons.mp hf with rfl | hf
    · rw [update_freezes_frozen_ne txid rest _ (f.txid, f.vout) ?_]
      · exact alLookup_alInsert_self ..
      · intro f' hf' hc
        exact hnd.1 (hc ▸ List.mem_map_of_mem _ hf')
    · have hne : ((g.txid, g.vout) : OutPoint) ≠ (f.txid, f.vout) := by
        intro hc
        exact hnd.1 (hc ▸ List.mem_map_of_mem _ hf)
      rw [ih { st with frozen := alInsert st.frozen (g.txid, g.vout) ((alLookup st.frozen (g.txid, g.vout)).getD [] ++ [txid]) } hnd.2 f hf]
      show some ((alLookup (alInsert st.frozen (g.txid, g.vout) ((alLookup st.frozen (g.txid, g.vout)).getD [] ++ [txid])) (f.txid, f.vout)).getD [] ++ [txid]) = _
      rw [alLookup_alInsert_ne st.frozen (g.txid, g.vout) (f.txid, f.vout) _ hne]

lemma set_tx_attached_pages (st : GBState) (tx : ATx) (a : List Nat) :
    (set_tx_attached st tx a).1.pages = st.pages ∧
    (set_tx_attached st tx a).1.pagesNumber = st.pagesNumber := by
  unfold set_tx_attached
  cases hty : tx.ty with
  | issue => exact ⟨rfl, rfl⟩
  | transfer ks => exact ⟨rfl, rfl⟩
  | freezeToggle fs =>
    dsimp only
    have hc := update_freezes_components
      { st with txmap := alInsert st.txmap tx.txid tx } tx.txid fs
    exact ⟨hc.2.2.2.2.1, hc.2.2.2.2.2⟩

lemma attachTx_pages (now : Nat) (st : GBState) (q a : List Nat) (t : ATx) :
    (attachTx now st q a t).1.pages = st.pages ∧
    (attachTx now st q a t).1.pagesNumber = st.pagesNumber := by
  cases hty : t.ty with
  | issue =>
    cases hinv : alLookup st.inverseDeps t.txid with
    | none =>
      simp only [attachTx, hty, set_tx_attached, hinv]
      refine ⟨?_, ?_⟩ <;> first | rfl | trivial
    | some ids =>
      simp only [attachTx, hty, set_tx_attached, hinv]
      refine ⟨?_, ?_⟩ <;> first | rfl | trivial
  | freezeToggle fs =>
    simp only [attachTx, hty, set_tx_attached]
    have hc := update_freezes_components
      { st with txmap := alInsert st.txmap t.txid t } t.txid fs
    exact ⟨hc.2.2.2.2.1, hc.2.2.2.2.2⟩
  | transfer ks =>
    simp only [attachTx, hty, handle_transfer, foldl_depsFoldStep_eq]
    obtain ⟨_, _, F3, F4, _⟩ :=
      parents_fold_facts t.txid (parentsOf ks t.inputs) st
    split
    · -- attached branch
      cases hinv : alLookup
          ((parentsOf ks t.inputs).foldl (depsFoldStep t.txid) st).inverseDeps
          t.txid with
      | none =>
        simp only [set_tx_attached, hty, hinv]
        exact ⟨F3, F4⟩
      | some ids =>
        simp only [set_tx_attached, hty, hinv]
        exact ⟨F3, F4⟩
    · exact ⟨F3, F4⟩

lemma remove_attached_parents_pages (st : GBState) (txid : Nat) :
    (remove_attached_parents st txid).1.pages = st.pages ∧
    (remove_attached_parents st txid).1.pagesNumber = st.pagesNumber ∧
    (remove_attached_parents st txid).1.storedTxs = st.storedTxs ∧
    (remove_attached_parents st txid).1.inverseDeps = st.inverseDeps := by
  unfold remove_attached_parents
  cases alLookup st.deps txid with
  | none => exact ⟨rfl, rfl, rfl, rfl⟩
  | some ids => exact ⟨rfl, rfl, rfl, rfl⟩

lemma attachLoopStep_pages (st : GBState) (lq a : List Nat) (txid : Nat) :
    (attachLoopStep st lq a txid).1.pages = st.pages ∧
    (attachLoopStep st lq a txid).1.pagesNumber = st.pagesNumber := by
  unfold attachLoopStep
  rcases hrap : remove_attached_parents st txid with ⟨stR, isE⟩
  obtain ⟨hp1, hp2, hp3, _⟩ := remove_attached_parents_pages st txid
  rw [hrap] at hp1 hp2 hp3
  dsimp only at hp1 hp2 hp3
  cases isE with
  | false =>
    simp only [Bool.not_false, if_true]
    exact ⟨hp1, hp2⟩
  | true =>
    simp only [Bool.not_true, Bool.false_eq_true, if_false]
    cases hs : alLookup stR.storedTxs txid with
    | none => exact ⟨hp1, hp2⟩
    | some pr =>
      obtain ⟨t₀, ts₀⟩ := pr
      dsimp only
      have hsp := set_tx_attached_pages
        { stR with
            storedTxs := alRemove stR.storedTxs txid,
            deps := alRemove stR.deps txid } t₀ a
      rcases hsta : set_tx_attached
          { stR with
              storedTxs := alRemove stR.storedTxs txid,
              deps := alRemove stR.deps txid } t₀ a with ⟨stA, aA⟩
      rw [hsta] at hsp
      dsimp only at hsp
      cases hinv : alLookup stA.inverseDeps txid with
      | none => exact ⟨hsp.1.trans hp1, hsp.2.trans hp2⟩
      | some ids => exact ⟨hsp.1.trans hp1, hsp.2.trans hp2⟩

lemma attachPhase1_pages (now : Nat) (b : List ATx) :
    ∀ (st : GBState) (q a : List Nat),
    (b.foldl (fun acc tx => attachTx now acc.1 acc.2.1 acc.2.2 tx)
      (st, q, a)).1.pages = st.pages ∧
    (b.foldl (fun acc tx => attachTx now acc.1 acc.2.1 acc.2.2 tx)
      (st, q, a)).1.pagesNumber = st.pagesNumber := by
  induction b with
  | nil => exact fun st q a => ⟨rfl, rfl⟩
  | cons t rest ih =>
    intro st q a
    simp only [List.foldl_cons]
    obtain ⟨h1, h2⟩ := attachTx_pages now st q a t
    obtain ⟨h3, h4⟩ := ih (attachTx now st q a t).1 (attachTx now st q a t).2.1
      (attachTx now st q a t).2.2
    exact ⟨h3.trans h1, h4.trans h2⟩

lemma attachLoopFold_pages (q : List Nat) :
    ∀ (st : GBState) (lq a : List Nat),
    (q.foldl (fun acc txid => attachLoopStep acc.1 acc.2.1 acc.2.2 txid)
      (st, lq, a)).1.pages = st.pages ∧
    (q.foldl (fun acc txid => attachLoopStep acc.1 acc.2.1 acc.2.2 txid)
      (st, lq, a)).1.pagesNumber = st.pagesNumber := by
  induction q with
  | nil => exact fun st lq a => ⟨rfl, rfl⟩
  | cons x xs ih =>
    intro st lq a
    simp only [List.foldl_cons]
    obtain ⟨h1, h2⟩ := attachLoopStep_pages st lq a x
    obtain ⟨h3, h4⟩ := ih (attachLoopStep st lq a x).1 (attachLoopStep st lq a x).2.1
      (attachLoopStep st lq a x).2.2
    exact ⟨h3.trans h1, h4.trans h2⟩

lemma attachLoop_pages (fuel : Nat) :
    ∀ (st : GBState) (q a : List Nat),
    (attachLoop fuel st q a).1.pages = st.pages ∧
    (attachLoop fuel st q a).1.pagesNumber = st.pagesNumber := by
  induction fuel with
  | zero =>
    intro st q a
    cases q with
    | nil => exact ⟨rfl, rfl⟩
    | cons x xs => exact ⟨rfl, rfl⟩
  | succ fuel ih =>
    intro st q a
    cases q with
    | nil => exact ⟨rfl, rfl⟩
    | cons x xs =>
      show (attachLoop fuel _ _ _).1.pages = st.pages ∧ _
      obtain ⟨h1, h2⟩ := attachLoopFold_pages (x :: xs) st [] a
      obtain ⟨h3, h4⟩ := ih
        ((x :: xs).foldl (fun acc txid => attachLoopStep acc.1 acc.2.1 acc.2.2 txid)
          (st, [], a)).1
        ((x :: xs).foldl (fun acc txid => attachLoopStep acc.1 acc.2.1 acc.2.2 txid)
          (st, [], a)).2.1
        ((x :: xs).foldl (fun acc txid => attachLoopStep acc.1 acc.2.1 acc.2.2 txid)
          (st, [], a)).2.2
      exact ⟨h3.trans h1, h4.trans h2⟩

/-- An id fit for pages and `AttachedTxs` events: the txid of an Issue or
Transfer that entered the attacher through the batch or was already
pending. -/
def GoodId (S0 : GBState) (b : List ATx) (id : Nat) : Prop :=
  ∃ t : ATx, t.txid = id ∧
    (t.ty = ATy.issue ∨ ∃ ks, t.ty = ATy.transfer ks) ∧
    (t ∈ b ∨ ∃ k ts, (k, (t, ts)) ∈ S0.storedTxs)

/-- Provenance of the pending store: every stored tx is a batch member
or was pending initially. -/
def StProv (S0 : GBState) (b : List ATx) (st : GBState) : Prop :=
  ∀ k t ts, (k, (t, ts)) ∈ st.storedTxs →
    (t ∈ b ∨ ∃ k' ts', (k', (t, ts')) ∈ S0.storedTxs)

lemma set_tx_attached_acc (st : GBState) (tx : ATx) (a : List Nat) :
    (set_tx_attached st tx a).2 = a ∨
    ((set_tx_attached st tx a).2 = a ++ [tx.txid] ∧
      (tx.ty = ATy.issue ∨ ∃ ks, tx.ty = ATy.transfer ks)) := by
  unfold set_tx_attached
  cases hty : tx.ty with
  | issue => exact Or.inr ⟨rfl, Or.inl rfl⟩
  | transfer ks => exact Or.inr ⟨rfl, Or.inr ⟨ks, rfl⟩⟩
  | freezeToggle fs => exact Or.inl rfl

lemma attachTx_prov (now : Nat) (S0 : GBState) (b : List ATx) (st : GBState)
    (q a : List Nat) (t : ATx) (ht : t ∈ b) (hsp : StProv S0 b st)
    (hap : ∀ id ∈ a, GoodId S0 b id) :
    StProv S0 b (attachTx now st q a t).1 ∧
    (∀ id ∈ (attachTx now st q a t).2.2, GoodId S0 b id) := by
  have hgood : GoodId S0 b t.txid → ∀ id ∈ a ++ [t.txid], GoodId S0 b id := by
    intro hg id hid
    rcases List.mem_append.mp hid with h | h
    · exact hap id h
    · obtain rfl : id = t.txid := List.mem_singleton.mp h
      exact hg
  cases hty : t.ty with
  | issue =>
    cases hinv : alLookup st.inverseDeps t.txid with
    | none =>
      simp only [attachTx, hty, set_tx_attached, hinv]
      exact ⟨hsp, hgood ⟨t, rfl, Or.inl hty, Or.inl ht⟩⟩
    | some ids =>
      simp only [attachTx, hty, set_tx_attached, hinv]
      exact ⟨hsp, hgood ⟨t, rfl, Or.inl hty, Or.inl ht⟩⟩
  | freezeToggle fs =>
    simp only [attachTx, hty, set_tx_attached]
    have hc := update_freezes_components
      { st with txmap := alInsert st.txmap t.txid t } t.txid fs
    refine ⟨?_, hap⟩
    intro k u ts hm
    rw [hc.2.2.2.1] at hm
    exact hsp k u ts hm
  | transfer ks =>
    simp only [attachTx, hty, handle_transfer, foldl_depsFoldStep_eq]
    obtain ⟨_, F2, _⟩ := parents_fold_facts t.txid (parentsOf ks t.inputs) st
    split
    · cases hinv : alLookup
          ((parentsOf ks t.inputs).foldl (depsFoldStep t.txid) st).inverseDeps
          t.txid with
      | none =>
        simp only [set_tx_attached, hty, hinv]
        refine ⟨?_, hgood ⟨t, rfl, Or.inr ⟨ks, hty⟩, Or.inl ht⟩⟩
        intro k u ts hm
        rw [show ((parentsOf ks t.inputs).foldl (depsFoldStep t.txid)
          st).storedTxs = st.storedTxs from F2] at hm
        exact hsp k u ts hm
      | some ids =>
        simp only [set_tx_attached, hty, hinv]
        refine ⟨?_, hgood ⟨t, rfl, Or.inr ⟨ks, hty⟩, Or.inl ht⟩⟩
        intro k u ts hm
        rw [show ((parentsOf ks t.inputs).foldl (depsFoldStep t.txid)
          st).storedTxs = st.storedTxs from F2] at hm
        exact hsp k u ts hm
    · refine ⟨?_, hap⟩
      intro k u ts hm
      rcases mem_alInsert _ _ _ _ hm with h | h
      · obtain ⟨h1, h2⟩ := Prod.mk.injEq .. ▸ h
        obtain ⟨h3, _⟩ := Prod.mk.injEq .. ▸ h2
        exact Or.inl (h3 ▸ ht)
      · rw [show ((parentsOf ks t.inputs).foldl (depsFoldStep t.txid)
          st).storedTxs = st.storedTxs from F2] at h
        exact hsp k u ts h

lemma attachLoopStep_prov (S0 : GBState) (b : List ATx) (st : GBState)
    (lq a : List Nat) (txid : Nat) (hsp : StProv S0 b st)
    (hap : ∀ id ∈ a, GoodId S0 b id) :
    StProv S0 b (attachLoopStep st lq a txid).1 ∧
    (∀ id ∈ (attachLoopStep st lq a txid).2.2, GoodId S0 b id) := by
  unfold attachLoopStep
  rcases hrap : remove_attached_parents st txid with ⟨stR, isE⟩
  obtain ⟨_, _, hp3, _⟩ := remove_attached_parents_pages st txid
  rw [hrap] at hp3
  dsimp only at hp3
  have hspR : StProv S0 b stR := by
    intro k u ts hm
    rw [hp3] at hm
    exact hsp k u ts hm
  cases isE with
  | false =>
    simp only [Bool.not_false, if_true]
    exact ⟨hspR, hap⟩
  | true =>
    simp only [Bool.not_true, Bool.false_eq_true, if_false]
    cases hs : alLookup stR.storedTxs txid with
    | none => exact ⟨hspR, hap⟩
    | some pr =>
      obtain ⟨t₀, ts₀⟩ := pr
      dsimp only
      have hprov : t₀ ∈ b ∨ ∃ k' ts', (k', (t₀, ts')) ∈ S0.storedTxs :=
        hspR txid t₀ ts₀ (alLookup_some_mem _ _ _ hs)
      have hsc := set_tx_attached_components
        { stR with
            storedTxs := alRemove stR.storedTxs txid,
            deps := alRemove stR.deps txid } t₀ a
      have hacc := set_tx_attached_acc
        { stR with
            storedTxs := alRemove stR.storedTxs txid,
            deps := alRemove stR.deps txid } t₀ a
      rcases hsta : set_tx_attached
          { stR with
              storedTxs := alRemove stR.storedTxs txid,
              deps := alRemove stR.deps txid } t₀ a with ⟨stA, aA⟩
      rw [hsta] at hsc hacc
      dsimp only at hsc hacc
      have hspA : StProv S0 b stA := by
        intro k u ts hm
        rw [hsc.2.2.2] at hm
        exact hspR k u ts (mem_alRemove _ _ _ hm)
      have hapA : ∀ id ∈ aA, GoodId S0 b id := by
        rcases hacc with h | ⟨h, hty⟩
        · rw [h]
          exact hap
        · rw [h]
          intro id hid
          rcases List.mem_append.mp hid with hid | hid
          · exact hap id hid
          · obtain rfl : id = t₀.txid := List.mem_singleton.mp hid
            exact ⟨t₀, rfl, hty, hprov⟩
      cases hinv : alLookup stA.inverseDeps txid with
      | none => exact ⟨hspA, hapA⟩
      | some ids => exact ⟨hspA, hapA⟩

lemma attachLoopFold_prov (S0 : GBState) (b : List ATx) (q : List Nat) :
    ∀ (st : GBState) (lq a : List Nat), StProv S0 b st →
    (∀ id ∈ a, GoodId S0 b id) →
    StProv S0 b
      (q.foldl (fun acc txid => attachLoopStep acc.1 acc.2.1 acc.2.2 txid)
        (st, lq, a)).1 ∧
    (∀ id ∈ (q.foldl (fun acc txid => attachLoopStep acc.1 acc.2.1 acc.2.2 txid)
        (st, lq, a)).2.2, GoodId S0 b id) := by
  induction q with
  | nil => exact fun st lq a hsp hap => ⟨hsp, hap⟩
  | cons x xs ih =>
    intro st lq a hsp hap
    simp only [List.foldl_cons]
    obtain ⟨h1, h2⟩ := attachLoopStep_prov S0 b st lq a x hsp hap
    exact ih (attachLoopStep st lq a x).1 (attachLoopStep st lq a x).2.1
      (attachLoopStep st lq a x).2.2 h1 h2

lemma attachLoop_prov (S0 : GBState) (b : List ATx) (fuel : Nat) :
    ∀ (st : GBState) (q a : List Nat), StProv S0 b st →
    (∀ id ∈ a, GoodId S0 b id) →
    StProv S0 b (attachLoop fuel st q a).1 ∧
    (∀ id ∈ (attachLoop fuel st q a).2, GoodId S0 b id) := by
  induction fuel with
  | zero =>
    intro st q a hsp hap
    cases q with
    | nil => exact ⟨hsp, hap⟩
    | cons x xs => exact ⟨hsp, hap⟩
  | succ fuel ih =>
    intro st q a hsp hap
    cases q with
    | nil => exact ⟨hsp, hap⟩
    | cons x xs =>
      show StProv S0 b (attachLoop fuel _ _ _).1 ∧ _
      obtain ⟨h1, h2⟩ := attachLoopFold_prov S0 b (x :: xs) st [] a hsp hap
      exact ih
        ((x :: xs).foldl (fun acc txid => attachLoopStep acc.1 acc.2.1 acc.2.2 txid)
          (st, [], a)).1
        ((x :: xs).foldl (fun acc txid => attachLoopStep acc.1 acc.2.1 acc.2.2 txid)
          (st, [], a)).2.1
        ((x :: xs).foldl (fun acc txid => attachLoopStep acc.1 acc.2.1 acc.2.2 txid)
          (st, [], a)).2.2 h1 h2

lemma attachPhase1_prov (now : Nat) (S0 : GBState) (b : List ATx)
    (ds : List ATx) :
    ∀ (st : GBState) (q a : List Nat), (∀ t ∈ ds, t ∈ b) →
    StProv S0 b st → (∀ id ∈ a, GoodId S0 b id) →
    StProv S0 b
      (ds.foldl (fun acc tx => attachTx now acc.1 acc.2.1 acc.2.2 tx)
        (st, q, a)).1 ∧
    (∀ id ∈ (ds.foldl (fun acc tx => attachTx now acc.1 acc.2.1 acc.2.2 tx)
        (st, q, a)).2.2, GoodId S0 b id) := by
  induction ds with
  | nil => exact fun st q a _ hsp hap => ⟨hsp, hap⟩
  | cons t rest ih =>
    intro st q a hsub hsp hap
    simp only [List.foldl_cons]
    obtain ⟨h1, h2⟩ := attachTx_prov now S0 b st q a t
      (hsub t (List.mem_cons_self ..)) hsp hap
    exact ih (attachTx now st q a t).1 (attachTx now st q a t).2.1
      (attachTx now st q a t).2.2
      (fun u hu => hsub u (List.mem_cons_of_mem _ hu)) h1 h2

lemma handle_fully_attached_emitted (tpp : Nat) (st : GBState) (a : List Nat) :
    (handle_fully_attached_txs tpp st a).2 = a := by
  unfold handle_fully_attached_txs
  split
  · next h => exact (List.isEmpty_iff.mp h).symm
  · rfl

/-- Every id emitted by `attach_txs` is the txid of an Issue or Transfer
from the batch or the initial pending store. -/
lemma attach_txs_emitted_good (now tpp : Nat) (S0 : GBState) (b : List ATx) :
    ∀ id ∈ (attach_txs now tpp S0 b).2, GoodId S0 b id := by
  unfold attach_txs
  dsimp only
  obtain ⟨h1, h2⟩ := attachPhase1_prov now S0 b b S0 [] [] (fun t ht => ht)
    (fun k u ts hm => Or.inr ⟨k, ts, hm⟩) (fun id hid => absurd hid (by simp))
  obtain ⟨h3, h4⟩ := attachLoop_prov S0 b
    ((b.foldl (fun acc tx => attachTx now acc.1 acc.2.1 acc.2.2 tx)
      (S0, ([] : List Nat), ([] : List Nat))).1.storedTxs.length + 2)
    (b.foldl (fun acc tx => attachTx now acc.1 acc.2.1 acc.2.2 tx)
      (S0, ([] : List Nat), ([] : List Nat))).1
    (b.foldl (fun acc tx => attachTx now acc.1 acc.2.1 acc.2.2 tx)
      (S0, ([] : List Nat), ([] : List Nat))).2.1
    (b.foldl (fun acc tx => attachTx now acc.1 acc.2.1 acc.2.2 tx)
      (S0, ([] : List Nat), ([] : List Nat))).2.2 h1 h2
  rw [handle_fully_attached_emitted]
  exact h4

lemma mem_getD_alInsert (m : List (Nat × List Nat)) (q k id : Nat)
    (v : List Nat)
    (h : id ∈ (alLookup (alInsert m q v) k).getD []) :
    id ∈ (alLookup m k).getD [] ∨ (q = k ∧ id ∈ v) := by
  by_cases hk : q = k
  · subst hk
    rw [alLookup_alInsert_self] at h
    exact Or.inr ⟨rfl, h⟩
  · rw [alLookup_alInsert_ne m q k v hk] at h
    exact Or.inl h

/-- Anything found in a page after `put_txs_ids_to_page` was already
there or comes from the written ids. -/
lemma put_page_mem (tpp : Nat) (st : GBState) (txids : List Nat) (k id : Nat)
    (h : id ∈ (alLookup (put_txs_ids_to_page tpp st txids).pages k).getD []) :
    id ∈ (alLookup st.pages k).getD [] ∨ id ∈ txids := by
  unfold put_txs_ids_to_page at h
  dsimp only at h
  have hmid : id ∈ (alLookup
      (if (txids.take (min (tpp - ((alLookup st.pages
          (st.pagesNumber.getD 0)).getD []).length) txids.length)).isEmpty
        then st
        else { st with pages := alInsert st.pages (st.pagesNumber.getD 0) (((alLookup st.pages (st.pagesNumber.getD 0)).getD []) ++ txids.take (min (tpp - ((alLookup st.pages (st.pagesNumber.getD 0)).getD []).length) txids.length)) }).pages
      k).getD [] →
      id ∈ (alLookup st.pages k).getD [] ∨ id ∈ txids := by
    intro hm
    split at hm
    · exact Or.inl hm
    · rcases mem_getD_alInsert _ _ _ _ _ hm with hm | ⟨hkk, hm⟩
      · exact Or.inl hm
      · rcases List.mem_append.mp hm with hm | hm
        · rw [← hkk]
          exact Or.inl hm
        · exact Or.inr (List.mem_of_mem_take hm)
  split at h
  · exact hmid h
  · rcases mem_getD_alInsert _ _ _ _ _ h with h | ⟨_, h⟩
    · exact hmid h
    · exact Or.inr (List.mem_of_mem_drop h)

lemma chunksGo_mem (n : Nat) :
    ∀ (fuel : Nat) (l c : List Nat) (x : Nat),
      c ∈ chunksGo n fuel l → x ∈ c → x ∈ l := by
  intro fuel
  induction fuel with
  | zero =>
    intro l c x hc hx
    cases l with
    | nil => cases hc
    | cons a as =>
      obtain rfl : c = a :: as := by simpa [chunksGo] using hc
      exact hx
  | succ fuel ih =>
    intro l c x hc hx
    cases l with
    | nil => cases hc
    | cons a as =>
      simp only [chunksGo] at hc
      by_cases hn : n = 0
      · rw [if_pos hn] at hc
        obtain rfl : c = a :: as := by simpa using hc
        exact hx
      · rw [if_neg hn] at hc
        rcases List.mem_cons.mp hc with rfl | hc
        · exact List.mem_of_mem_take hx
        · exact List.mem_of_mem_drop (ih ((a :: as).drop n) c x hc hx)

lemma pages_fold_mem (tpp : Nat) (chunks : List (List Nat)) :
    ∀ (st : GBState) (k id : Nat),
      id ∈ (alLookup (chunks.foldl (put_txs_ids_to_page tpp) st).pages k).getD [] →
      id ∈ (alLookup st.pages k).getD [] ∨ ∃ c ∈ chunks, id ∈ c := by
  induction chunks with
  | nil => exact fun st k id h => Or.inl h
  | cons c rest ih =>
    intro st k id h
    simp only [List.foldl_cons] at h
    rcases ih (put_txs_ids_to_page tpp st c) k id h with h | ⟨c', hc', hid⟩
    · rcases put_page_mem tpp st c k id h with h | h
      · exact Or.inl h
      · exact Or.inr ⟨c, List.mem_cons_self .., h⟩
    · exact Or.inr ⟨c', List.mem_cons_of_mem _ hc', hid⟩

lemma handle_fully_attached_mem (tpp : Nat) (st : GBState) (a : List Nat)
    (k id : Nat)
    (h : id ∈ (alLookup (handle_fully_attached_txs tpp st a).1.pages k).getD []) :
    id ∈ (alLookup st.pages k).getD [] ∨ id ∈ a := by
  unfold handle_fully_attached_txs at h
  split at h
  · exact Or.inl h
  · rcases pages_fold_mem tpp (chunksOf tpp a) st k id h with h | ⟨c, hc, hid⟩
    · exact Or.inl h
    · exact Or.inr (chunksGo_mem tpp a.length a c id hc hid)

/-- Anything on a page after `attach_txs` was on a page before or is
part of the emitted batch. -/
lemma attach_txs_pages_mem (now tpp : Nat) (S0 : GBState) (b : List ATx)
    (k id : Nat)
    (h : id ∈ (alLookup (attach_txs now tpp S0 b).1.pages k).getD []) :
    id ∈ (alLookup S0.pages k).getD [] ∨ id ∈ (attach_txs now tpp S0 b).2 := by
  unfold attach_txs at h ⊢
  dsimp only at h ⊢
  rw [handle_fully_attached_emitted]
  rcases handle_fully_attached_mem tpp _ _ k id h with h | h
  · obtain ⟨hl, _⟩ := attachLoop_pages
      ((b.foldl (fun acc tx => attachTx now acc.1 acc.2.1 acc.2.2 tx)
        (S0, ([] : List Nat), ([] : List Nat))).1.storedTxs.length + 2)
      (b.foldl (fun acc tx => attachTx now acc.1 acc.2.1 acc.2.2 tx)
        (S0, ([] : List Nat), ([] : List Nat))).1
      (b.foldl (fun acc tx => attachTx now acc.1 acc.2.1 acc.2.2 tx)
        (S0, ([] : List Nat), ([] : List Nat))).2.1
      (b.foldl (fun acc tx => attachTx now acc.1 acc.2.1 acc.2.2 tx)
        (S0, ([] : List Nat), ([] : List Nat))).2.2
    rw [hl] at h
    obtain ⟨hp, _⟩ := attachPhase1_pages now b S0 [] []
    rw [hp] at h
    exact Or.inl h
  · exact Or.inr h

/-- **C10.** Marking a FreezeToggle attached stores the transaction and
appends its txid to each targeted outpoint's frozen entry, leaves the
DAG maps, pages and the attached batch untouched; and everything
`attach_txs` emits or writes to pages (beyond pre-existing page content)
is the txid of an Issue or Transfer from the batch or the pending
store — never a FreezeToggle. -/
theorem freeze_toggle_stored_not_paged :
    (∀ (st : GBState) (a : List Nat) (tx : ATx) (fs : List FreezeTxToggle),
      tx.ty = ATy.freezeToggle fs →
      (set_tx_attached st tx a).2 = a ∧
      (set_tx_attached st tx a).1.txmap = alInsert st.txmap tx.txid tx ∧
      (set_tx_attached st tx a).1.deps = st.deps ∧
      (set_tx_attached st tx a).1.inverseDeps = st.inverseDeps ∧
      (set_tx_attached st tx a).1.storedTxs = st.storedTxs ∧
      (set_tx_attached st tx a).1.pages = st.pages ∧
      (set_tx_attached st tx a).1.pagesNumber = st.pagesNumber ∧
      ((fs.map (fun f => ((f.txid, f.vout) : OutPoint))).Nodup →
        ∀ f ∈ fs, alLookup (set_tx_attached st tx a).1.frozen (f.txid, f.vout)
          = some ((alLookup st.frozen (f.txid, f.vout)).getD [] ++ [tx.txid]))) ∧
    (∀ (now tpp : Nat) (S0 : GBState) (b : List ATx),
      (∀ id ∈ (attach_txs now tpp S0 b).2, GoodId S0 b id) ∧
      (∀ k id, id ∈ (alLookup (attach_txs now tpp S0 b).1.pages k).getD [] →
        id ∈ (alLookup S0.pages k).getD [] ∨ GoodId S0 b id)) := by
  constructor
  · intro st a tx fs hty
    simp only [set_tx_attached, hty]
    have hc := update_freezes_components
      { st with txmap := alInsert st.txmap tx.txid tx } tx.txid fs
    refine ⟨by trivial, hc.1, hc.2.1, hc.2.2.1, hc.2.2.2.1, hc.2.2.2.2.1,
      hc.2.2.2.2.2, ?_⟩
    intro hnd f hf
    exact update_freezes_frozen tx.txid fs
      { st with txmap := alInsert st.txmap tx.txid tx } hnd f hf
  · intro now tpp S0 b
    refine ⟨attach_txs_emitted_good now tpp S0 b, ?_⟩
    intro k id h
    rcases attach_txs_pages_mem now tpp S0 b k id h with h | h
    · exact Or.inl h
    · exact Or.inr (attach_txs_emitted_good now tpp S0 b id h)

/-- **C10 (witness).** A concrete freeze toggle is stored, marks its
outpoint frozen, is not pushed to the attached batch; and a concrete
attached transfer's emitted id is a good (non-freeze) id. -/
theorem freeze_toggle_stored_not_paged_witness :
    (set_tx_attached ⟨[], none, [], [], [], [], []⟩
      ⟨5, [], ATy.freezeToggle [⟨7, 0⟩]⟩ [9]).2 = [9] ∧
    alLookup (set_tx_attached ⟨[], none, [], [], [], [], []⟩
        ⟨5, [], ATy.freezeToggle [⟨7, 0⟩]⟩ [9]).1.frozen (7, 0)
      = some ((alLookup (⟨[], none, [], [], [], [], []⟩
          : GBState).frozen (7, 0)).getD [] ++ [5]) ∧
    GoodId ⟨[], none, [], [], [], [], []⟩ [⟨5, [], ATy.transfer []⟩] 5 :=
  ⟨(freeze_toggle_stored_not_paged.1 ⟨[], none, [], [], [], [], []⟩ [9]
      ⟨5, [], ATy.freezeToggle [⟨7, 0⟩]⟩ [⟨7, 0⟩] rfl).1,
    (freeze_toggle_stored_not_paged.1 ⟨[], none, [], [], [], [], []⟩ [9]
      ⟨5, [], ATy.freezeToggle [⟨7, 0⟩]⟩ [⟨7, 0⟩] rfl).2.2.2.2.2.2.2
      (by decide) ⟨7, 0⟩ (by decide),
    (freeze_toggle_stored_not_paged.2 0 100 ⟨[], none, [], [], [], [], []⟩
      [⟨5, [], ATy.transfer []⟩]).1 5 (by decide)⟩

end Yuv
